import Mathlib

/-!
# ralph: environment handler and tree search skeleton

A shallow embedding of `include/world.hpp`, `include/agents/tree_search/tree_search.ipp`,
`include/agents/dual_uct.ipp` and `include/agents/tree_search/pareto_uct/exact_pareto_uct.hpp`.

Conventions.
* A C++ object that is mutated in place becomes a value that is passed in and returned.
* `float` accumulators of the handler are values of an arbitrary type `R` with `+` and `0`;
  nothing is assumed about `+`, so every statement holds for IEEE addition as well.
* `int num_steps` is an `Int` that `++num_steps` keeps within 32 bits: the incremented value
  wraps around (`wrap_int`), from `2147483647` to `-2147483648`.
-/

namespace world

/-- The tuple `outcome_t<S>` of `world.hpp`: state, reward, penalty, is_over. -/
structure outcome_t (S R : Type) where
  state : S
  reward : R
  penalty : R
  is_over : Bool
deriving DecidableEq, Repr

/-- The abstract class `environment<S, A>`: one field per pure virtual member function
(`name` apart). `E` is the type of the internal state of the environment object; a member
function that mutates the object returns the new internal state. -/
structure environment (S A R E : Type) where
  num_actions : E → Nat
  possible_actions : E → List A
  get_action : E → Nat → A
  current_state : E → S
  is_over : E → Bool
  play_action : E → A → outcome_t S R × E
  make_checkpoint : E → E
  restore_checkpoint : E → E
  reset : E → E

/-- The class `environment_handler<S, A>`. The field `env` holds the internal state of the
environment object the C++ pointer `env` refers to; the other fields are the private members
of the class. -/
structure environment_handler (R E : Type) where
  env : E
  is_simulating : Bool
  reward : R
  penalty : R
  num_steps : Int
deriving DecidableEq, Repr

/-- The value a 32-bit `int` holds after an arithmetic result `x`: `x` wrapped around into
the range from `-2147483648` to `2147483647` (two's complement). -/
def wrap_int (x : Int) : Int := (x + 2147483648) % 4294967296 - 2147483648

namespace environment_handler

variable {S A R E : Type}

/-- The member `reset` of the handler: `reward = penalty = num_steps = 0`. -/
def reset [Zero R] (h : environment_handler R E) : environment_handler R E :=
  { h with reward := 0, penalty := 0, num_steps := 0 }

/-- The member `play_action` of the handler. -/
def play_action [Add R] (M : environment S A R E) (h : environment_handler R E) (action : A) :
    outcome_t S R × environment_handler R E :=
  let h1 : environment_handler R E :=
    if h.is_simulating then
      { h with env := M.restore_checkpoint h.env, is_simulating := false }
    else h
  let o := M.play_action h1.env action
  let r := o.1.reward
  let p := o.1.penalty
  (o.1, { h1 with env := o.2, num_steps := wrap_int (h1.num_steps + 1),
                  reward := h1.reward + r, penalty := h1.penalty + p })

/-- The member `sim_action` of the handler. -/
def sim_action (M : environment S A R E) (h : environment_handler R E) (action : A) :
    outcome_t S R × environment_handler R E :=
  let h1 : environment_handler R E :=
    if !h.is_simulating then
      { h with env := M.make_checkpoint h.env, is_simulating := true }
    else h
  let o := M.play_action h1.env action
  (o.1, { h1 with env := o.2 })

/-- The member `sim_reset` of the handler. -/
def sim_reset (M : environment S A R E) (h : environment_handler R E) :
    environment_handler R E :=
  if h.is_simulating then
    { h with env := M.restore_checkpoint h.env, is_simulating := false }
  else h

/-- A finite sequence of `sim_action` calls, the outcomes discarded. -/
def sim_actions (M : environment S A R E) (h : environment_handler R E) :
    List A → environment_handler R E
  | [] => h
  | a :: as => sim_actions M (sim_action M h a).2 as

end environment_handler

/-- One call of a public mutating member of the handler. -/
inductive handler_op (A : Type) where
  | play_action (a : A)
  | sim_action (a : A)
  | sim_reset
deriving DecidableEq, Repr

/-- Run one handler operation; the first component is the outcome a `play_action` call
returned (nothing for the other two operations). -/
def apply_op {S A R E : Type} [Add R] (M : environment S A R E) (h : environment_handler R E) :
    handler_op A → Option (outcome_t S R) × environment_handler R E
  | .play_action a => (some (h.play_action M a).1, (h.play_action M a).2)
  | .sim_action a => (none, (h.sim_action M a).2)
  | .sim_reset => (none, h.sim_reset M)

/-- Run a sequence of handler operations; the first component lists, in call order, the
outcomes that the `play_action` calls of the sequence returned. -/
def run_ops {S A R E : Type} [Add R] (M : environment S A R E) (h : environment_handler R E) :
    List (handler_op A) → List (outcome_t S R) × environment_handler R E
  | [] => ([], h)
  | op :: ops =>
    let r := apply_op M h op
    let rest := run_ops M r.2 ops
    (r.1.toList ++ rest.1, rest.2)

/-- A call the handler issues to its environment. -/
inductive env_call (A : Type) where
  | play_action (a : A)
  | make_checkpoint
  | restore_checkpoint
deriving DecidableEq, Repr

/-- An environment that behaves as `M` and records, oldest first, every `play_action`,
`make_checkpoint` and `restore_checkpoint` call it receives. -/
def recording {S A R E : Type} (M : environment S A R E) :
    environment S A R (E × List (env_call A)) where
  num_actions e := M.num_actions e.1
  possible_actions e := M.possible_actions e.1
  get_action e i := M.get_action e.1 i
  current_state e := M.current_state e.1
  is_over e := M.is_over e.1
  play_action e a := ((M.play_action e.1 a).1, ((M.play_action e.1 a).2, e.2 ++ [.play_action a]))
  make_checkpoint e := (M.make_checkpoint e.1, e.2 ++ [.make_checkpoint])
  restore_checkpoint e := (M.restore_checkpoint e.1, e.2 ++ [.restore_checkpoint])
  reset e := (M.reset e.1, e.2)

/-- The state of an environment after a sequence of `play_action` calls. -/
def env_plays {S A R E : Type} (M : environment S A R E) (e : E) : List A → E
  | [] => e
  | a :: as => env_plays M (M.play_action e a).2 as

/-- The contract of `make_checkpoint` / `restore_checkpoint`, relative to a view `obs` of the
internal state (all state relevant to subsequent outcomes): the environment is deterministic
in the view, taking a checkpoint does not change the view, and restoring after any plays
brings the view back to what it was when the checkpoint was taken. -/
structure faithful_checkpoint {S A R E X : Type} (M : environment S A R E) (obs : E → X) :
    Prop where
  play_congr : ∀ e e' a, obs e = obs e' →
    (M.play_action e a).1 = (M.play_action e' a).1 ∧
      obs (M.play_action e a).2 = obs (M.play_action e' a).2
  make_obs : ∀ e, obs (M.make_checkpoint e) = obs e
  restore_obs : ∀ e as, obs (M.restore_checkpoint (env_plays M (M.make_checkpoint e) as)) = obs e

/-- The bookkeeping of outstanding checkpoints over a call record: `some b` when every
`make_checkpoint` was issued with no checkpoint outstanding and every `restore_checkpoint`
with one outstanding, `b` telling whether one is outstanding at the end; `none` otherwise. -/
def checkpoint_discipline {A : Type} : Bool → List (env_call A) → Option Bool
  | b, [] => some b
  | b, .play_action _ :: cs => checkpoint_discipline b cs
  | b, .make_checkpoint :: cs => if b then none else checkpoint_discipline true cs
  | b, .restore_checkpoint :: cs => if b then checkpoint_discipline false cs else none

/-- The `make_checkpoint` and `restore_checkpoint` calls of a record, in order. -/
def checkpoint_calls {A : Type} : List (env_call A) → List (env_call A)
  | [] => []
  | .play_action _ :: cs => checkpoint_calls cs
  | c :: cs => c :: checkpoint_calls cs

/-- The strictly alternating sequence `make, restore, make, restore, ...` of length `n`. -/
def alternating {A : Type} : Nat → List (env_call A)
  | 0 => []
  | n + 1 => alternating n ++ [if n % 2 = 0 then .make_checkpoint else .restore_checkpoint]

/-- The invariant behind C4, for a handler whose environment records its calls: the calls
recorded since `base` respect the checkpoint discipline and alternate, and `is_simulating`
tells whether a checkpoint is outstanding. -/
def checkpoint_inv {A R E : Type} (base : List (env_call A))
    (h : environment_handler R (E × List (env_call A))) : Prop :=
  ∃ calls n, h.env.2 = base ++ calls ∧
    checkpoint_discipline false calls = some h.is_simulating ∧
    checkpoint_calls calls = alternating n ∧ (h.is_simulating = true ↔ n % 2 = 1)

/-- A concrete environment for the examples: a counter that an action `a` advances by `a`,
paying reward `a` and a penalty equal to the old count, with a one-slot checkpoint. The
internal state is the pair (count, saved count). -/
def counter_env : environment Nat Nat Int (Nat × Nat) where
  num_actions _ := 2
  possible_actions _ := [1, 2]
  get_action _ i := i + 1
  current_state e := e.1
  is_over e := decide (10 ≤ e.1)
  play_action e a := (⟨e.1 + a, (a : Int), (e.1 : Int), decide (10 ≤ e.1 + a)⟩, (e.1 + a, e.2))
  make_checkpoint e := (e.1, e.1)
  restore_checkpoint e := (e.2, e.2)
  reset e := (0, e.2)

end world

/-! ## The search tree

The node classes are declared in headers of the repository that are not part of the sources
at hand; their data and the member functions that `tree_search.ipp` calls are modelled from the
data model of the specification. State nodes live on a heap, a list addressed by position; a
`std::unique_ptr<state_node>` or `state_node*` is an address, an `action_node*` is the address
of the state node that holds the action node together with its index among the children.
Destruction of nodes is not modelled: an unreachable node simply stays on the heap. -/

namespace gym
namespace ts

open world

/-- Modelled from the spec: the action node. `action`, `parent` (non-owning back-reference to
the state node that owns it), `children` (mapping from realized state to an exclusively owned
state node, keys unique), `num_visits`, the payload `q`, and the running means of the observed
reward and penalty. The `common_data` pointer is not a field: all nodes of a tree point to
the one common data object of the tree. -/
structure action_node (S A Q K : Type) where
  action : A
  parent : Option Nat
  children : List (S × Nat)
  num_visits : Nat
  q : Q
  expected_reward : K
  expected_penalty : K
deriving DecidableEq, Repr

/-- Modelled from the spec: the state node. `state`, `parent` (back-reference to the owning
action node, none for the root), `children` (the action nodes, held by value, in enumeration
order), `actions` (parallel sequence of action values), `num_visits`, the payload `v` and the
`terminal` flag. -/
structure state_node (S A V Q K : Type) where
  state : S
  parent : Option (Nat × Nat)
  children : List (action_node S A Q K)
  actions : List A
  num_visits : Nat
  v : V
  terminal : Bool
deriving DecidableEq, Repr

/-- The pluggable part of the node classes: the policy callables of the specification
(`select_action`, `descend_callback`, `propagate_v`, `propagate_q`), the initial payloads and
the refresh of the running means in `add_outcome`, and `expand`. `select_action` reads a state node
and may write the common data; `descend_callback` receives the parent state node, the action,
the action node, the realized state and the new state node, and returns the new common data,
the new payload `q` of the action node and the new payload `v` of the new state node; the
propagation callables return the new visit count and payload of the node they are called on;
`expand` receives the possible actions and the address of the node. -/
structure node_policy (S A V Q K D : Type) where
  select_action : D → state_node S A V Q K → Bool → A × D
  descend_callback : D → state_node S A V Q K → A → action_node S A Q K → S →
    state_node S A V Q K → D × Q × V
  propagate_v : state_node S A V Q K → Option (action_node S A Q K) → K → Nat × V
  propagate_q : action_node S A Q K → state_node S A V Q K → K → Nat × Q
  init_v : V
  refresh : action_node S A Q K → outcome_t S K → K × K
  expand : List A → Nat → state_node S A V Q K → state_node S A V Q K

/-- The class `tree_search<S, A, SN, AN, DATA>` together with what its pointers refer to: the
heap of state nodes, the common data object behind `common_data` and the environment handler
that the common data refers to. -/
structure tree_search (S A V Q K D E : Type) where
  heap : List (state_node S A V Q K)
  root : Nat
  max_depth : Int
  gamma : K
  common_data : D
  handler : environment_handler K E

section nodes

variable {S A V Q K D E : Type}

/-- Modelled from the spec: `is_leaf`, a state node without action children. -/
def is_leaf (n : state_node S A V Q K) : Bool := n.children.isEmpty

/-- Modelled from the spec: `is_root`, a state node without parent. -/
def is_root (n : state_node S A V Q K) : Bool := n.parent.isNone

/-- Modelled from the spec: `state_node::is_terminal`. -/
def state_node.is_terminal (n : state_node S A V Q K) : Bool := n.terminal

/-- Modelled from the spec: `state_node::get_child(a)`, the action node of action `a`, as an
index into `children`; `actions` indexes `children`. No result for an unknown action. -/
def state_node.get_child [DecidableEq A] (n : state_node S A V Q K) (a : A) : Option Nat :=
  if n.actions.indexOf a < n.actions.length ∧ n.actions.indexOf a < n.children.length then
    some (n.actions.indexOf a)
  else none

/-- Modelled from the spec: `action_node::get_child(s)`, the child state node keyed `s`. -/
def action_node.get_child [DecidableEq S] (an : action_node S A Q K) (s : S) : Option Nat :=
  an.children.lookup s

/-- Modelled from the spec: `action_node::get_child_unique_ptr(s)`, the owning pointer to the
child state node keyed `s`, moved out of the map. -/
def action_node.get_child_unique_ptr [DecidableEq S] (an : action_node S A Q K) (s : S) :
    Option Nat :=
  an.children.lookup s

/-- Write an action node back into the children of the state node at address `n`. -/
def set_action_node (heap : List (state_node S A V Q K)) (n i : Nat)
    (an : action_node S A Q K) : List (state_node S A V Q K) :=
  match heap[n]? with
  | none => heap
  | some node => heap.set n { node with children := node.children.set i an }

/-- A newly created state node for the outcome `o` of the action node `(n, i)`: no children,
no visits, the payload `init_v`. -/
def fresh_state_node (init_v : V) (n i : Nat) (o : outcome_t S K) : state_node S A V Q K :=
  { state := o.state, parent := some (n, i), children := [], actions := [], num_visits := 0,
    v := init_v, terminal := o.is_over }

/-- Modelled from the spec: `action_node::add_outcome(s, r, p, t)` on the action node with
index `i` of the state node at address `n`: "creates or updates the child state node keyed by
`s`, refreshing reward/penalty running means and `terminal`". A created node is allocated at
the end of the heap. -/
def add_outcome [DecidableEq S] (P : node_policy S A V Q K D)
    (heap : List (state_node S A V Q K)) (n i : Nat) (o : outcome_t S K) :
    Option (List (state_node S A V Q K)) := do
  let node ← heap[n]?
  let an ← node.children[i]?
  let m := P.refresh an o
  match an.children.lookup o.state with
  | some c =>
    let child ← heap[c]?
    let heap1 := heap.set c { child with terminal := o.is_over }
    some (set_action_node heap1 n i { an with expected_reward := m.1, expected_penalty := m.2 })
  | none =>
    let c := heap.length
    let child : state_node S A V Q K := fresh_state_node P.init_v n i o
    some (set_action_node (heap ++ [child]) n i
      { an with children := an.children ++ [(o.state, c)],
                expected_reward := m.1, expected_penalty := m.2 })

/-- Modelled from the spec: `state_node::descend_update(a, s, explore)` on the state node at
address `n`: "invokes `descend_callback` to let the policy mutate `common_data`". The callback
takes no `explore` argument. -/
def descend_update [DecidableEq A] [DecidableEq S] (P : node_policy S A V Q K D)
    (t : tree_search S A V Q K D E) (n : Nat) (a : A) (s : S) (_explore : Bool) :
    Option (tree_search S A V Q K D E) := do
  let node ← t.heap[n]?
  let i ← node.get_child a
  let an ← node.children[i]?
  let c ← an.get_child s
  let new_state ← t.heap[c]?
  let r := P.descend_callback t.common_data node a an s new_state
  let heap1 := set_action_node t.heap n i { an with q := r.2.1 }
  let new_state1 ← heap1[c]?
  some { t with common_data := r.1, heap := heap1.set c { new_state1 with v := r.2.2 } }

end nodes

namespace tree_search

variable {S A V Q K D E : Type} [DecidableEq A] [DecidableEq S]

/-- One iteration of the loop of `tree_search::select`, from the state node at address `cur`:
select an action, simulate it, add the outcome, run the descend update and step to the
child. Returns the new tree and the address of the child. -/
def select_step (M : environment S A K E) (P : node_policy S A V Q K D)
    (t : tree_search S A V Q K D E) (cur : Nat) : Option (tree_search S A V Q K D E × Nat) := do
  let node ← t.heap[cur]?
  let sel := P.select_action t.common_data node true
  let action := sel.1
  let i ← node.get_child action
  let o := t.handler.sim_action M action
  let heap1 ← add_outcome P t.heap cur i o.1
  let t2 ← descend_update P { t with common_data := sel.2, handler := o.2, heap := heap1 }
    cur action o.1.state true
  let node2 ← t2.heap[cur]?
  let an ← node2.children[i]?
  let c ← an.get_child o.1.state
  some (t2, c)

/-- The loop of `tree_search::select`. The first argument bounds the number of iterations
still to come; `select` starts it at `max_depth`, which the test `depth < max_depth` never
lets run out (the first case is the loop with no iteration left: it can only exit).
Returns the tree, the current node and the value of `depth` at loop exit. -/
def select_loop (M : environment S A K E) (P : node_policy S A V Q K D) :
    Nat → tree_search S A V Q K D E → Nat → Int → Option (tree_search S A V Q K D E × Nat × Int)
  | 0, t, cur, depth =>
    match t.heap[cur]? with
    | none => none
    | some node =>
      if (!is_leaf node && decide (depth < t.max_depth) && !node.is_terminal) = true then none
      else some (t, cur, depth)
  | fuel + 1, t, cur, depth =>
    match t.heap[cur]? with
    | none => none
    | some node =>
      if (!is_leaf node && decide (depth < t.max_depth) && !node.is_terminal) = true then
        match select_step M P t cur with
        | none => none
        | some r => select_loop M P fuel r.1 r.2 (depth + 1)
      else some (t, cur, depth)

/-- The member `tree_search::select`: the loop from the root, then `handler.sim_reset()`.
Returns the tree and the address of the selected node. -/
def select (M : environment S A K E) (P : node_policy S A V Q K D)
    (t : tree_search S A V Q K D E) : Option (tree_search S A V Q K D E × Nat) := do
  let r ← select_loop M P t.max_depth.toNat t t.root 0
  some ({ r.1 with handler := r.1.handler.sim_reset M }, r.2.1)

/-- Modelled from the spec: `state_node::propagate(prev_action_node, gamma)` on the state node
at address `n`: the policy updates visit count and `v`. -/
def state_node_propagate (P : node_policy S A V Q K D) (heap : List (state_node S A V Q K))
    (n : Nat) (prev_action_node : Option (Nat × Nat)) (gamma : K) :
    Option (List (state_node S A V Q K)) := do
  let node ← heap[n]?
  let an ← match prev_action_node with
    | none => some none
    | some (m, i) => do
      let holder ← heap[m]?
      let an ← holder.children[i]?
      some (some an)
  let r := P.propagate_v node an gamma
  some (heap.set n { node with num_visits := r.1, v := r.2 })

/-- Modelled from the spec: `action_node::propagate(child_state_node, gamma)` on the action
node `(m, i)`: the policy updates visit count and `q`. -/
def action_node_propagate (P : node_policy S A V Q K D) (heap : List (state_node S A V Q K))
    (m i : Nat) (child : Nat) (gamma : K) : Option (List (state_node S A V Q K)) := do
  let holder ← heap[m]?
  let an ← holder.children[i]?
  let cn ← heap[child]?
  let r := P.propagate_q an cn gamma
  some (set_action_node heap m i { an with num_visits := r.1, q := r.2 })

/-- The loop of `tree_search::propagate`; the first argument bounds the number of iterations
(a parent chain that does not end lets it run out). -/
def propagate_loop (P : node_policy S A V Q K D) (gamma : K) :
    Nat → List (state_node S A V Q K) → Option (Nat × Nat) → Nat →
      Option (List (state_node S A V Q K) × Option (Nat × Nat) × Nat)
  | 0, heap, prev_action_node, cur =>
    match heap[cur]? with
    | none => none
    | some node => if (!is_root node) = true then none else some (heap, prev_action_node, cur)
  | fuel + 1, heap, prev_action_node, cur =>
    match heap[cur]? with
    | none => none
    | some node =>
      if (!is_root node) = true then do
        let heap1 ← state_node_propagate P heap cur prev_action_node gamma
        let node1 ← heap1[cur]?
        let current_action_node ← node1.parent
        let heap2 ← action_node_propagate P heap1 current_action_node.1 current_action_node.2
          cur gamma
        let holder ← heap2[current_action_node.1]?
        let an ← holder.children[current_action_node.2]?
        let next ← an.parent
        propagate_loop P gamma fuel heap2 (some current_action_node) next
      else some (heap, prev_action_node, cur)

/-- The member `tree_search::propagate(leaf)`, with a bound on the iterations of its loop. -/
def propagate (P : node_policy S A V Q K D) (fuel : Nat) (t : tree_search S A V Q K D E)
    (leaf : Nat) : Option (tree_search S A V Q K D E) := do
  let r ← propagate_loop P t.gamma fuel t.heap none leaf
  let heap1 ← state_node_propagate P r.1 r.2.2 r.2.1 t.gamma
  some { t with heap := heap1 }

/-- The member `tree_search::descent(a, s)`. -/
def descent (P : node_policy S A V Q K D) (t : tree_search S A V Q K D E) (a : A) (s : S) :
    Option (tree_search S A V Q K D E) := do
  let t1 ← descend_update P t t.root a s false
  let old_root ← t1.heap[t1.root]?
  let i ← old_root.get_child a
  let action_node ← old_root.children[i]?
  let new_root ← action_node.get_child_unique_ptr s
  let node ← t1.heap[new_root]?
  let node1 := { node with parent := none }
  some { t1 with
    root := new_root
    heap := t1.heap.set new_root
      { node1 with children := node1.children.map (fun child => { child with parent := some new_root }) } }

/-- Modelled from the spec: `state_node::expand(&common_data)` on the node at address `leaf`:
the policy allocates the child action nodes for `handler.possible_actions()`. -/
def expand (M : environment S A K E) (P : node_policy S A V Q K D)
    (t : tree_search S A V Q K D E) (leaf : Nat) : Option (tree_search S A V Q K D E) := do
  let node ← t.heap[leaf]?
  some { t with heap := t.heap.set leaf (P.expand (M.possible_actions t.handler.env) leaf node) }

/-- Modelled from the spec: `tree_search::reset`, "rebuild root": a fresh root node for the
current state of the environment. -/
def reset (M : environment S A K E) (P : node_policy S A V Q K D)
    (t : tree_search S A V Q K D E) : tree_search S A V Q K D E :=
  { t with
    heap := [{ state := M.current_state t.handler.env, parent := none, children := [],
               actions := [], num_visits := 0, v := P.init_v, terminal := false }]
    root := 0 }

end tree_search

/-! ## The dual agent (`dual_uct.ipp`) -/

/-- Modelled from the spec: the common data of the dual agent, `lambda`, `risk_thd`,
`exploration_constant` (the handler it refers to is held by `tree_search`). -/
structure dual_uct_data (K : Type) where
  lambda : K
  risk_thd : K
  exploration_constant : K
deriving DecidableEq, Repr

/-- The class `dual_uct<S, A>`: the tree search `ts` (with the common data and the handler it
points to), the simulation budget, the learning rate and the configured risk threshold. -/
structure dual_uct (S A V Q K E : Type) where
  ts : tree_search S A V Q K (dual_uct_data K) E
  num_sim : Int
  lr : K
  risk_thd : K

namespace dual_uct

variable {S A V Q K E : Type} [DecidableEq A] [DecidableEq S] [LinearOrderedRing K]

/-- The body of the simulation loop of `dual_uct::play`. `root` is the pointer `ts.get_root()`
taken before the loop. -/
def play_simulation (M : environment S A K E) (P : node_policy S A V Q K (dual_uct_data K))
    (root : Nat) (ag : dual_uct S A V Q K E) : Option (dual_uct S A V Q K E) := do
  let sel ← ag.ts.select M P
  let leaf := sel.2
  let t1 ← sel.1.expand M P leaf
  let t2 ← t1.propagate P t1.heap.length leaf
  let root_node ← t2.heap[root]?
  let r := P.select_action t2.common_data root_node false
  let a := r.1
  let i ← root_node.get_child a
  let action_node ← root_node.children[i]?
  let common_data := r.2
  let common_data1 := { common_data with
    lambda := common_data.lambda + ag.lr * (action_node.expected_penalty - common_data.risk_thd) }
  let common_data2 :=
    if common_data1.lambda < 0 then { common_data1 with lambda := 0 } else common_data1
  some { ag with ts := { t2 with common_data := common_data2 } }

/-- The simulation loop of `dual_uct::play`, run for `n` iterations. -/
def play_simulations (M : environment S A K E) (P : node_policy S A V Q K (dual_uct_data K))
    (root : Nat) : Nat → dual_uct S A V Q K E → Option (dual_uct S A V Q K E)
  | 0, ag => some ag
  | n + 1, ag =>
    match play_simulation M P root ag with
    | none => none
    | some ag1 => play_simulations M P root n ag1

/-- The member `dual_uct::play`. -/
def play (M : environment S A K E) (P : node_policy S A V Q K (dual_uct_data K))
    (ag : dual_uct S A V Q K E) : Option (dual_uct S A V Q K E) := do
  let root := ag.ts.root
  let ag1 ← play_simulations M P root ag.num_sim.toNat ag
  let root_node ← ag1.ts.heap[root]?
  let r := P.select_action ag1.ts.common_data root_node false
  let a := r.1
  let o := ag1.ts.handler.play_action M a
  let i ← root_node.get_child a
  let heap1 ← add_outcome P ag1.ts.heap root i o.1
  let t2 ← descend_update P { ag1.ts with common_data := r.2, handler := o.2, heap := heap1 }
    root a o.1.state false
  let t3 ← t2.descent P a o.1.state
  some { ag1 with ts := t3 }

/-- The member `dual_uct::reset`. -/
def reset (M : environment S A K E) (P : node_policy S A V Q K (dual_uct_data K))
    (ag : dual_uct S A V Q K E) : dual_uct S A V Q K E :=
  let t1 := { ag.ts with handler := ag.ts.handler.reset }
  let t2 := t1.reset M P
  let common_data1 := { t2.common_data with lambda := 0 }
  { ag with ts := { t2 with common_data := { common_data1 with risk_thd := ag.risk_thd } } }

end dual_uct

/-! ## The primal agent (`primal_uct.ipp`) -/

/-- Modelled from the spec: the common data of the primal agent, `risk_thd`,
`sample_risk_thd`, `exploration_constant` (the handler it refers to is held by `tree_search`). -/
structure primal_uct_data (K : Type) where
  risk_thd : K
  sample_risk_thd : K
  exploration_constant : K
deriving DecidableEq, Repr

/-- The class `primal_uct<S, A>`: the tree search `ts` (with the common data and the handler
it points to), the simulation budget and the configured risk threshold. -/
structure primal_uct (S A V Q K E : Type) where
  ts : tree_search S A V Q K (primal_uct_data K) E
  num_sim : Int
  risk_thd : K

namespace primal_uct

variable {S A V Q K E : Type} [DecidableEq A] [DecidableEq S] [Add K] [Zero K]

/-- The body of the simulation loop of `primal_uct::play`. -/
def play_simulation (M : environment S A K E) (P : node_policy S A V Q K (primal_uct_data K))
    (ag : primal_uct S A V Q K E) : Option (primal_uct S A V Q K E) := do
  let common_data := ag.ts.common_data
  let t0 := { ag.ts with
    common_data := { common_data with sample_risk_thd := common_data.risk_thd } }
  let sel ← t0.select M P
  let leaf := sel.2
  let t1 ← sel.1.expand M P leaf
  let t2 ← t1.propagate P t1.heap.length leaf
  some { ag with ts := t2 }

/-- The simulation loop of `primal_uct::play`, run for `n` iterations. -/
def play_simulations (M : environment S A K E) (P : node_policy S A V Q K (primal_uct_data K)) :
    Nat → primal_uct S A V Q K E → Option (primal_uct S A V Q K E)
  | 0, ag => some ag
  | n + 1, ag =>
    match play_simulation M P ag with
    | none => none
    | some ag1 => play_simulations M P n ag1

/-- The member `primal_uct::play`. -/
def play (M : environment S A K E) (P : node_policy S A V Q K (primal_uct_data K))
    (ag : primal_uct S A V Q K E) : Option (primal_uct S A V Q K E) := do
  let ag1 ← play_simulations M P ag.num_sim.toNat ag
  let root := ag1.ts.root
  let root_node ← ag1.ts.heap[root]?
  let r := P.select_action ag1.ts.common_data root_node false
  let a := r.1
  let o := ag1.ts.handler.play_action M a
  let i ← root_node.get_child a
  let heap1 ← add_outcome P ag1.ts.heap root i o.1
  let t2 ← descend_update P { ag1.ts with common_data := r.2, handler := o.2, heap := heap1 }
    root a o.1.state false
  let t3 ← t2.descent P a o.1.state
  some { ag1 with ts := t3 }

/-- The member `primal_uct::reset`: `agent::reset()`, `ts.reset()`,
`common_data.risk_thd = risk_thd`. -/
def reset (M : environment S A K E) (P : node_policy S A V Q K (primal_uct_data K))
    (ag : primal_uct S A V Q K E) : primal_uct S A V Q K E :=
  let t1 := { ag.ts with handler := ag.ts.handler.reset }
  let t2 := t1.reset M P
  { ag with ts := { t2 with common_data := { t2.common_data with risk_thd := ag.risk_thd } } }

end primal_uct

/-! ## The Pareto agent (`exact_pareto_uct.hpp`) -/

/-- The struct `pareto_uct_data<S, A>`, the reference `handler` apart (the agent holds the
handler it refers to). -/
structure pareto_uct_data (K : Type) where
  risk_thd : K
  sample_risk_thd : K
  exploration_constant : K
deriving DecidableEq, Repr

/-- The struct `pareto_value<pareto_curve>`. -/
structure pareto_value (C K : Type) where
  curve : C
  idx : List Nat
  risk_thd : K
deriving DecidableEq, Repr

/-- The member functions of the curve class (declared in `pareto_curves.hpp`, which is not
among the sources) that the Pareto agent calls, as the specification lists them. -/
structure pareto_curve_ops (C K : Type) where
  r_bounds : C → K × K
  update : C → K → K → C
  derivative : C → K → K
  inverse_derivative : C → K → K

/-- The function template `descend_callback` of the Pareto agent. The first, second and fourth
parameter of the C++ function are unnamed and unused; the objects behind the three pointers it
writes through (`action->common_data`, `action`, `new_state`) are returned. -/
def descend_callback {S A C K : Type} (ops : pareto_curve_ops C K)
    (common_data : pareto_uct_data K)
    (action : action_node S A (pareto_value C K) K)
    (new_state : state_node S A (pareto_value C K) (pareto_value C K) K) :
    pareto_uct_data K × action_node S A (pareto_value C K) K ×
      state_node S A (pareto_value C K) (pareto_value C K) K :=
  let action1 := { action with q := { action.q with risk_thd := common_data.sample_risk_thd } }
  let risk_thd := common_data.sample_risk_thd
  let d := ops.derivative action1.q.curve risk_thd
  let new_risk_thd := ops.inverse_derivative new_state.v.curve d
  let new_state1 := { new_state with v := { new_state.v with risk_thd := new_risk_thd } }
  ({ common_data with sample_risk_thd := new_risk_thd }, action1, new_state1)

/-- Functions that `select_action_pareto` calls and that are declared outside the sources:
`mix(curve_i, curve_j, bonus_i, bonus_j, K, step, target)`, which returns `(p1, prob1, p2, v)`
with a value `v` that may be minus infinity (`⊥`); the value
`static_cast<float>(sqrt(log(N + 1) / (n + 0.0001)))` as a function of the visit counts `N`
and `n`; and `rng::unif_float()`, as the stream of the variates it returns, addressed by the
number of variates drawn so far. -/
structure pareto_externals (C K : Type) where
  mix : C → C → K → K → Nat → K → K → K × K × K × WithBot K
  sqrt_log_ratio : Nat → Nat → K
  unif_float : Nat → K

/-- The pairs `(x_i, x_j)`, `i < j`, of a list, in the order of the nested loops
`for i ... for j = i + 1 ...`: first index ascending, then second index ascending. -/
def pairs_of {α : Type} : List α → List (α × α)
  | [] => []
  | x :: xs => xs.map (fun y => (x, y)) ++ pairs_of xs

/-- The local variables `max_v`, `max_thd`, `max_idx` of `select_action_pareto`, and the number
of variates drawn from the random number generator so far. -/
structure pareto_select_state (K : Type) where
  max_v : WithBot K
  max_thd : K
  max_idx : Nat
  rng_pos : Nat
deriving DecidableEq

section select_action_pareto

variable {S A C K : Type} [LinearOrderedField K]

/-- The first part of `select_action_pareto`: the reward bounds over the children and the
widening step. As in the source, each child contributes the first component `er` of its
`r_bounds()` to both the minimum and the maximum. No result when there is no child
(`children[0]` is out of range). The constants `0.9f` and `1.1f` are `9/10` and `11/10`. -/
def reward_bounds (ops : pareto_curve_ops C K)
    (children : List (action_node S A (pareto_value C K) K)) : Option (K × K) := do
  let first ← children[0]?
  let b := children.foldl
    (fun (acc : K × K) child =>
      (min acc.1 (ops.r_bounds child.q.curve).1, max acc.2 (ops.r_bounds child.q.curve).1))
    (ops.r_bounds first.q.curve)
  let min_r := b.1
  let max_r := b.2
  if min_r ≥ max_r then
    if min_r < 0 then some (min_r, 9 / 10 * min_r) else some (min_r, 11 / 10 * min_r)
  else some (min_r, max_r)

/-- The vector `uct_bonus` of `select_action_pareto`; `explore` counts as 1 or 0. -/
def uct_bonus (ext : pareto_externals C K) (c : K) (num_visits : Nat) (explore : Bool)
    (children : List (action_node S A (pareto_value C K) K)) : List K :=
  children.map (fun child =>
    (if explore then 1 else 0) * c * ext.sqrt_log_ratio num_visits child.num_visits)

/-- The result `(p1, prob1, p2, v)` of the call of `mix` for a pair of children, each given
with its index and its bonus; `K = 10`, `step = 0.01f`. -/
def mix_pair (ext : pareto_externals C K) (risk_thd : K)
    (p : (Nat × action_node S A (pareto_value C K) K × K) ×
      (Nat × action_node S A (pareto_value C K) K × K)) : K × K × K × WithBot K :=
  ext.mix p.1.2.1.q.curve p.2.2.1.q.curve p.1.2.2 p.2.2.2 10 (1 / 100) risk_thd

/-- The body of the inner loop of `select_action_pareto` for one pair `(i, j)`. -/
def pareto_pair_step (ext : pareto_externals C K) (risk_thd : K) (st : pareto_select_state K)
    (p : (Nat × action_node S A (pareto_value C K) K × K) ×
      (Nat × action_node S A (pareto_value C K) K × K)) : pareto_select_state K :=
  let r := mix_pair ext risk_thd p
  if st.max_v < r.2.2.2 then
    if ext.unif_float st.rng_pos < r.2.1 then
      { max_v := r.2.2.2, max_idx := p.1.1, max_thd := r.1, rng_pos := st.rng_pos + 1 }
    else
      { max_v := r.2.2.2, max_idx := p.2.1, max_thd := r.2.2.1, rng_pos := st.rng_pos + 1 }
  else st

/-- The children of a node with their indices and bonuses, and the pairs the nested loops
of `select_action_pareto` visit, in order. -/
def pareto_pairs (bonus : List K) (children : List (action_node S A (pareto_value C K) K)) :
    List ((Nat × action_node S A (pareto_value C K) K × K) ×
      (Nat × action_node S A (pareto_value C K) K × K)) :=
  pairs_of (children.zip bonus).enum

/-- The function template `select_action_pareto`. `rng_pos` is the number of variates drawn
from the random number generator so far; the result is the returned action, the common data
and the new number of variates drawn. No result when `children[0]` or `actions[max_idx]` is
out of range. -/
def select_action_pareto (ops : pareto_curve_ops C K) (ext : pareto_externals C K)
    (common_data : pareto_uct_data K) (rng_pos : Nat)
    (node : state_node S A (pareto_value C K) (pareto_value C K) K) (explore : Bool) :
    Option (A × pareto_uct_data K × Nat) := do
  let risk_thd := common_data.sample_risk_thd
  let c := common_data.exploration_constant
  let children := node.children
  let _ ← reward_bounds ops children
  let bonus := uct_bonus ext c node.num_visits explore children
  let st := (pareto_pairs bonus children).foldl (pareto_pair_step ext risk_thd)
    { max_v := ⊥, max_thd := 0, max_idx := 0, rng_pos := rng_pos }
  let a ← node.actions[st.max_idx]?
  some (a, { common_data with sample_risk_thd := st.max_thd }, st.rng_pos)

end select_action_pareto

/-- The class `pareto_uct<S, A>`: its private members, the heap that `root` points into and
the handler of the base class `agent`. -/
structure pareto_uct (S A C K E : Type) where
  max_depth : Int
  num_sim : Int
  risk_thd : K
  gamma : K
  common_data : pareto_uct_data K
  heap : List (state_node S A (pareto_value C K) (pareto_value C K) K)
  root : Nat
  handler : environment_handler K E

namespace pareto_uct

variable {S A C K E : Type} [DecidableEq A] [DecidableEq S]

/-- Modelled from the spec: `expand_action(an, s, r, p, t)`, "create the child state node on
the fly from the observed `(s, r, p, done)`": a fresh state node for `s` whose parent is the
action node `(n, i)`, with the payload `init_v`. -/
def expand_action (init_v : pareto_value C K) (n i : Nat) (o : outcome_t S K) :
    state_node S A (pareto_value C K) (pareto_value C K) K :=
  fresh_state_node init_v n i o

/-- The last part of `pareto_uct::play`, after `handler.play_action(a)` returned the outcome
`o`: from `uct_action_t* an = root->get_child(a)` to `root->get_parent() = nullptr`. -/
def play_descent (ops : pareto_curve_ops C K) (init_v : pareto_value C K)
    (ag : pareto_uct S A C K E) (a : A) (o : outcome_t S K) : Option (pareto_uct S A C K E) := do
  let root_node ← ag.heap[ag.root]?
  let i ← root_node.get_child a
  let an ← root_node.children[i]?
  let heap1 :=
    if an.children.lookup o.state = none then
      set_action_node (ag.heap ++ [expand_action init_v ag.root i o]) ag.root i
        { an with children := an.children ++ [(o.state, ag.heap.length)] }
    else ag.heap
  let root_node1 ← heap1[ag.root]?
  let an1 ← root_node1.children[i]?
  let new_root ← an1.get_child_unique_ptr o.state
  let new_state ← heap1[new_root]?
  let r := descend_callback ops ag.common_data an1 new_state
  let heap2 := set_action_node heap1 ag.root i r.2.1
  let new_state1 ← heap2[new_root]?
  let heap3 := heap2.set new_root { new_state1 with v := r.2.2.v }
  let node ← heap3[new_root]?
  some { ag with common_data := r.1, root := new_root,
                 heap := heap3.set new_root { node with parent := none } }

end pareto_uct

/-- The policy callables of the Pareto agent that are needed to descend, as a `node_policy`
whose other callables are taken from `P`. -/
def pareto_descend_policy {S A C K : Type} (ops : pareto_curve_ops C K)
    (P : node_policy S A (pareto_value C K) (pareto_value C K) K (pareto_uct_data K)) :
    node_policy S A (pareto_value C K) (pareto_value C K) K (pareto_uct_data K) :=
  { P with
    descend_callback := fun d _ _ an _ sn =>
      ((descend_callback ops d an sn).1, (descend_callback ops d an sn).2.1.q,
        (descend_callback ops d an sn).2.2.v) }

/-- The state of the loop of `select_action_pareto` right after the pair `p` has replaced the
maximum, the variate drawn for it being the one at position `k`: child `i` with `p1` when
the variate is below `prob1`, child `j` with `p2` otherwise. -/
def pair_decision {S A C K : Type} [LinearOrderedField K] (ext : pareto_externals C K)
    (risk_thd : K) (k : Nat)
    (p : (Nat × action_node S A (pareto_value C K) K × K) ×
      (Nat × action_node S A (pareto_value C K) K × K)) : pareto_select_state K :=
  if ext.unif_float k < (mix_pair ext risk_thd p).2.1 then
    { max_v := (mix_pair ext risk_thd p).2.2.2, max_idx := p.1.1,
      max_thd := (mix_pair ext risk_thd p).1, rng_pos := k + 1 }
  else
    { max_v := (mix_pair ext risk_thd p).2.2.2, max_idx := p.2.1,
      max_thd := (mix_pair ext risk_thd p).2.2.1, rng_pos := k + 1 }

/-- The function template `pareto_prop_v_value`. -/
def pareto_prop_v_value {S A C K : Type} (ops : pareto_curve_ops C K)
    (sn : state_node S A (pareto_value C K) (pareto_value C K) K) (disc_r disc_p : K) :
    state_node S A (pareto_value C K) (pareto_value C K) K :=
  { sn with num_visits := sn.num_visits + 1,
            v := { sn.v with curve := ops.update sn.v.curve disc_r disc_p } }

/-- The function template `pareto_prop_q_value`. -/
def pareto_prop_q_value {S A C K : Type} (ops : pareto_curve_ops C K)
    (an : action_node S A (pareto_value C K) K) (disc_r disc_p : K) :
    action_node S A (pareto_value C K) K :=
  { an with num_visits := an.num_visits + 1,
            q := { an.q with curve := ops.update an.q.curve disc_r disc_p } }

/-- The function templates that the simulation loop of `pareto_uct::play` calls and that are
declared outside the sources (`select_leaf`, `expand_state`, `void_rollout`, `propagate`), as
functions on the state of the agent: `select_leaf` receives the number of variates drawn so
far, `explore` and `max_depth`, and returns the leaf and the new number of variates drawn; the
other three receive the leaf (`propagate` also `gamma`). -/
structure pareto_templates (S A C K E : Type) where
  select_leaf : pareto_uct S A C K E → Nat → Bool → Int →
    Option (pareto_uct S A C K E × Nat × Nat)
  expand_state : pareto_uct S A C K E → Nat → Option (pareto_uct S A C K E)
  void_rollout : pareto_uct S A C K E → Nat → Option (pareto_uct S A C K E)
  propagate : pareto_uct S A C K E → Nat → K → Option (pareto_uct S A C K E)

/-- Modelled from the spec: the default constructor of the state node, as called by
`std::make_unique<uct_state_t>()`: no parent, no children, no visits, not terminal; the state
`s0` and the payload `init_v` are the default-constructed ones. -/
def default_state_node {S A V Q K : Type} (s0 : S) (init_v : V) : state_node S A V Q K :=
  { state := s0, parent := none, children := [], actions := [], num_visits := 0, v := init_v,
    terminal := false }

namespace pareto_uct

variable {S A C K E : Type} [DecidableEq A] [DecidableEq S] [LinearOrderedField K]

omit [DecidableEq A] [DecidableEq S] [LinearOrderedField K] in
/-- The statement `common_data.sample_risk_thd = common_data.risk_thd` of `pareto_uct::play`,
at the start of each iteration of the simulation loop and again before the final call of
`select_action_pareto`. -/
def reset_sample_risk_thd (ag : pareto_uct S A C K E) : pareto_uct S A C K E :=
  { ag with
    common_data := { ag.common_data with sample_risk_thd := ag.common_data.risk_thd } }

/-- The body of the simulation loop of `pareto_uct::play`; the second component of the state
is the number of variates drawn so far. -/
def play_simulation (M : environment S A K E) (T : pareto_templates S A C K E)
    (ag : pareto_uct S A C K E) (rng_pos : Nat) : Option (pareto_uct S A C K E × Nat) := do
  let ag0 := reset_sample_risk_thd ag
  let sel ← T.select_leaf ag0 rng_pos true ag0.max_depth
  let leaf := sel.2.2
  let ag1 ← T.expand_state sel.1 leaf
  let ag2 ← T.void_rollout ag1 leaf
  let ag3 ← T.propagate ag2 leaf ag2.gamma
  some ({ ag3 with handler := ag3.handler.sim_reset M }, sel.2.1)

/-- The simulation loop of `pareto_uct::play`, run for `n` iterations. -/
def play_simulations (M : environment S A K E) (T : pareto_templates S A C K E) :
    Nat → pareto_uct S A C K E → Nat → Option (pareto_uct S A C K E × Nat)
  | 0, ag, rng_pos => some (ag, rng_pos)
  | n + 1, ag, rng_pos =>
    match play_simulation M T ag rng_pos with
    | none => none
    | some r => play_simulations M T n r.1 r.2

/-- The member `pareto_uct::play` (the one-time diagnostic output of the tree apart).
Returns the agent, the number of variates drawn and the action committed to the handler. -/
def play (M : environment S A K E) (ops : pareto_curve_ops C K) (ext : pareto_externals C K)
    (T : pareto_templates S A C K E) (init_v : pareto_value C K)
    (ag : pareto_uct S A C K E) (rng_pos : Nat) :
    Option (pareto_uct S A C K E × Nat × A) := do
  let r ← play_simulations M T ag.num_sim.toNat ag rng_pos
  let ag1 := r.1
  let ag2 := reset_sample_risk_thd ag1
  let root_node ← ag2.heap[ag2.root]?
  let sel ← select_action_pareto ops ext ag2.common_data r.2 root_node false
  let a := sel.1
  let o := ag2.handler.play_action M a
  let ag3 ← play_descent ops init_v { ag2 with common_data := sel.2.1, handler := o.2 } a o.1
  some (ag3, sel.2.2, a)

/-- The member `pareto_uct::reset`: `agent::reset()`, both thresholds of the common data set
to the configured `risk_thd`, and a new default-constructed root. -/
def reset (s0 : S) (init_v : pareto_value C K) (ag : pareto_uct S A C K E) :
    pareto_uct S A C K E :=
  { ag with
    handler := ag.handler.reset
    common_data := { ag.common_data with risk_thd := ag.risk_thd, sample_risk_thd := ag.risk_thd }
    heap := [default_state_node s0 init_v]
    root := 0 }

end pareto_uct

/-! ## Paths and well-formed heaps -/

/-- The node reached from the state node at address `n` by following the edges
(action, outcome) of a path: `child(a).child(s)` for each pair in turn. -/
def follow {S A V Q K : Type} [DecidableEq A] [DecidableEq S] (heap : List (state_node S A V Q K)) :
    Nat → List (A × S) → Option Nat
  | n, [] => some n
  | n, e :: rest => do
    let node ← heap[n]?
    let i ← node.get_child e.1
    let an ← node.children[i]?
    let c ← an.get_child e.2
    follow heap c rest

/-- A state node of a heap with `L` cells is well formed: `actions` and `children` are
parallel and every child pointer of its action nodes is the address of a cell. -/
def node_wf {S A V Q K : Type} (L : Nat) (node : state_node S A V Q K) : Prop :=
  node.actions.length = node.children.length ∧
    ∀ an ∈ node.children, ∀ e ∈ an.children, e.2 < L

/-- A heap is well formed when each of its state nodes is. -/
def heap_wf {S A V Q K : Type} (heap : List (state_node S A V Q K)) : Prop :=
  ∀ node ∈ heap, node_wf heap.length node

instance {S A V Q K : Type} (L : Nat) (node : state_node S A V Q K) : Decidable (node_wf L node) := by
  unfold node_wf
  infer_instance

instance {S A V Q K : Type} (heap : List (state_node S A V Q K)) : Decidable (heap_wf heap) := by
  unfold heap_wf
  infer_instance

/-- The links of `node` are kept in `node'`: same actions, as many children, and every edge
from one of its action nodes to a child state node is still there. -/
def node_le {S A V Q K : Type} [DecidableEq S] (node node' : state_node S A V Q K) : Prop :=
  node'.actions = node.actions ∧ node'.children.length = node.children.length ∧
    ∀ (i : Nat) (an : action_node S A Q K), node.children[i]? = some an →
      ∃ an' : action_node S A Q K, node'.children[i]? = some an' ∧
        ∀ (s : S) (c : Nat), an.children.lookup s = some c → an'.children.lookup s = some c

/-- Every state node of `heap` is at the same address in `heap'`, with its links kept. -/
def links_le {S A V Q K : Type} [DecidableEq S] (heap heap' : List (state_node S A V Q K)) :
    Prop :=
  ∀ (n : Nat) (node : state_node S A V Q K), heap[n]? = some node →
    ∃ node' : state_node S A V Q K, heap'[n]? = some node' ∧ node_le node node'

/-! ## The calls of `propagate` -/

section propagate_calls

variable {S A V Q K D : Type}

/-- The action node with index `i` of the state node at address `m`. -/
def child_at (heap : List (state_node S A V Q K)) (m i : Nat) : Option (action_node S A Q K) :=
  (heap[m]?).bind (fun node => node.children[i]?)

/-- The parent references of a state node and of its action nodes. -/
def parent_shape (node : state_node S A V Q K) : Option (Nat × Nat) × List (Option Nat) :=
  (node.parent, node.children.map (fun an => an.parent))

/-- The cells of `heap2` have the parent references of the cells of `heap1`. -/
def same_shape (heap1 heap2 : List (state_node S A V Q K)) : Prop :=
  ∀ k : Nat, (heap2[k]?).map parent_shape = (heap1[k]?).map parent_shape

/-- The node `n` lies `steps.length` (action, state) steps below a root, in terms of the
references that `propagate` follows: the parent of `n` is the action node `(m, i)` at the head
of `steps`, the parent of that action node is the state node `m` that holds it, and so on
from `m`; after the last step comes a state node without parent. -/
def parent_chain (heap : List (state_node S A V Q K)) : Nat → List (Nat × Nat) → Prop
  | n, [] => (heap[n]?).map (fun node => node.parent) = some none
  | n, s :: rest =>
    (heap[n]?).map (fun node => node.parent) = some (some s) ∧
    (child_at heap s.1 s.2).map (fun an => an.parent) = some (some s.1) ∧
    parent_chain heap s.1 rest

instance parent_chain_decidable (heap : List (state_node S A V Q K)) :
    ∀ (n : Nat) (steps : List (Nat × Nat)), Decidable (parent_chain heap n steps)
  | n, [] => by unfold parent_chain; infer_instance
  | n, s :: rest => by
    unfold parent_chain
    have := parent_chain_decidable heap s.1 rest
    infer_instance

/-- A call of `propagate` on a node: `state n prev` is `n->propagate(prev, gamma)` on the
state node at address `n`, `action m i child` is `propagate(child, gamma)` on the action node
`(m, i)`. -/
inductive propagate_call where
  | state (n : Nat) (prev_action_node : Option (Nat × Nat))
  | action (m i child : Nat)
deriving DecidableEq, Repr

/-- The effect of one call on the heap. -/
def run_call (P : node_policy S A V Q K D) (gamma : K) (heap : List (state_node S A V Q K)) :
    propagate_call → Option (List (state_node S A V Q K))
  | .state n prev_action_node => tree_search.state_node_propagate P heap n prev_action_node gamma
  | .action m i child => tree_search.action_node_propagate P heap m i child gamma

/-- The effect of a sequence of calls, made one after the other. -/
def run_calls (P : node_policy S A V Q K D) (gamma : K) :
    List propagate_call → List (state_node S A V Q K) → Option (List (state_node S A V Q K))
  | [], heap => some heap
  | c :: cs, heap => (run_call P gamma heap c).bind (run_calls P gamma cs)

/-- The calls along a parent chain, as the specification of `propagate` lists them: the state
node `cur` is updated with the action node `prev` below it, then for each step the action
node with its child state node and the state node that holds it with that action node. -/
def chain_calls : Nat → Option (Nat × Nat) → List (Nat × Nat) → List propagate_call
  | cur, prev, [] => [.state cur prev]
  | cur, prev, s :: rest => .state cur prev :: .action s.1 s.2 cur :: chain_calls s.1 (some s) rest

end propagate_calls

/-! ## Full simulation passes -/

section simulation_passes

variable {S A V Q K D E : Type} [DecidableEq A] [DecidableEq S]

/-- One full simulation pass on a tree: `select`, `expand` of the returned leaf, `propagate`
from that leaf (bounded by the number of nodes), as in the loops of `primal_uct::play` and
`dual_uct::play`. Returns the tree and the leaf that `select` returned. -/
def simulation_pass (M : environment S A K E) (P : node_policy S A V Q K D)
    (t : tree_search S A V Q K D E) : Option (tree_search S A V Q K D E × Nat) := do
  let sel ← t.select M P
  let leaf := sel.2
  let t1 ← sel.1.expand M P leaf
  let t2 ← t1.propagate P t1.heap.length leaf
  some (t2, leaf)

/-- The first `n` simulation passes in a row; returns the tree and the leaves that `select`
returned, the first pass first. -/
def simulation_passes (M : environment S A K E) (P : node_policy S A V Q K D) :
    Nat → tree_search S A V Q K D E → Option (tree_search S A V Q K D E × List Nat)
  | 0, t => some (t, [])
  | n + 1, t =>
    match simulation_pass M P t with
    | none => none
    | some r =>
      match simulation_passes M P n r.1 with
      | none => none
      | some x => some (x.1, r.2 :: x.2)

end simulation_passes

section visit_counts

variable {S A V Q K D : Type}

/-- What the specification says of `expand` ("allocate a child action node for each action;
do not realize outcomes"), as far as parent references and visit counts go: the node keeps
its own; it keeps those of its action nodes or, having no action node, gets action nodes
that refer to it as their parent and have no visits. -/
def expand_allocates (P : node_policy S A V Q K D) : Prop :=
  ∀ (actions : List A) (n : Nat) (node : state_node S A V Q K),
    (P.expand actions n node).parent = node.parent ∧
    (P.expand actions n node).num_visits = node.num_visits ∧
    ((P.expand actions n node).children.map (fun an => (an.parent, an.num_visits)) =
        node.children.map (fun an => (an.parent, an.num_visits)) ∨
      (node.children = [] ∧
        ∀ an ∈ (P.expand actions n node).children, an.parent = some n ∧ an.num_visits = 0))

/-- The sum of the visit counts of the child action nodes of a state node. -/
def children_visits (node : state_node S A V Q K) : Nat :=
  (node.children.map (fun an => an.num_visits)).sum

/-- The parent references and the visit counts of a state node and of its action nodes. -/
def visit_shape (node : state_node S A V Q K) :
    Option (Nat × Nat) × Nat × List (Option Nat × Nat) :=
  (node.parent, node.num_visits, node.children.map (fun an => (an.parent, an.num_visits)))

/-- The heap `heap2` extends `heap1`: the cells of `heap1` keep their parent references and
visit counts, and every further cell is a childless, unvisited node whose parent is an action
node of a cell before it. -/
def grows (heap1 heap2 : List (state_node S A V Q K)) : Prop :=
  (∀ (k : Nat) (node : state_node S A V Q K), heap1[k]? = some node →
    ∃ node2, heap2[k]? = some node2 ∧ visit_shape node2 = visit_shape node) ∧
  (∀ (k : Nat) (node2 : state_node S A V Q K), heap1.length ≤ k → heap2[k]? = some node2 →
    node2.children = [] ∧ node2.num_visits = 0 ∧
      ∃ s an, node2.parent = some s ∧ s.1 < k ∧ child_at heap2 s.1 s.2 = some an)

/-- The invariant of the simulation passes, for a count `cnt` of the passes in which a node
was the selected leaf: every action node refers to the state node that holds it, the parent
of a state node is an action node of a cell before it, and the visit count of a state node
is the sum over its action nodes plus `cnt`. -/
def tree_inv (heap : List (state_node S A V Q K)) (cnt : Nat → Nat) : Prop :=
  (∀ k : Nat, heap.length ≤ k → cnt k = 0) ∧
  ∀ (n : Nat) (node : state_node S A V Q K), heap[n]? = some node →
    (∀ an ∈ node.children, an.parent = some n) ∧
    (∀ s, node.parent = some s → s.1 < n ∧ ∃ an, child_at heap s.1 s.2 = some an) ∧
    node.num_visits = children_visits node + cnt n

end visit_counts

/-! ## Concrete inputs for the examples -/

/-- A policy for the examples, with integer payloads: `select_action` takes the first action,
the descend callback changes nothing, the propagation callables count the visit, `refresh`
keeps the latest reward and penalty, `expand` allocates the action nodes of a leaf. -/
def first_action_policy (D : Type) : node_policy Nat Nat Int Int Int D where
  select_action d n _ := (n.actions.headD 0, d)
  descend_callback d _ _ an _ sn := (d, an.q, sn.v)
  propagate_v n _ _ := (n.num_visits + 1, n.v)
  propagate_q an _ _ := (an.num_visits + 1, an.q)
  init_v := 0
  refresh _ o := (o.reward, o.penalty)
  expand actions n node :=
    if node.children.isEmpty then
      { node with
        actions := actions
        children := actions.map (fun a => ⟨a, some n, [], 0, 0, 0, 0⟩) }
    else node

/-- A dual agent on the counter environment (count 3), freshly reset, with depth bound 2,
learning rate `lr` and risk threshold 1. -/
def example_dual (lr : Int) : dual_uct Nat Nat Int Int Int (Nat × Nat) :=
  dual_uct.reset counter_env (first_action_policy _)
    { ts := { heap := [], root := 0, max_depth := 2, gamma := 1,
              common_data := ⟨5, 0, 1⟩, handler := ⟨(3, 0), false, 7, 7, 7⟩ },
      num_sim := 3, lr := lr, risk_thd := 1 }

/-- The example agent after two iterations of the simulation loop of `play`. -/
def example_dual_visited (lr : Int) : dual_uct Nat Nat Int Int Int (Nat × Nat) :=
  (dual_uct.play_simulations counter_env (first_action_policy _) 0 2 (example_dual lr)).getD
    (example_dual lr)

/-- A curve class for the examples: the one concave quadratic piece
`r(π) = b·π − (c/2)·π²` on `[0, 1]`, given by the pair `(b, c)`; its slope at `π` is
`b − c·π`, and the risk at which the slope is `d` is `(b − d) / c`. -/
def example_curve_ops : pareto_curve_ops (Int × Int) Int where
  r_bounds cv := (0, cv.1 - cv.2 / 2)
  update cv _ _ := cv
  derivative cv x := cv.1 - cv.2 * x
  inverse_derivative cv d := (cv.1 - d) / cv.2

/-- A Pareto agent for the examples, on the counter environment after the real play of
action 1 at count 3: the root (address 0) has the action nodes of actions 1 and 2, the action
node of action 1 has the child keyed 4 (address 1), visited twice, whose `v.risk_thd` is 0;
all curves are `r(π) = 2π − π²`. -/
def example_pareto : pareto_uct Nat Nat (Int × Int) Int (Nat × Nat) where
  max_depth := 2
  num_sim := 0
  risk_thd := 1
  gamma := 1
  common_data := ⟨1, 1, 5⟩
  heap := [
    { state := 3, parent := none,
      children := [⟨1, some 0, [(4, 1)], 2, ⟨(2, 2), [], 0⟩, 1, 3⟩,
                   ⟨2, some 0, [], 0, ⟨(2, 2), [], 0⟩, 0, 0⟩],
      actions := [1, 2], num_visits := 3, v := ⟨(2, 2), [], 1⟩, terminal := false },
    { state := 4, parent := some (0, 0),
      children := [⟨1, some 1, [], 1, ⟨(2, 2), [], 0⟩, 0, 0⟩,
                   ⟨2, some 1, [], 0, ⟨(2, 2), [], 0⟩, 0, 0⟩],
      actions := [1, 2], num_visits := 2, v := ⟨(2, 2), [], 0⟩, terminal := false }]
  root := 0
  handler := ⟨(4, 3), false, 1, 3, 1⟩

/-- A primal agent on the counter environment whose common data holds `risk_thd = 1` and
`sample_risk_thd = 1`, configured with `risk_thd = 0` and `num_sim = 0`. -/
def example_primal : primal_uct Nat Nat Int Int Int (Nat × Nat) where
  ts := { heap := [], root := 0, max_depth := 2, gamma := 1,
          common_data := ⟨1, 1, 1⟩, handler := ⟨(3, 0), false, 7, 7, 7⟩ }
  num_sim := 0
  risk_thd := 0

/-- The curve class of the examples over the rationals: the pair `(b, c)` stands for
`r(π) = b·π − (c/2)·π²` on `[0, 1]`, with bounds `(r(0), r(1))`, slope `b − c·π` and the
risk `(b − d) / c` at which the slope is `d`. -/
def example_curve_ops_q : pareto_curve_ops (ℚ × ℚ) ℚ where
  r_bounds cv := (0, cv.1 - cv.2 / 2)
  update cv _ _ := cv
  derivative cv x := cv.1 - cv.2 * x
  inverse_derivative cv d := (cv.1 - d) / cv.2

/-- External functions for the examples: `mix` plays the first child at risk 0 with
probability `1 − target` and the second child at risk 1 otherwise (value: the mean of
reward plus bonus); the square root term is 1; the variates of the generator are `1/3`,
`1/4`, `1/5`, and so on. -/
def example_externals : pareto_externals (ℚ × ℚ) ℚ where
  mix c1 c2 b1 b2 _ _ target :=
    (0, 1 - target, 1, ((1 - target) * b1 + target * (c2.1 - c2.2 / 2 + b2) + c1.1 * 0 : ℚ))
  sqrt_log_ratio _ _ := 1
  unif_float k := 1 / (k + 3)

/-- A state node for the examples with a single action node whose curve is the constant
zero reward, `r_bounds() = (0, 0)`. -/
def example_zero_node : state_node Nat Nat (pareto_value (ℚ × ℚ) ℚ) (pareto_value (ℚ × ℚ) ℚ) ℚ where
  state := 3
  parent := none
  children := [⟨1, some 0, [], 0, ⟨(0, 0), [], 0⟩, 0, 0⟩]
  actions := [1]
  num_visits := 1
  v := ⟨(0, 0), [], 0⟩
  terminal := false

/-- A state node for the examples with three action nodes, whose curves reach the rewards
1, 3 and 5 at risk 1. -/
def example_three_node : state_node Nat Nat (pareto_value (ℚ × ℚ) ℚ) (pareto_value (ℚ × ℚ) ℚ) ℚ where
  state := 3
  parent := none
  children := [⟨1, some 0, [], 1, ⟨(2, 2), [], 0⟩, 0, 0⟩, ⟨2, some 0, [], 1, ⟨(4, 2), [], 0⟩, 0, 0⟩,
    ⟨3, some 0, [], 1, ⟨(6, 2), [], 0⟩, 0, 0⟩]
  actions := [1, 2, 3]
  num_visits := 3
  v := ⟨(6, 2), [], 0⟩
  terminal := false

/-- The curve class of the examples with an `inverse_derivative` that stays within
`[0, 1]`: the risk `(b − d) / c` is cut off at 0 and at 1. -/
def example_curve_ops_clamped : pareto_curve_ops (ℚ × ℚ) ℚ where
  r_bounds cv := (0, cv.1 - cv.2 / 2)
  update cv _ _ := cv
  derivative cv x := cv.1 - cv.2 * x
  inverse_derivative cv d := max 0 (min 1 ((cv.1 - d) / cv.2))

/-- The counter environment with rational rewards and penalties. -/
def counter_env_q : environment Nat Nat ℚ (Nat × Nat) where
  num_actions _ := 2
  possible_actions _ := [1, 2]
  get_action _ i := i + 1
  current_state e := e.1
  is_over e := decide (10 ≤ e.1)
  play_action e a := (⟨e.1 + a, (a : ℚ), (e.1 : ℚ), decide (10 ≤ e.1 + a)⟩, (e.1 + a, e.2))
  make_checkpoint e := (e.1, e.1)
  restore_checkpoint e := (e.2, e.2)
  reset e := (0, e.2)

/-- A Pareto agent for the examples on the counter environment at count 3, with
`num_sim = 0` and risk threshold `1/2`: the root (address 0) has the action nodes of
actions 1 and 2, and the action node of action 1 has one child, keyed `key` (address 1),
visited twice. -/
def example_pareto_q (key : Nat) : pareto_uct Nat Nat (ℚ × ℚ) ℚ (Nat × Nat) where
  max_depth := 2
  num_sim := 0
  risk_thd := 1 / 2
  gamma := 1
  common_data := ⟨1 / 2, 1 / 2, 5⟩
  heap := [
    { state := 3, parent := none,
      children := [⟨1, some 0, [(key, 1)], 2, ⟨(2, 2), [], 0⟩, 1, 3⟩,
                   ⟨2, some 0, [], 0, ⟨(4, 2), [], 0⟩, 0, 0⟩],
      actions := [1, 2], num_visits := 3, v := ⟨(2, 2), [], 1⟩, terminal := false },
    { state := key, parent := some (0, 0),
      children := [⟨1, some 1, [], 1, ⟨(2, 2), [], 0⟩, 0, 0⟩,
                   ⟨2, some 1, [], 0, ⟨(2, 2), [], 0⟩, 0, 0⟩],
      actions := [1, 2], num_visits := 2, v := ⟨(2, 1), [], 0⟩, terminal := false }]
  root := 0
  handler := ⟨(3, 0), false, 0, 0, 0⟩

/-- Function templates for the examples: `select_leaf` returns the root, the other three
change nothing. -/
def example_templates : pareto_templates Nat Nat (ℚ × ℚ) ℚ (Nat × Nat) where
  select_leaf ag k _ _ := some (ag, k, ag.root)
  expand_state ag _ := some ag
  void_rollout ag _ := some ag
  propagate ag _ _ := some ag

/-- The tree of the example dual agent after three full simulation passes from the freshly
reset tree, with the leaves that `select` returned. -/
def example_passes : tree_search Nat Nat Int Int Int (dual_uct_data Int) (Nat × Nat) × List Nat :=
  (simulation_passes counter_env (first_action_policy _) 3
    ((example_dual 0).ts.reset counter_env (first_action_policy _))).getD
    ((example_dual 0).ts, [])

/-- A state node for the examples with a single action node, for the action 7, whose curve
reaches the reward 1 at risk 1. -/
def example_single_node : state_node Nat Nat (pareto_value (ℚ × ℚ) ℚ) (pareto_value (ℚ × ℚ) ℚ) ℚ where
  state := 3
  parent := none
  children := [⟨7, some 0, [], 2, ⟨(2, 2), [], 0⟩, 0, 0⟩]
  actions := [7]
  num_visits := 2
  v := ⟨(2, 2), [], 0⟩
  terminal := false

end ts
end gym

/-! ## Theorems: environment handler -/

namespace world

section handler_lemmas

variable {S A R E X : Type}

theorem env_plays_append (M : environment S A R E) (e : E) (as bs : List A) :
    env_plays M e (as ++ bs) = env_plays M (env_plays M e as) bs := by
  induction as generalizing e with
  | nil => rfl
  | cons a as ih => exact ih _

theorem sim_actions_of_simulating (M : environment S A R E) (h : environment_handler R E)
    (hs : h.is_simulating = true) (as : List A) :
    h.sim_actions M as = { h with env := env_plays M h.env as } := by
  induction as generalizing h with
  | nil => rfl
  | cons a as ih =>
    have h1 : (h.sim_action M a).2 = { h with env := (M.play_action h.env a).2 } := by
      simp [environment_handler.sim_action, hs]
    simp only [environment_handler.sim_actions, h1]
    rw [ih { h with env := (M.play_action h.env a).2 } hs]
    rfl

theorem sim_actions_cons_of_idle (M : environment S A R E) (h : environment_handler R E)
    (hs : h.is_simulating = false) (a : A) (as : List A) :
    h.sim_actions M (a :: as) =
      { h with env := env_plays M (M.make_checkpoint h.env) (a :: as), is_simulating := true } := by
  have h1 : (h.sim_action M a).2 =
      { h with env := (M.play_action (M.make_checkpoint h.env) a).2, is_simulating := true } := by
    simp [environment_handler.sim_action, hs]
  simp only [environment_handler.sim_actions, h1]
  rw [sim_actions_of_simulating M _ rfl]
  rfl

theorem counter_env_plays_snd (e : Nat × Nat) (as : List Nat) :
    (env_plays counter_env e as).2 = e.2 := by
  induction as generalizing e with
  | nil => rfl
  | cons a as ih => exact ih _

theorem counter_env_faithful : faithful_checkpoint counter_env Prod.fst where
  play_congr := by
    intro e e' a h
    simp [counter_env, h]
  make_obs := by intro e; rfl
  restore_obs := by
    intro e as
    show (env_plays counter_env (counter_env.make_checkpoint e) as).2 = e.1
    rw [counter_env_plays_snd]
    rfl

end handler_lemmas

/-- C1. For an environment that is deterministic and whose `restore_checkpoint` brings it back
to the state of the latest `make_checkpoint`, and a handler outside a simulation session:
`play_action a` issued after any finite sequence of `sim_action` calls returns the same outcome,
leaves the environment in the same state and the counters at the same values as `play_action a`
issued directly, and afterwards the handler is not in a simulation session. -/
theorem play_action_after_sim_actions {S A R E X : Type} [Add R] (M : environment S A R E)
    (obs : E → X) (hM : faithful_checkpoint M obs) (h : environment_handler R E)
    (hs : h.is_simulating = false) (as : List A) (a : A) :
    ((h.sim_actions M as).play_action M a).1 = (h.play_action M a).1 ∧
    obs ((h.sim_actions M as).play_action M a).2.env = obs (h.play_action M a).2.env ∧
    ((h.sim_actions M as).play_action M a).2.is_simulating = false ∧
    ((h.sim_actions M as).play_action M a).2.num_steps = (h.play_action M a).2.num_steps ∧
    ((h.sim_actions M as).play_action M a).2.reward = (h.play_action M a).2.reward ∧
    ((h.sim_actions M as).play_action M a).2.penalty = (h.play_action M a).2.penalty := by
  cases as with
  | nil => simp [environment_handler.sim_actions, environment_handler.play_action, hs]
  | cons b bs =>
    rw [sim_actions_cons_of_idle M h hs]
    have hr := hM.restore_obs h.env (b :: bs)
    have hc := hM.play_congr _ _ a hr
    simp only [environment_handler.play_action, hs]
    refine ⟨hc.1, hc.2, rfl, rfl, ?_, ?_⟩
    · show h.reward + (M.play_action (M.restore_checkpoint _) a).1.reward =
        h.reward + (M.play_action h.env a).1.reward
      rw [hc.1]
    · show h.penalty + (M.play_action (M.restore_checkpoint _) a).1.penalty =
        h.penalty + (M.play_action h.env a).1.penalty
      rw [hc.1]

/-- C1, at a concrete input: the counter environment, two simulated actions, then a real one. -/
theorem play_action_after_sim_actions_witness :
    faithful_checkpoint counter_env Prod.fst ∧
    (((⟨(3, 0), false, 0, 0, 0⟩ : environment_handler Int (Nat × Nat)).sim_actions
        counter_env [1, 2]).play_action counter_env 2).1 = ⟨5, 2, 3, false⟩ ∧
    ((⟨(3, 0), false, 0, 0, 0⟩ : environment_handler Int (Nat × Nat)).play_action
        counter_env 2).1 = ⟨5, 2, 3, false⟩ :=
  ⟨counter_env_faithful,
   (play_action_after_sim_actions counter_env Prod.fst counter_env_faithful
      ⟨(3, 0), false, 0, 0, 0⟩ rfl [1, 2] 2).1.trans (by decide),
   by decide⟩

section counter_lemmas

variable {S A R E : Type}

theorem wrap_int_of_range (x : Int) (h1 : -2147483648 ≤ x) (h2 : x ≤ 2147483647) :
    wrap_int x = x := by
  unfold wrap_int
  omega

theorem wrap_int_succ (x : Int) : wrap_int (wrap_int x + 1) = wrap_int (x + 1) := by
  unfold wrap_int
  omega

theorem wrap_int_idem (x : Int) : wrap_int (wrap_int x) = wrap_int x := by
  unfold wrap_int
  omega

/-- The counter `num_steps` after a sequence of handler operations, from a handler whose
`num_steps` is a value of a 32-bit `int`: the number of `play_action` calls of the sequence is
added, with wrap-around. -/
theorem run_ops_num_steps [Add R] (M : environment S A R E) (h : environment_handler R E)
    (ops : List (handler_op A)) (hin : wrap_int h.num_steps = h.num_steps) :
    (run_ops M h ops).2.num_steps =
      wrap_int (h.num_steps + ((run_ops M h ops).1.length : Int)) := by
  induction ops generalizing h with
  | nil => simp [run_ops, hin]
  | cons op ops ih =>
    cases op with
    | play_action a =>
      have hn : ((apply_op M h (handler_op.play_action a)).2).num_steps =
          wrap_int (h.num_steps + 1) := by
        simp only [apply_op, environment_handler.play_action]
        split <;> rfl
      have i1 := ih (apply_op M h (handler_op.play_action a)).2
        (by rw [hn, wrap_int_idem])
      simp only [run_ops, i1, hn]
      simp only [apply_op, Option.toList, List.length_append, List.length_singleton,
        List.length_cons, List.length_nil, Nat.cast_add, Nat.cast_one]
      unfold wrap_int
      omega
    | sim_action a =>
      have hn : ((apply_op M h (handler_op.sim_action a)).2).num_steps = h.num_steps := by
        simp only [apply_op, environment_handler.sim_action]
        split <;> rfl
      have i1 := ih (apply_op M h (handler_op.sim_action a)).2 (by rw [hn]; exact hin)
      simp only [run_ops, i1, hn]
      simp [apply_op]
    | sim_reset =>
      have hn : ((apply_op M h (handler_op.sim_reset : handler_op A)).2).num_steps =
          h.num_steps := by
        simp only [apply_op, environment_handler.sim_reset]
        split <;> rfl
      have i1 := ih (apply_op M h (handler_op.sim_reset : handler_op A)).2
        (by rw [hn]; exact hin)
      simp only [run_ops, i1, hn]
      simp [apply_op]

/-- The accumulators `reward` and `penalty` after a sequence of handler operations. -/
theorem run_ops_counters [Add R] (M : environment S A R E) (h : environment_handler R E)
    (ops : List (handler_op A)) :
    (run_ops M h ops).2.reward =
      ((run_ops M h ops).1.map outcome_t.reward).foldl (· + ·) h.reward ∧
    (run_ops M h ops).2.penalty =
      ((run_ops M h ops).1.map outcome_t.penalty).foldl (· + ·) h.penalty := by
  induction ops generalizing h with
  | nil => simp [run_ops]
  | cons op ops ih =>
    obtain ⟨i2, i3⟩ := ih (apply_op M h op).2
    cases op with
    | play_action a =>
      simp only [run_ops, i2, i3]
      refine ⟨?_, ?_⟩
      · simp only [apply_op, environment_handler.play_action]
        split <;> simp
      · simp only [apply_op, environment_handler.play_action]
        split <;> simp
    | sim_action a =>
      simp only [run_ops, i2, i3]
      refine ⟨?_, ?_⟩ <;>
        simp only [apply_op, environment_handler.sim_action] <;> split <;> simp
    | sim_reset =>
      simp only [run_ops, i2, i3]
      refine ⟨?_, ?_⟩ <;>
        simp only [apply_op, environment_handler.sim_reset] <;> split <;> simp

theorem run_ops_length [Add R] (M : environment S A R E) (h : environment_handler R E)
    (ops : List (handler_op A)) :
    (run_ops M h ops).1.length =
      ops.countP (fun op => match op with | .play_action _ => true | _ => false) := by
  induction ops generalizing h with
  | nil => rfl
  | cons op ops ih =>
    cases op <;> simp [run_ops, apply_op, ih, List.countP_cons]

end counter_lemmas

/-- C2, as stated, fails: `num_steps` is a 32-bit `int`. After `reset` and a sequence of
2147483648 `play_action` calls on the counter environment, the number of `play_action` calls
in the sequence is 2147483648 while `num_steps` is -2147483648: the increment of 2147483647
wraps around. -/
theorem num_steps_wraps_around :
    (List.replicate 2147483648 (handler_op.play_action 1 : handler_op Nat)).countP
      (fun op => match op with | .play_action _ => true | _ => false) = 2147483648 ∧
    (run_ops counter_env (⟨(0, 0), false, 0, 0, 0⟩ : environment_handler Int (Nat × Nat)).reset
      (List.replicate 2147483648 (handler_op.play_action 1))).2.num_steps = -2147483648 ∧
    (-2147483648 : Int) ≠ 2147483648 := by
  have hc : (List.replicate 2147483648 (handler_op.play_action 1 : handler_op Nat)).countP
      (fun op => match op with | .play_action _ => true | _ => false) = 2147483648 := by
    rw [List.countP_replicate]
    rfl
  have hlen : (run_ops counter_env
      (⟨(0, 0), false, 0, 0, 0⟩ : environment_handler Int (Nat × Nat)).reset
      (List.replicate 2147483648 (handler_op.play_action 1))).1.length = 2147483648 := by
    rw [run_ops_length, List.countP_replicate]
    rfl
  refine ⟨hc, ?_, by decide⟩
  rw [run_ops_num_steps counter_env _ _ (by rfl), hlen]
  rfl

/-- C2, amended. After `reset`, for every sequence of `play_action`, `sim_action` and
`sim_reset` calls, `num_steps` is the number of `play_action` calls of the sequence as long as
that number is at most 2147483647 (in general it is that number wrapped around to a 32-bit
`int`), `reward` is the sum (taken in call order, from zero) of the rewards those calls
returned and `penalty` the sum of the penalties they returned; `sim_action` and `sim_reset`
leave the three counters unchanged and `reset` sets the three to zero. -/
theorem real_counters_count_plays {S A R E : Type} [Add R] [Zero R] (M : environment S A R E)
    (h : environment_handler R E) (ops : List (handler_op A)) (a : A) :
    ((ops.countP (fun op => match op with | .play_action _ => true | _ => false) ≤ 2147483647 →
        (run_ops M h.reset ops).2.num_steps =
          (ops.countP (fun op => match op with | .play_action _ => true | _ => false) : Nat)) ∧
      (run_ops M h.reset ops).2.num_steps = wrap_int
        (ops.countP (fun op => match op with | .play_action _ => true | _ => false) : Nat) ∧
      (run_ops M h.reset ops).2.reward =
        ((run_ops M h.reset ops).1.map outcome_t.reward).foldl (· + ·) 0 ∧
      (run_ops M h.reset ops).2.penalty =
        ((run_ops M h.reset ops).1.map outcome_t.penalty).foldl (· + ·) 0) ∧
    ((h.sim_action M a).2.num_steps = h.num_steps ∧ (h.sim_action M a).2.reward = h.reward ∧
      (h.sim_action M a).2.penalty = h.penalty) ∧
    ((h.sim_reset M).num_steps = h.num_steps ∧ (h.sim_reset M).reward = h.reward ∧
      (h.sim_reset M).penalty = h.penalty) ∧
    (h.reset.num_steps = 0 ∧ h.reset.reward = 0 ∧ h.reset.penalty = 0) := by
  refine ⟨?_, ?_, ?_, ⟨rfl, rfl, rfl⟩⟩
  · obtain ⟨i2, i3⟩ := run_ops_counters M h.reset ops
    have i1 := run_ops_num_steps M h.reset ops (by rfl)
    rw [run_ops_length] at i1
    have i1' : (run_ops M h.reset ops).2.num_steps = wrap_int
        (ops.countP (fun op => match op with | .play_action _ => true | _ => false) : Nat) := by
      rw [i1]
      simp [environment_handler.reset]
    refine ⟨?_, i1', i2, i3⟩
    intro hle
    rw [i1']
    exact wrap_int_of_range _ (by omega) (by omega)
  · simp only [environment_handler.sim_action]
    split <;> simp
  · simp only [environment_handler.sim_reset]
    split <;> simp

/-- C2 amended, at a concrete input: on the counter environment at count 3, the sequence
play 1, simulate 2, play 2, end the simulation, play 1 has three `play_action` calls with the
rewards 1, 2, 1 and the penalties 3, 4, 6; the counters are 3, 4 and 13. -/
theorem real_counters_count_plays_witness :
    (run_ops counter_env (⟨(3, 0), false, 7, 7, 7⟩ : environment_handler Int (Nat × Nat)).reset
      [.play_action 1, .sim_action 2, .play_action 2, .sim_reset, .play_action 1]).2.num_steps
      = 3 ∧
    (run_ops counter_env (⟨(3, 0), false, 7, 7, 7⟩ : environment_handler Int (Nat × Nat)).reset
      [.play_action 1, .sim_action 2, .play_action 2, .sim_reset, .play_action 1]).2.reward
      = 4 ∧
    (run_ops counter_env (⟨(3, 0), false, 7, 7, 7⟩ : environment_handler Int (Nat × Nat)).reset
      [.play_action 1, .sim_action 2, .play_action 2, .sim_reset, .play_action 1]).2.penalty
      = 13 :=
  ⟨((real_counters_count_plays counter_env ⟨(3, 0), false, 7, 7, 7⟩
      [.play_action 1, .sim_action 2, .play_action 2, .sim_reset, .play_action 1] 1).1.1
      (by decide)).trans (by decide),
   by decide, by decide⟩

/-- C3. `sim_reset` is idempotent: a second call in a row leaves handler and environment
exactly as the first call left them, the record of calls received by a recording environment
included (so the second call issues no `restore_checkpoint`), and a single call on a handler
that is not simulating changes nothing. -/
theorem sim_reset_idempotent {S A R E : Type} (M : environment S A R E)
    (h : environment_handler R E) (g : environment_handler R (E × List (env_call A))) :
    (h.sim_reset M).sim_reset M = h.sim_reset M ∧
    ((g.sim_reset (recording M)).sim_reset (recording M)).env.2 =
      (g.sim_reset (recording M)).env.2 ∧
    ({ h with is_simulating := false } : environment_handler R E).sim_reset M =
      { h with is_simulating := false } := by
  have key : ∀ {E' : Type} (N : environment S A R E') (k : environment_handler R E'),
      (k.sim_reset N).sim_reset N = k.sim_reset N := by
    intro E' N k
    simp only [environment_handler.sim_reset]
    split <;> simp_all
  exact ⟨key M h, by rw [key], by simp [environment_handler.sim_reset]⟩

section discipline_lemmas

variable {S A R E : Type}

theorem checkpoint_discipline_append (b : Bool) (cs ds : List (env_call A)) :
    checkpoint_discipline b (cs ++ ds) =
      (checkpoint_discipline b cs).bind (fun c => checkpoint_discipline c ds) := by
  induction cs generalizing b with
  | nil => rfl
  | cons c cs ih =>
    cases c with
    | play_action a => simpa [checkpoint_discipline] using ih b
    | make_checkpoint =>
      cases b
      · simpa [checkpoint_discipline] using ih true
      · simp [checkpoint_discipline]
    | restore_checkpoint =>
      cases b
      · simp [checkpoint_discipline]
      · simpa [checkpoint_discipline] using ih false

theorem checkpoint_calls_append (cs ds : List (env_call A)) :
    checkpoint_calls (cs ++ ds) = checkpoint_calls cs ++ checkpoint_calls ds := by
  induction cs with
  | nil => rfl
  | cons c cs ih => cases c <;> simp [checkpoint_calls, ih]

theorem checkpoint_inv_step [Add R] (M : environment S A R E) (base : List (env_call A))
    (h : environment_handler R (E × List (env_call A))) (hi : checkpoint_inv base h)
    (op : handler_op A) : checkpoint_inv base (apply_op (recording M) h op).2 := by
  obtain ⟨calls, n, hlog, hd, hc, hn⟩ := hi
  cases hsim : h.is_simulating with
  | false =>
    have hn0 : n % 2 = 0 := by
      have : ¬ n % 2 = 1 := fun h1 => by simpa [hsim] using hn.2 h1
      omega
    rw [hsim] at hd
    cases op with
    | play_action a =>
      refine ⟨calls ++ [.play_action a], n, ?_, ?_, ?_, ?_⟩
      · simp [apply_op, environment_handler.play_action, hsim, recording, hlog]
      · simp [apply_op, environment_handler.play_action, hsim, checkpoint_discipline_append, hd,
          checkpoint_discipline]
      · simp [checkpoint_calls_append, hc, checkpoint_calls]
      · simp [apply_op, environment_handler.play_action, hsim, hn0]
    | sim_action a =>
      refine ⟨calls ++ [.make_checkpoint, .play_action a], n + 1, ?_, ?_, ?_, ?_⟩
      · simp [apply_op, environment_handler.sim_action, hsim, recording, hlog]
      · simp [apply_op, environment_handler.sim_action, hsim, checkpoint_discipline_append, hd,
          checkpoint_discipline]
      · simp [checkpoint_calls_append, hc, checkpoint_calls, alternating, hn0]
      · simp [apply_op, environment_handler.sim_action, hsim]
        omega
    | sim_reset =>
      refine ⟨calls, n, ?_, ?_, hc, ?_⟩
      · simp [apply_op, environment_handler.sim_reset, hsim, hlog]
      · simp [apply_op, environment_handler.sim_reset, hsim, hd]
      · simp [apply_op, environment_handler.sim_reset, hsim, hn0]
  | true =>
    have hn1 : n % 2 = 1 := hn.1 hsim
    rw [hsim] at hd
    cases op with
    | play_action a =>
      refine ⟨calls ++ [.restore_checkpoint, .play_action a], n + 1, ?_, ?_, ?_, ?_⟩
      · simp [apply_op, environment_handler.play_action, hsim, recording, hlog]
      · simp [apply_op, environment_handler.play_action, hsim, checkpoint_discipline_append, hd,
          checkpoint_discipline]
      · simp [checkpoint_calls_append, hc, checkpoint_calls, alternating, hn1]
      · simp [apply_op, environment_handler.play_action, hsim]
        omega
    | sim_action a =>
      refine ⟨calls ++ [.play_action a], n, ?_, ?_, ?_, ?_⟩
      · simp [apply_op, environment_handler.sim_action, hsim, recording, hlog]
      · simp [apply_op, environment_handler.sim_action, hsim, checkpoint_discipline_append, hd,
          checkpoint_discipline]
      · simp [checkpoint_calls_append, hc, checkpoint_calls]
      · simp [apply_op, environment_handler.sim_action, hsim, hn1]
    | sim_reset =>
      refine ⟨calls ++ [.restore_checkpoint], n + 1, ?_, ?_, ?_, ?_⟩
      · simp [apply_op, environment_handler.sim_reset, hsim, recording, hlog]
      · simp [apply_op, environment_handler.sim_reset, hsim, checkpoint_discipline_append, hd,
          checkpoint_discipline]
      · simp [checkpoint_calls_append, hc, checkpoint_calls, alternating, hn1]
      · simp [apply_op, environment_handler.sim_reset, hsim]
        omega

theorem checkpoint_inv_run [Add R] (M : environment S A R E) (base : List (env_call A))
    (h : environment_handler R (E × List (env_call A))) (hi : checkpoint_inv base h)
    (ops : List (handler_op A)) : checkpoint_inv base (run_ops (recording M) h ops).2 := by
  induction ops generalizing h with
  | nil => exact hi
  | cons op ops ih => exact ih _ (checkpoint_inv_step M base h hi op)

end discipline_lemmas

/-- C4. For a handler that starts outside a simulation session and every sequence of
`play_action`, `sim_action` and `sim_reset` calls, the calls the handler issues to the
environment respect the checkpoint discipline (no `make_checkpoint` while a checkpoint is
outstanding, no `restore_checkpoint` without one), the `make_checkpoint` and
`restore_checkpoint` calls strictly alternate starting with `make_checkpoint`, and
`is_simulating` is true exactly when a checkpoint is outstanding (an odd number of them). -/
theorem one_outstanding_checkpoint {S A R E : Type} [Add R] (M : environment S A R E)
    (h : environment_handler R (E × List (env_call A))) (hs : h.is_simulating = false)
    (ops : List (handler_op A)) :
    ∃ calls n, (run_ops (recording M) h ops).2.env.2 = h.env.2 ++ calls ∧
      checkpoint_discipline false calls = some (run_ops (recording M) h ops).2.is_simulating ∧
      checkpoint_calls calls = alternating n ∧
      ((run_ops (recording M) h ops).2.is_simulating = true ↔ n % 2 = 1) :=
  checkpoint_inv_run M h.env.2 h ⟨[], 0, by simp, by simp [checkpoint_discipline, hs],
    by simp [checkpoint_calls, alternating], by simp [hs]⟩ ops

/-- C4, at a concrete input: simulate twice, play, simulate, reset the simulation. -/
theorem one_outstanding_checkpoint_witness :
    (run_ops (recording counter_env) ⟨((3, 0), []), false, 0, 0, 0⟩
      [.sim_action 1, .sim_action 2, .play_action 1, .sim_action 1, .sim_reset]).2.env.2 =
      [.make_checkpoint, .play_action 1, .play_action 2, .restore_checkpoint, .play_action 1,
        .make_checkpoint, .play_action 1, .restore_checkpoint] ∧
    ∃ calls n,
      (run_ops (recording counter_env) ⟨((3, 0), []), false, 0, 0, 0⟩
        [.sim_action 1, .sim_action 2, .play_action 1, .sim_action 1, .sim_reset]).2.env.2 =
        [] ++ calls ∧
      checkpoint_discipline false calls = some (run_ops (recording counter_env)
        ⟨((3, 0), []), false, 0, 0, 0⟩
        [.sim_action 1, .sim_action 2, .play_action 1, .sim_action 1, .sim_reset]).2.is_simulating ∧
      checkpoint_calls calls = alternating n ∧
      ((run_ops (recording counter_env) ⟨((3, 0), []), false, 0, 0, 0⟩
        [.sim_action 1, .sim_action 2, .play_action 1, .sim_action 1, .sim_reset]).2.is_simulating
          = true ↔ n % 2 = 1) :=
  ⟨by decide, one_outstanding_checkpoint counter_env ⟨((3, 0), []), false, 0, 0, 0⟩ rfl
    [.sim_action 1, .sim_action 2, .play_action 1, .sim_action 1, .sim_reset]⟩

end world

/-! ## Theorems: the dual agent -/

namespace gym
namespace ts

open world

section common_data_lemmas

variable {S A V Q K D E : Type} [DecidableEq A] [DecidableEq S]

theorem descend_update_common_data (P : node_policy S A V Q K D)
    (hdesc : ∀ d n a an s sn, (P.descend_callback d n a an s sn).1 = d)
    (t t' : tree_search S A V Q K D E) (n : Nat) (a : A) (s : S) (e : Bool)
    (h : descend_update P t n a s e = some t') : t'.common_data = t.common_data := by
  simp only [descend_update, Option.bind_eq_bind, Option.bind_eq_some] at h
  obtain ⟨node, -, i, -, an, -, c, -, ns, -, ns1, -, h⟩ := h
  simp only [Option.some.injEq] at h
  rw [← h]
  exact hdesc _ _ _ _ _ _

theorem select_step_common_data (M : environment S A K E) (P : node_policy S A V Q K D)
    (hsel : ∀ d n e, (P.select_action d n e).2 = d)
    (hdesc : ∀ d n a an s sn, (P.descend_callback d n a an s sn).1 = d)
    (t : tree_search S A V Q K D E) (cur : Nat) (r : tree_search S A V Q K D E × Nat)
    (h : tree_search.select_step M P t cur = some r) : r.1.common_data = t.common_data := by
  simp only [tree_search.select_step, Option.bind_eq_bind, Option.bind_eq_some] at h
  obtain ⟨node, -, i, -, heap1, -, t2, h2, node2, -, an, -, c, -, h⟩ := h
  simp only [Option.some.injEq] at h
  rw [← h]
  rw [descend_update_common_data P hdesc _ _ _ _ _ _ h2]
  exact hsel _ _ _

theorem select_loop_zero (M : environment S A K E) (P : node_policy S A V Q K D)
    (t : tree_search S A V Q K D E) (cur : Nat) (depth : Int) :
    tree_search.select_loop M P 0 t cur depth =
      match t.heap[cur]? with
      | none => none
      | some node =>
        if (!is_leaf node && decide (depth < t.max_depth) && !node.is_terminal) = true then none
        else some (t, cur, depth) := rfl

theorem select_loop_succ (M : environment S A K E) (P : node_policy S A V Q K D) (fuel : Nat)
    (t : tree_search S A V Q K D E) (cur : Nat) (depth : Int) :
    tree_search.select_loop M P (fuel + 1) t cur depth =
      match t.heap[cur]? with
      | none => none
      | some node =>
        if (!is_leaf node && decide (depth < t.max_depth) && !node.is_terminal) = true then
          match tree_search.select_step M P t cur with
          | none => none
          | some r => tree_search.select_loop M P fuel r.1 r.2 (depth + 1)
        else some (t, cur, depth) := rfl

theorem select_loop_common_data (M : environment S A K E) (P : node_policy S A V Q K D)
    (hsel : ∀ d n e, (P.select_action d n e).2 = d)
    (hdesc : ∀ d n a an s sn, (P.descend_callback d n a an s sn).1 = d)
    (fuel : Nat) (t : tree_search S A V Q K D E) (cur : Nat) (depth : Int)
    (r : tree_search S A V Q K D E × Nat × Int)
    (h : tree_search.select_loop M P fuel t cur depth = some r) :
    r.1.common_data = t.common_data := by
  induction fuel generalizing t cur depth with
  | zero =>
    rw [select_loop_zero] at h
    split at h
    · exact absurd h (by simp)
    · split at h
      · exact absurd h (by simp)
      · simp only [Option.some.injEq] at h
        rw [← h]
  | succ fuel ih =>
    rw [select_loop_succ] at h
    split at h
    · exact absurd h (by simp)
    · split at h
      · split at h
        · exact absurd h (by simp)
        · rename_i r1 hstep
          rw [ih _ _ _ h]
          exact select_step_common_data M P hsel hdesc _ _ _ hstep
      · simp only [Option.some.injEq] at h
        rw [← h]

theorem select_common_data (M : environment S A K E) (P : node_policy S A V Q K D)
    (hsel : ∀ d n e, (P.select_action d n e).2 = d)
    (hdesc : ∀ d n a an s sn, (P.descend_callback d n a an s sn).1 = d)
    (t : tree_search S A V Q K D E) (r : tree_search S A V Q K D E × Nat)
    (h : tree_search.select M P t = some r) : r.1.common_data = t.common_data := by
  simp only [tree_search.select, Option.bind_eq_bind, Option.bind_eq_some] at h
  obtain ⟨r1, h1, h⟩ := h
  simp only [Option.some.injEq] at h
  rw [← h]
  exact select_loop_common_data M P hsel hdesc _ _ _ _ _ h1

omit [DecidableEq A] [DecidableEq S] in
theorem expand_common_data (M : environment S A K E) (P : node_policy S A V Q K D)
    (t t' : tree_search S A V Q K D E) (leaf : Nat)
    (h : tree_search.expand M P t leaf = some t') : t'.common_data = t.common_data := by
  simp only [tree_search.expand, Option.bind_eq_bind, Option.bind_eq_some] at h
  obtain ⟨node, -, h⟩ := h
  simp only [Option.some.injEq] at h
  rw [← h]

omit [DecidableEq A] [DecidableEq S] in
theorem propagate_common_data (P : node_policy S A V Q K D) (fuel : Nat)
    (t t' : tree_search S A V Q K D E) (leaf : Nat)
    (h : tree_search.propagate P fuel t leaf = some t') : t'.common_data = t.common_data := by
  simp only [tree_search.propagate, Option.bind_eq_bind, Option.bind_eq_some] at h
  obtain ⟨r, -, heap1, -, h⟩ := h
  simp only [Option.some.injEq] at h
  rw [← h]

end common_data_lemmas

section dual_lemmas

variable {S A V Q K E : Type} [DecidableEq A] [DecidableEq S] [LinearOrderedRing K]

end dual_lemmas

/-- C6. In an iteration of the simulation loop of `dual_uct::play`, with policy callables
(`select_action`, the descend callback) that do not write the common data: select, expand and
propagate leave the common data as it was, and the iteration ends with
`lambda = max 0 (lambda_old + lr * (expected_penalty a* - risk_thd))`, where `a*` is what
`select_action` with `explore = false` returns on the root of the tree after propagate and the
expected penalty is that of the root's child action node of `a*`; the tree after the
iteration is the tree after propagate and nothing of the common data but `lambda` changes. -/
theorem lambda_update {S A V Q K E : Type} [DecidableEq A] [DecidableEq S] [LinearOrderedRing K]
    (M : environment S A K E) (P : node_policy S A V Q K (dual_uct_data K))
    (hsel : ∀ d n e, (P.select_action d n e).2 = d)
    (hdesc : ∀ d n a an s sn, (P.descend_callback d n a an s sn).1 = d)
    (root : Nat) (ag ag' : dual_uct S A V Q K E)
    (h : dual_uct.play_simulation M P root ag = some ag') :
    ∃ sel t1 t2 root_node i action_node,
      ag.ts.select M P = some sel ∧ sel.1.expand M P sel.2 = some t1 ∧
      t1.propagate P t1.heap.length sel.2 = some t2 ∧
      t2.common_data = ag.ts.common_data ∧
      t2.heap[root]? = some root_node ∧
      root_node.get_child (P.select_action t2.common_data root_node false).1 = some i ∧
      root_node.children[i]? = some action_node ∧
      ag'.ts.common_data.lambda =
        max 0 (ag.ts.common_data.lambda +
          ag.lr * (action_node.expected_penalty - ag.ts.common_data.risk_thd)) ∧
      ag'.ts.common_data.risk_thd = ag.ts.common_data.risk_thd ∧
      ag'.ts.common_data.exploration_constant = ag.ts.common_data.exploration_constant ∧
      ag'.ts.heap = t2.heap ∧ ag'.ts.handler = t2.handler ∧ ag'.lr = ag.lr := by
  simp only [dual_uct.play_simulation, Option.bind_eq_bind, Option.bind_eq_some] at h
  obtain ⟨sel, h1, t1, h2, t2, h3, root_node, h4, i, h5, action_node, h6, h⟩ := h
  simp only [Option.some.injEq] at h
  have hcd : t2.common_data = ag.ts.common_data := by
    rw [propagate_common_data P _ _ _ _ h3, expand_common_data M P _ _ _ h2,
      select_common_data M P hsel hdesc _ _ h1]
  refine ⟨sel, t1, t2, root_node, i, action_node, h1, h2, h3, hcd, h4, h5, h6, ?_⟩
  rw [← h]
  simp only [hsel, hcd, and_true]
  refine ⟨?_, ?_, ?_⟩
  · split
    · rename_i hneg
      exact (max_eq_left (le_of_lt hneg)).symm
    · rename_i hneg
      exact (max_eq_right (not_lt.mp hneg)).symm
  · split <;> rfl
  · split <;> rfl

/-- C6, at a concrete input: the third simulation of the example agent with learning rate 2
takes `lambda` from 4 to `max 0 (4 + 2 * (3 - 1)) = 8`. -/
theorem lambda_update_witness :
    (example_dual_visited 2).ts.common_data.lambda = 4 ∧
    (dual_uct.play_simulation counter_env (first_action_policy _) 0
      (example_dual_visited 2)).map (fun ag => ag.ts.common_data.lambda) = some 8 ∧
    ∃ (ag' : dual_uct Nat Nat Int Int Int (Nat × Nat)) (an : action_node Nat Nat Int Int),
      dual_uct.play_simulation counter_env (first_action_policy _) 0 (example_dual_visited 2) =
        some ag' ∧
      ag'.ts.common_data.lambda =
        max 0 ((example_dual_visited 2).ts.common_data.lambda +
          (example_dual_visited 2).lr *
            (an.expected_penalty - (example_dual_visited 2).ts.common_data.risk_thd)) := by
  have e : (dual_uct.play_simulation counter_env (first_action_policy _) 0
      (example_dual_visited 2)).map (fun ag => ag.ts.common_data.lambda) = some 8 := by decide
  refine ⟨by decide, e, ?_⟩
  cases hag : dual_uct.play_simulation counter_env (first_action_policy _) 0
      (example_dual_visited 2) with
  | none => simp [hag] at e
  | some ag' =>
    obtain ⟨_, _, _, _, _, an, _, _, _, _, _, _, _, hl, _⟩ :=
      lambda_update counter_env (first_action_policy _) (fun _ _ _ => rfl)
        (fun _ _ _ _ _ _ => rfl) 0 (example_dual_visited 2) ag' hag
    exact ⟨ag', an, rfl, hl⟩

/-! ## Theorems: descent -/

section heap_lemmas

variable {S A V Q K D E : Type}

theorem set_action_node_length (heap : List (state_node S A V Q K)) (n i : Nat)
    (an : action_node S A Q K) : (set_action_node heap n i an).length = heap.length := by
  unfold set_action_node
  split <;> simp

theorem set_action_node_self (heap : List (state_node S A V Q K)) (n i : Nat)
    (an : action_node S A Q K) (node : state_node S A V Q K) (h : heap[n]? = some node) :
    (set_action_node heap n i an)[n]? = some { node with children := node.children.set i an } := by
  have hn : n < heap.length := (List.getElem?_eq_some.mp h).1
  simp [set_action_node, h, List.getElem?_set_self hn]

theorem set_action_node_ne (heap : List (state_node S A V Q K)) (n i m : Nat)
    (an : action_node S A Q K) (h : n ≠ m) : (set_action_node heap n i an)[m]? = heap[m]? := by
  unfold set_action_node
  split
  · rfl
  · exact List.getElem?_set_ne h

/-- The state node found at `m` after an action node was written at `(n, i)`. -/
theorem set_action_node_get (heap : List (state_node S A V Q K)) (n i m : Nat)
    (an : action_node S A Q K) (node : state_node S A V Q K) (h : heap[m]? = some node) :
    (set_action_node heap n i an)[m]? =
      some (if n = m then { node with children := node.children.set i an } else node) := by
  by_cases hnm : n = m
  · subst hnm
    rw [set_action_node_self heap n i an node h, if_pos rfl]
  · rw [set_action_node_ne heap n i m an hnm, if_neg hnm, h]

end heap_lemmas

section descend_lemmas

variable {S A V Q K D E : Type} [DecidableEq A] [DecidableEq S]

/-- What `descend_update` does when the action node and the child state node exist. -/
theorem descend_update_eq (P : node_policy S A V Q K D) (t : tree_search S A V Q K D E)
    (n : Nat) (a : A) (s : S) (e : Bool) (node : state_node S A V Q K) (i : Nat)
    (an : action_node S A Q K) (c : Nat) (cn : state_node S A V Q K)
    (h1 : t.heap[n]? = some node) (h2 : node.get_child a = some i)
    (h3 : node.children[i]? = some an) (h4 : an.get_child s = some c)
    (h5 : t.heap[c]? = some cn) :
    descend_update P t n a s e =
      let r := P.descend_callback t.common_data node a an s cn
      let an1 : action_node S A Q K := { an with q := r.2.1 }
      let base : state_node S A V Q K :=
        if n = c then { cn with children := cn.children.set i an1 } else cn
      some { t with
        common_data := r.1
        heap := (set_action_node t.heap n i an1).set c { base with v := r.2.2 } } := by
  simp only [descend_update, Option.bind_eq_bind, h1, Option.some_bind, h2, h3, h4, h5,
    set_action_node_get _ n i c _ cn h5]

omit [DecidableEq S] in
theorem get_child_congr (n m : state_node S A V Q K) (a : A) (ha : m.actions = n.actions)
    (hc : m.children.length = n.children.length) : m.get_child a = n.get_child a := by
  simp only [state_node.get_child, ha, hc]

omit [DecidableEq S] in
theorem get_child_lt (n : state_node S A V Q K) (a : A) (i : Nat)
    (h : n.get_child a = some i) : i < n.children.length ∧ i < n.actions.length := by
  simp only [state_node.get_child] at h
  split at h
  · rename_i hlt
    simp only [Option.some.injEq] at h
    rw [← h]
    exact ⟨hlt.2, hlt.1⟩
  · exact absurd h (by simp)

/-- After `descend_update`, seen from the state node `n` it was called on: the node keeps its
actions, its children are the old ones with the payload `q` of the action node `i` replaced,
and the child state node `c` is the old one with the payload `v` replaced (when `c` and `n`
are different nodes). -/
theorem descend_update_lookup (P : node_policy S A V Q K D) (t : tree_search S A V Q K D E)
    (n : Nat) (a : A) (s : S) (e : Bool) (node : state_node S A V Q K) (i : Nat)
    (an : action_node S A Q K) (c : Nat) (cn : state_node S A V Q K)
    (h1 : t.heap[n]? = some node) (h2 : node.get_child a = some i)
    (h3 : node.children[i]? = some an) (h4 : an.get_child s = some c)
    (h5 : t.heap[c]? = some cn) :
    ∃ t1 node1 cn1, descend_update P t n a s e = some t1 ∧
      t1.root = t.root ∧ t1.handler = t.handler ∧ t1.max_depth = t.max_depth ∧
      t1.common_data = (P.descend_callback t.common_data node a an s cn).1 ∧
      t1.heap.length = t.heap.length ∧
      t1.heap[n]? = some node1 ∧ node1.actions = node.actions ∧
      node1.children = node.children.set i
        { an with q := (P.descend_callback t.common_data node a an s cn).2.1 } ∧
      node1.parent = node.parent ∧ node1.state = node.state ∧
      node1.num_visits = node.num_visits ∧ node1.terminal = node.terminal ∧
      t1.heap[c]? = some cn1 ∧
      cn1.v = (P.descend_callback t.common_data node a an s cn).2.2 ∧
      cn1.parent = cn.parent ∧ cn1.state = cn.state ∧ cn1.num_visits = cn.num_visits ∧
      cn1.terminal = cn.terminal ∧ cn1.actions = cn.actions ∧
      (n ≠ c → cn1.children = cn.children) ∧
      (∀ m, m ≠ n → m ≠ c → t1.heap[m]? = t.heap[m]?) := by
  have hc : c < t.heap.length := (List.getElem?_eq_some.mp h5).1
  have heq := descend_update_eq P t n a s e node i an c cn h1 h2 h3 h4 h5
  by_cases hnc : n = c
  · subst hnc
    have hcn : cn = node := by rw [h1] at h5; exact (Option.some.inj h5).symm
    subst hcn
    simp only [↓reduceIte] at heq
    have hl : ∀ x : state_node S A V Q K,
        ((set_action_node t.heap n i
          { an with q := (P.descend_callback t.common_data cn a an s cn).2.1 }).set n x)[n]? =
          some x := fun x =>
      List.getElem?_set_self (by simpa [set_action_node_length] using hc)
    refine ⟨_, _, _, heq, rfl, rfl, rfl, rfl, ?_, hl _, rfl, rfl, rfl, rfl, rfl, rfl, hl _,
      rfl, rfl, rfl, rfl, rfl, rfl, ?_, ?_⟩
    · simp [set_action_node_length]
    · intro h; exact absurd rfl h
    · intro m hm _
      simp only
      rw [List.getElem?_set_ne (Ne.symm hm), set_action_node_ne _ _ _ _ _ (Ne.symm hm)]
  · simp only [hnc, ↓reduceIte] at heq
    have hn1 := set_action_node_self t.heap n i
      { an with q := (P.descend_callback t.common_data node a an s cn).2.1 } node h1
    rw [← List.getElem?_set_ne (Ne.symm hnc)] at hn1
    refine ⟨_, _, _, heq, rfl, rfl, rfl, rfl, ?_, hn1, rfl, rfl, rfl, rfl, rfl, rfl,
      List.getElem?_set_self (by simpa [set_action_node_length] using hc),
      rfl, rfl, rfl, rfl, rfl, rfl, ?_, ?_⟩
    · simp [set_action_node_length]
    · intro _; rfl
    · intro m hm hm2
      simp only
      rw [List.getElem?_set_ne (Ne.symm hm2), set_action_node_ne _ _ _ _ _ (Ne.symm hm)]

/-- What `tree_search::descent` does when `root.child(a).child(s)` exists. -/
theorem descent_spec (P : node_policy S A V Q K D) (t : tree_search S A V Q K D E)
    (a : A) (s : S) (root_node : state_node S A V Q K) (i : Nat)
    (an : action_node S A Q K) (c : Nat) (cn : state_node S A V Q K)
    (h1 : t.heap[t.root]? = some root_node) (h2 : root_node.get_child a = some i)
    (h3 : root_node.children[i]? = some an) (h4 : an.get_child s = some c)
    (h5 : t.heap[c]? = some cn) :
    ∃ t1 cn1 t', descend_update P t t.root a s false = some t1 ∧ t1.heap[c]? = some cn1 ∧
      t.descent P a s = some t' ∧ t'.root = c ∧
      t'.common_data = (P.descend_callback t.common_data root_node a an s cn).1 ∧
      t'.handler = t.handler ∧
      t'.heap[c]? = some { cn1 with
        parent := none
        children := cn1.children.map (fun child => { child with parent := some c }) } ∧
      cn1.v = (P.descend_callback t.common_data root_node a an s cn).2.2 ∧
      cn1.state = cn.state ∧ cn1.num_visits = cn.num_visits ∧ cn1.terminal = cn.terminal ∧
      cn1.actions = cn.actions ∧ (t.root ≠ c → cn1.children = cn.children) ∧
      (∀ m, m ≠ t.root → m ≠ c → t'.heap[m]? = t.heap[m]?) := by
  obtain ⟨t1, node1, cn1, e1, e2, e3, -, e5, e6, e7, e8, e9, -, -, -, -, e14, e15, -, e17, e18,
    e19, e20, e21, e22⟩ :=
    descend_update_lookup P t t.root a s false root_node i an c cn h1 h2 h3 h4 h5
  have hi : i < root_node.children.length := (get_child_lt _ _ _ h2).1
  have hc : c < t1.heap.length := (List.getElem?_eq_some.mp e14).1
  have g1 : node1.get_child a = some i := by
    rw [get_child_congr root_node node1 a e8 (by rw [e9, List.length_set]), h2]
  have g2 : node1.children[i]? = some
      { an with q := (P.descend_callback t.common_data root_node a an s cn).2.1 } := by
    rw [e9]
    exact List.getElem?_set_self hi
  have hd : t.descent P a s = some { t1 with
      root := c
      heap := t1.heap.set c { cn1 with
        parent := none
        children := cn1.children.map (fun child => { child with parent := some c }) } } := by
    simp only [tree_search.descent, Option.bind_eq_bind, e1, Option.some_bind, e2, e7, g1, g2,
      action_node.get_child_unique_ptr]
    simp only [action_node.get_child] at h4
    simp only [h4, Option.some_bind, e14]
  refine ⟨t1, cn1, _, e1, e14, hd, rfl, e5, e3, List.getElem?_set_self hc, e15, e17, e18, e19,
    e20, e21, ?_⟩
  intro m hm hm2
  simp only
  rw [List.getElem?_set_ne (Ne.symm hm2)]
  exact e22 m hm hm2

end descend_lemmas

/-- C7. For every tree in which `root.child(a).child(s)` exists, `tree_search::descent(a, s)`
returns, and afterwards the root is exactly the node that was `root.child(a).child(s)`, the
new root's parent is absent, and every child action node of the new root has its parent
referring to the new root. -/
theorem descent_promotes_child {S A V Q K D E : Type} [DecidableEq A] [DecidableEq S]
    (P : node_policy S A V Q K D) (t : tree_search S A V Q K D E) (a : A) (s : S)
    (root_node : state_node S A V Q K) (i : Nat) (an : action_node S A Q K) (c : Nat)
    (cn : state_node S A V Q K)
    (h1 : t.heap[t.root]? = some root_node) (h2 : root_node.get_child a = some i)
    (h3 : root_node.children[i]? = some an) (h4 : an.get_child s = some c)
    (h5 : t.heap[c]? = some cn) :
    ∃ t' node, t.descent P a s = some t' ∧ t'.root = c ∧ t'.heap[t'.root]? = some node ∧
      node.parent = none ∧ ∀ child ∈ node.children, child.parent = some t'.root := by
  obtain ⟨t1, cn1, t', -, -, e1, e2, -, -, e3, -⟩ :=
    descent_spec P t a s root_node i an c cn h1 h2 h3 h4 h5
  refine ⟨t', _, e1, e2, by rw [e2]; exact e3, rfl, ?_⟩
  intro child hchild
  simp only [List.mem_map] at hchild
  obtain ⟨ch, -, rfl⟩ := hchild
  rw [e2]

/-- C7, at a concrete input: the tree of the example agent after two simulations, descending
by action 1 and outcome 4 to the state node at address 1. -/
theorem descent_promotes_child_witness :
    (((example_dual_visited 2).ts.descent (first_action_policy _) 1 4).map
      (fun t => (t.root, (t.heap[t.root]?).map
        (fun n => (n.state, n.parent, n.children.map (fun child => child.parent)))))) =
      some (1, some (4, none, [some 1, some 1])) ∧
    ∃ t' node, (example_dual_visited 2).ts.descent (first_action_policy _) 1 4 = some t' ∧
      t'.root = 1 ∧ t'.heap[t'.root]? = some node ∧
      node.parent = none ∧ ∀ child ∈ node.children, child.parent = some t'.root :=
  ⟨by rfl,
   descent_promotes_child (first_action_policy _) (example_dual_visited 2).ts 1 4 _ 0 _ 1 _
     (by rfl) (by rfl) (by rfl) (by rfl) (by rfl)⟩

section pareto_descent_lemmas

variable {S A C K E : Type} [DecidableEq A] [DecidableEq S]

/-- What the descent inlined at the end of `pareto_uct::play` does when the action node of `a`
already has a child keyed by the observed state. -/
theorem play_descent_existing (ops : pareto_curve_ops C K) (init_v : pareto_value C K)
    (ag : pareto_uct S A C K E) (a : A) (o : outcome_t S K)
    (root_node : state_node S A (pareto_value C K) (pareto_value C K) K) (i : Nat)
    (an : action_node S A (pareto_value C K) K) (c : Nat)
    (cn : state_node S A (pareto_value C K) (pareto_value C K) K)
    (h1 : ag.heap[ag.root]? = some root_node) (h2 : root_node.get_child a = some i)
    (h3 : root_node.children[i]? = some an) (h4 : an.get_child o.state = some c)
    (h5 : ag.heap[c]? = some cn) (hne : ag.root ≠ c) :
    pareto_uct.play_descent ops init_v ag a o = some { ag with
      common_data := { ag.common_data with
        sample_risk_thd := (ops.inverse_derivative cn.v.curve
          (ops.derivative an.q.curve ag.common_data.sample_risk_thd)) }
      root := c
      heap := (((set_action_node ag.heap ag.root i
          { an with q := { an.q with risk_thd := ag.common_data.sample_risk_thd } }).set c
          { cn with v := { cn.v with risk_thd := (ops.inverse_derivative cn.v.curve
              (ops.derivative an.q.curve ag.common_data.sample_risk_thd)) } }).set c
          { cn with
            v := { cn.v with risk_thd := (ops.inverse_derivative cn.v.curve
              (ops.derivative an.q.curve ag.common_data.sample_risk_thd)) },
            parent := none }) } := by
  have hc : c < ag.heap.length := (List.getElem?_eq_some.mp h5).1
  have h4' : an.children.lookup o.state = some c := h4
  simp only [pareto_uct.play_descent, Option.bind_eq_bind, h1, Option.some_bind, h2, h3, h4',
    action_node.get_child_unique_ptr, h5, descend_callback, reduceCtorEq, ↓reduceIte,
    set_action_node_ne _ _ _ _ _ hne]
  rw [List.getElem?_set_self (by simpa [set_action_node_length] using hc)]
  rfl

end pareto_descent_lemmas

/-- C8, as stated, fails for the Pareto agent: in the example agent the child keyed 4 has
`v.risk_thd = 0` before the descent inlined at the end of `pareto_uct::play`, and the node
that becomes root (the same node, address 1) has `v.risk_thd = 1` after it: the descend
callback writes `new_state->v.risk_thd`. -/
theorem descent_rewrites_risk_thd :
    (example_pareto.heap[1]?).map (fun n => n.v.risk_thd) = some 0 ∧
    ((pareto_uct.play_descent example_curve_ops ⟨(2, 2), [], 0⟩ example_pareto 1
        ⟨4, 1, 3, false⟩).map
      (fun ag => (ag.root, (ag.heap[ag.root]?).map (fun n => n.v.risk_thd)))) =
      some (1, some 1) := by
  constructor <;> rfl

/-- C8, amended. When the child state node exists (and is not the root itself), the node that
becomes root has the same `num_visits`, state, terminal flag, actions and children as it had
immediately before the descent, and its parent is cleared; its payload `v` is the one the
descend callback of the policy leaves. Through `tree_search::descent` the children are the
old ones with their parent reference reseated to the new root. Through the descent inlined
at the end of `pareto_uct::play` the children are unchanged, `v.curve` and `v.idx` are
unchanged and `v.risk_thd` is set to `inverse_derivative` of the node's curve at the slope of
the action node's curve at `sample_risk_thd`. -/
theorem descent_keeps_statistics {S A V Q K D E C : Type} [DecidableEq A] [DecidableEq S]
    (P : node_policy S A V Q K D) (t : tree_search S A V Q K D E) (a : A) (s : S)
    (root_node : state_node S A V Q K) (i : Nat) (an : action_node S A Q K) (c : Nat)
    (cn : state_node S A V Q K)
    (h1 : t.heap[t.root]? = some root_node) (h2 : root_node.get_child a = some i)
    (h3 : root_node.children[i]? = some an) (h4 : an.get_child s = some c)
    (h5 : t.heap[c]? = some cn) (hne : t.root ≠ c)
    (ops : pareto_curve_ops C K) (init_v : pareto_value C K)
    (ag : pareto_uct S A C K E) (b : A) (o : outcome_t S K)
    (root_node' : state_node S A (pareto_value C K) (pareto_value C K) K) (j : Nat)
    (an' : action_node S A (pareto_value C K) K) (c' : Nat)
    (cn' : state_node S A (pareto_value C K) (pareto_value C K) K)
    (g1 : ag.heap[ag.root]? = some root_node') (g2 : root_node'.get_child b = some j)
    (g3 : root_node'.children[j]? = some an') (g4 : an'.get_child o.state = some c')
    (g5 : ag.heap[c']? = some cn') (gne : ag.root ≠ c') :
    (∃ t' node, t.descent P a s = some t' ∧ t'.root = c ∧ t'.heap[c]? = some node ∧
      node.num_visits = cn.num_visits ∧ node.state = cn.state ∧
      node.terminal = cn.terminal ∧ node.actions = cn.actions ∧
      node.children = cn.children.map (fun child => { child with parent := some c }) ∧
      node.v = (P.descend_callback t.common_data root_node a an s cn).2.2 ∧
      node.parent = none) ∧
    (∃ ag' node, pareto_uct.play_descent ops init_v ag b o = some ag' ∧ ag'.root = c' ∧
      ag'.heap[c']? = some node ∧
      node.num_visits = cn'.num_visits ∧ node.state = cn'.state ∧
      node.terminal = cn'.terminal ∧ node.actions = cn'.actions ∧
      node.children = cn'.children ∧
      node.v.curve = cn'.v.curve ∧ node.v.idx = cn'.v.idx ∧
      node.v.risk_thd = ops.inverse_derivative cn'.v.curve
        (ops.derivative an'.q.curve ag.common_data.sample_risk_thd) ∧
      node.parent = none) := by
  constructor
  · obtain ⟨t1, cn1, t', -, -, e1, e2, -, -, e3, e4, e5, e6, e7, e8, e9, -⟩ :=
      descent_spec P t a s root_node i an c cn h1 h2 h3 h4 h5
    refine ⟨t', _, e1, e2, e3, e6, e5, e7, e8, ?_, e4, rfl⟩
    simp only [e9 hne]
  · have hc : c' < ag.heap.length := (List.getElem?_eq_some.mp g5).1
    refine ⟨_, _, play_descent_existing ops init_v ag b o root_node' j an' c' cn' g1 g2 g3 g4 g5
      gne, rfl, List.getElem?_set_self (by simpa [set_action_node_length] using hc),
      rfl, rfl, rfl, rfl, rfl, rfl, rfl, rfl, rfl⟩

/-- C8 amended, at concrete inputs: the tree of the example dual agent after two simulations
(descending by action 1 and outcome 4) and the example Pareto agent (same action, outcome). -/
theorem descent_keeps_statistics_witness :
    (∃ t' node, (example_dual_visited 2).ts.descent (first_action_policy _) 1 4 = some t' ∧
      t'.root = 1 ∧ t'.heap[1]? = some node ∧ node.num_visits = 1 ∧ node.parent = none) ∧
    (∃ ag' node, pareto_uct.play_descent example_curve_ops ⟨(2, 2), [], 0⟩ example_pareto 1
        ⟨4, 1, 3, false⟩ = some ag' ∧ ag'.root = 1 ∧ ag'.heap[1]? = some node ∧
      node.num_visits = 2 ∧ node.v.curve = (2, 2) ∧ node.v.risk_thd = 1 ∧
      node.parent = none) := by
  obtain ⟨⟨t', node, e1, e2, e3, e4, -, -, -, -, -, e5⟩,
      ⟨ag', node', f1, f2, f3, f4, -, -, -, -, f5, -, f6, f7⟩⟩ :=
    descent_keeps_statistics (first_action_policy _) (example_dual_visited 2).ts 1 4 _ 0 _ 1 _
      (by rfl) (by rfl) (by rfl) (by rfl) (by rfl) (by decide)
      example_curve_ops ⟨(2, 2), [], 0⟩ example_pareto 1 ⟨4, 1, 3, false⟩ _ 0 _ 1 _
      (by rfl) (by rfl) (by rfl) (by rfl) (by rfl) (by decide)
  exact ⟨⟨t', node, e1, e2, e3, e4, e5⟩, ⟨ag', node', f1, f2, f3, f4, f5, f6, f7⟩⟩

/-! ## Theorems: select -/

section link_lemmas

variable {S A V Q K : Type} [DecidableEq S]

theorem node_le_refl (node : state_node S A V Q K) : node_le node node :=
  ⟨rfl, rfl, fun _ an h => ⟨an, h, fun _ _ hl => hl⟩⟩

theorem node_le_trans {n1 n2 n3 : state_node S A V Q K} (h12 : node_le n1 n2)
    (h23 : node_le n2 n3) : node_le n1 n3 := by
  refine ⟨h23.1.trans h12.1, h23.2.1.trans h12.2.1, ?_⟩
  intro i an h
  obtain ⟨an2, e2, k2⟩ := h12.2.2 i an h
  obtain ⟨an3, e3, k3⟩ := h23.2.2 i an2 e2
  exact ⟨an3, e3, fun s c hl => k3 s c (k2 s c hl)⟩

theorem links_le_refl (heap : List (state_node S A V Q K)) : links_le heap heap :=
  fun _ node h => ⟨node, h, node_le_refl node⟩

theorem links_le_trans {h1 h2 h3 : List (state_node S A V Q K)} (h12 : links_le h1 h2)
    (h23 : links_le h2 h3) : links_le h1 h3 := by
  intro n node h
  obtain ⟨node2, e2, k2⟩ := h12 n node h
  obtain ⟨node3, e3, k3⟩ := h23 n node2 e2
  exact ⟨node3, e3, node_le_trans k2 k3⟩

theorem links_le_length {h1 h2 : List (state_node S A V Q K)} (h12 : links_le h1 h2) :
    h1.length ≤ h2.length := by
  by_contra hlt
  have hlt : h2.length < h1.length := Nat.lt_of_not_le hlt
  obtain ⟨node', e, -⟩ := h12 h2.length h1[h2.length] (List.getElem?_eq_getElem hlt)
  exact absurd (List.getElem?_eq_some.mp e).1 (Nat.lt_irrefl _)

theorem links_le_set (heap : List (state_node S A V Q K)) (m : Nat)
    (node node' : state_node S A V Q K) (h : heap[m]? = some node) (hle : node_le node node') :
    links_le heap (heap.set m node') := by
  intro n x hx
  by_cases hmn : m = n
  · subst hmn
    rw [h] at hx
    cases hx
    exact ⟨node', List.getElem?_set_self (List.getElem?_eq_some.mp h).1, hle⟩
  · exact ⟨x, by rw [List.getElem?_set_ne hmn]; exact hx, node_le_refl x⟩

theorem links_le_append (heap : List (state_node S A V Q K)) (node : state_node S A V Q K) :
    links_le heap (heap ++ [node]) := by
  intro n x hx
  exact ⟨x, by rw [List.getElem?_append_left (List.getElem?_eq_some.mp hx).1]; exact hx,
    node_le_refl x⟩

omit [DecidableEq S] in
theorem node_wf_mono {L L' : Nat} (hL : L ≤ L') (node : state_node S A V Q K)
    (h : node_wf L node) : node_wf L' node :=
  ⟨h.1, fun an han e he => Nat.lt_of_lt_of_le (h.2 an han e he) hL⟩

omit [DecidableEq S] in
theorem heap_wf_get (heap : List (state_node S A V Q K)) (hw : heap_wf heap) (n : Nat)
    (node : state_node S A V Q K) (h : heap[n]? = some node) : node_wf heap.length node :=
  hw node (List.getElem?_mem h)

omit [DecidableEq S] in
theorem heap_wf_set (heap : List (state_node S A V Q K)) (hw : heap_wf heap) (m : Nat)
    (node' : state_node S A V Q K) (h : node_wf heap.length node') :
    heap_wf (heap.set m node') := by
  intro x hx
  rw [List.length_set]
  rcases List.mem_or_eq_of_mem_set hx with hx | hx
  · exact hw x hx
  · rw [hx]; exact h

omit [DecidableEq S] in
theorem heap_wf_append (heap : List (state_node S A V Q K)) (hw : heap_wf heap)
    (node : state_node S A V Q K) (h : node_wf (heap.length + 1) node) :
    heap_wf (heap ++ [node]) := by
  intro x hx
  rw [List.length_append, List.length_singleton]
  rcases List.mem_append.mp hx with hx | hx
  · exact node_wf_mono (Nat.le_succ _) x (hw x hx)
  · rw [List.mem_singleton.mp hx]; exact h

omit [DecidableEq S] in
theorem lookup_mem {B : Type} [DecidableEq S] (l : List (S × B)) (s : S) (c : B)
    (h : l.lookup s = some c) : (s, c) ∈ l := by
  induction l with
  | nil => simp at h
  | cons e l ih =>
    obtain ⟨k, v⟩ := e
    rw [List.lookup_cons] at h
    by_cases hk : s = k
    · subst hk
      simp only [beq_self_eq_true, Option.some.injEq] at h
      rw [h]
      exact List.mem_cons_self _ _
    · have : (s == k) = false := by simpa using hk
      rw [this] at h
      exact List.mem_cons_of_mem _ (ih h)

omit [DecidableEq S] in
theorem set_action_node_eq (heap : List (state_node S A V Q K)) (n i : Nat)
    (an : action_node S A Q K) (node : state_node S A V Q K) (h : heap[n]? = some node) :
    set_action_node heap n i an = heap.set n { node with children := node.children.set i an } := by
  simp [set_action_node, h]

theorem node_le_set_child (node : state_node S A V Q K) (i : Nat) (an an' : action_node S A Q K)
    (h : node.children[i]? = some an)
    (hk : ∀ s c, an.children.lookup s = some c → an'.children.lookup s = some c) :
    node_le node { node with children := node.children.set i an' } := by
  refine ⟨rfl, by simp, ?_⟩
  intro j x hx
  by_cases hij : i = j
  · subst hij
    rw [h] at hx
    cases hx
    exact ⟨an', List.getElem?_set_self (List.getElem?_eq_some.mp h).1, hk⟩
  · exact ⟨x, by simp only; rw [List.getElem?_set_ne hij]; exact hx, fun _ _ hl => hl⟩

omit [DecidableEq S] in
theorem node_wf_set_child (L : Nat) (node : state_node S A V Q K) (i : Nat)
    (an' : action_node S A Q K) (hw : node_wf L node) (hk : ∀ e ∈ an'.children, e.2 < L) :
    node_wf L { node with children := node.children.set i an' } := by
  refine ⟨by simpa using hw.1, ?_⟩
  intro x hx e he
  rcases List.mem_or_eq_of_mem_set hx with hx | hx
  · exact hw.2 x hx e he
  · rw [hx] at he; exact hk e he

/-- Writing an action node that keeps the edges of the one it replaces keeps the links of
the heap and its well-formedness. -/
theorem set_action_node_keeps (heap : List (state_node S A V Q K)) (hw : heap_wf heap)
    (n i : Nat) (node : state_node S A V Q K) (an an' : action_node S A Q K)
    (h1 : heap[n]? = some node) (h2 : node.children[i]? = some an)
    (hk : ∀ s c, an.children.lookup s = some c → an'.children.lookup s = some c)
    (hb : ∀ e ∈ an'.children, e.2 < heap.length) :
    links_le heap (set_action_node heap n i an') ∧ heap_wf (set_action_node heap n i an') := by
  rw [set_action_node_eq heap n i an' node h1]
  exact ⟨links_le_set heap n node _ h1 (node_le_set_child node i an an' h2 hk),
    heap_wf_set heap hw n _ (node_wf_set_child _ node i an' (heap_wf_get heap hw n node h1) hb)⟩

end link_lemmas

section follow_lemmas

variable {S A V Q K : Type} [DecidableEq A] [DecidableEq S]

theorem follow_cons (heap : List (state_node S A V Q K)) (n : Nat) (e : A × S)
    (rest : List (A × S)) :
    follow heap n (e :: rest) =
      (heap[n]?).bind (fun node => (node.get_child e.1).bind (fun i =>
        (node.children[i]?).bind (fun an => (an.get_child e.2).bind (fun c =>
          follow heap c rest)))) := rfl

theorem follow_append (heap : List (state_node S A V Q K)) (n : Nat) (p q : List (A × S)) :
    follow heap n (p ++ q) = (follow heap n p).bind (fun m => follow heap m q) := by
  induction p generalizing n with
  | nil => rfl
  | cons e p ih =>
    simp only [List.cons_append, follow_cons, ih]
    cases heap[n]? with
    | none => rfl
    | some node =>
      simp only [Option.some_bind]
      cases node.get_child e.1 with
      | none => rfl
      | some i =>
        simp only [Option.some_bind]
        cases node.children[i]? with
        | none => rfl
        | some an =>
          simp only [Option.some_bind]
          cases an.get_child e.2 with
          | none => rfl
          | some c => rfl

theorem follow_step (heap : List (state_node S A V Q K)) (n : Nat) (a : A) (s : S)
    (node : state_node S A V Q K) (i : Nat) (an : action_node S A Q K) (c : Nat)
    (h1 : heap[n]? = some node) (h2 : node.get_child a = some i)
    (h3 : node.children[i]? = some an) (h4 : an.get_child s = some c) :
    follow heap n [(a, s)] = some c := by
  simp [follow_cons, h1, h2, h3, h4, follow]

theorem follow_mono (heap heap' : List (state_node S A V Q K)) (hle : links_le heap heap')
    (n m : Nat) (p : List (A × S)) (h : follow heap n p = some m) :
    follow heap' n p = some m := by
  induction p generalizing n with
  | nil => exact h
  | cons e p ih =>
    rw [follow_cons] at h
    simp only [Option.bind_eq_some] at h
    obtain ⟨node, h1, i, h2, an, h3, c, h4, h5⟩ := h
    obtain ⟨node', e1, e2, e3, e4⟩ := hle n node h1
    obtain ⟨an', f1, f2⟩ := e4 i an h3
    rw [follow_cons, e1]
    simp only [Option.some_bind]
    rw [get_child_congr node node' e.1 e2 e3, h2]
    simp only [Option.some_bind, f1]
    have : an'.get_child e.2 = some c := f2 _ _ h4
    rw [this]
    exact ih c h5

end follow_lemmas

section add_outcome_lemmas

variable {S A V Q K D : Type} [DecidableEq S]

theorem node_le_of_eq (node node' : state_node S A V Q K) (ha : node'.actions = node.actions)
    (hc : node'.children = node.children) : node_le node node' :=
  ⟨ha, by rw [hc], fun i an h => ⟨an, by rw [hc]; exact h, fun _ _ hl => hl⟩⟩

omit [DecidableEq S] in
theorem node_wf_of_eq (L : Nat) (node node' : state_node S A V Q K)
    (ha : node'.actions = node.actions) (hc : node'.children = node.children)
    (h : node_wf L node) : node_wf L node' := by
  unfold node_wf at *
  rw [ha, hc]
  exact h

/-- After `add_outcome` on the action node `(n, i)`: the heap is well formed, no link is
lost, and the action node has a child keyed by the state of the outcome. -/
theorem add_outcome_spec (P : node_policy S A V Q K D) (heap : List (state_node S A V Q K))
    (hw : heap_wf heap) (n i : Nat) (o : outcome_t S K) (node : state_node S A V Q K)
    (an : action_node S A Q K) (h1 : heap[n]? = some node) (h2 : node.children[i]? = some an) :
    ∃ heap1 node1 an1 c cn, add_outcome P heap n i o = some heap1 ∧ heap_wf heap1 ∧
      links_le heap heap1 ∧ heap1[n]? = some node1 ∧ node1.actions = node.actions ∧
      node1.children.length = node.children.length ∧
      node1.children[i]? = some an1 ∧ an1.children.lookup o.state = some c ∧
      heap1[c]? = some cn := by
  have hi : i < node.children.length := (List.getElem?_eq_some.mp h2).1
  have hnw := heap_wf_get heap hw n node h1
  have han : an ∈ node.children := List.getElem?_mem h2
  cases hl : an.children.lookup o.state with
  | some c =>
    have hc : c < heap.length := hnw.2 an han (o.state, c) (lookup_mem _ _ _ hl)
    obtain ⟨child, hchild⟩ : ∃ child, heap[c]? = some child :=
      ⟨heap[c], List.getElem?_eq_getElem hc⟩
    -- the heap after the terminal flag of the child is refreshed
    have hle1 : links_le heap (heap.set c { child with terminal := o.is_over }) :=
      links_le_set heap c child _ hchild (node_le_of_eq _ _ rfl rfl)
    have hw1 : heap_wf (heap.set c { child with terminal := o.is_over }) :=
      heap_wf_set heap hw c _
        (node_wf_of_eq _ child _ rfl rfl (heap_wf_get heap hw c child hchild))
    obtain ⟨nodeX, hX, hXa, hXc⟩ : ∃ nodeX,
        (heap.set c { child with terminal := o.is_over })[n]? = some nodeX ∧
        nodeX.actions = node.actions ∧ nodeX.children = node.children := by
      by_cases hcn : c = n
      · subst hcn
        rw [h1] at hchild
        cases hchild
        exact ⟨_, List.getElem?_set_self hc, rfl, rfl⟩
      · exact ⟨node, by rw [List.getElem?_set_ne hcn]; exact h1, rfl, rfl⟩
    have hX2 : nodeX.children[i]? = some an := by rw [hXc]; exact h2
    obtain ⟨hle2, hw2⟩ := set_action_node_keeps _ hw1 n i nodeX an
      { an with expected_reward := (P.refresh an o).1, expected_penalty := (P.refresh an o).2 }
      hX hX2 (fun _ _ hk => hk)
      (fun e he => by
        rw [List.length_set]
        exact hnw.2 an han e he)
    have hadd : add_outcome P heap n i o = some
        (set_action_node (heap.set c { child with terminal := o.is_over }) n i
          { an with expected_reward := (P.refresh an o).1,
                    expected_penalty := (P.refresh an o).2 }) := by
      simp only [add_outcome, Option.bind_eq_bind, h1, Option.some_bind, h2, hl, hchild]
    have hself := set_action_node_self (heap.set c { child with terminal := o.is_over }) n i
      { an with expected_reward := (P.refresh an o).1, expected_penalty := (P.refresh an o).2 }
      nodeX hX
    obtain ⟨cn, hcn⟩ : ∃ cn,
        (set_action_node (heap.set c { child with terminal := o.is_over }) n i
          { an with expected_reward := (P.refresh an o).1,
                    expected_penalty := (P.refresh an o).2 })[c]? = some cn :=
      ⟨_, List.getElem?_eq_getElem (by
        rw [set_action_node_length, List.length_set]
        exact hc)⟩
    have hget : ∀ x : action_node S A Q K, (nodeX.children.set i x)[i]? = some x := by
      intro x
      rw [hXc]
      exact List.getElem?_set_self hi
    exact ⟨_, _, _, c, cn, hadd, hw2, links_le_trans hle1 hle2, hself, hXa,
      by simp [hXc], hget _, hl, hcn⟩
  | none =>
    have hle1 := links_le_append heap (fresh_state_node P.init_v n i o : state_node S A V Q K)
    have hw1 := heap_wf_append heap hw (fresh_state_node P.init_v n i o : state_node S A V Q K)
      ⟨rfl, fun an han => by simp [fresh_state_node] at han⟩
    have hn1 : (heap ++ [(fresh_state_node P.init_v n i o : state_node S A V Q K)])[n]? =
        some node := by
      rw [List.getElem?_append_left (List.getElem?_eq_some.mp h1).1]
      exact h1
    obtain ⟨hle2, hw2⟩ := set_action_node_keeps _ hw1 n i node an
      { an with children := an.children ++ [(o.state, heap.length)],
                expected_reward := (P.refresh an o).1, expected_penalty := (P.refresh an o).2 }
      hn1 h2
      (fun s c hk => by
        simp only [List.lookup_append, hk, Option.or_some])
      (fun e he => by
        rw [List.length_append, List.length_singleton]
        rcases List.mem_append.mp he with he | he
        · exact Nat.lt_succ_of_lt (hnw.2 an han e he)
        · rw [List.mem_singleton.mp he]
          exact Nat.lt_succ_self _)
    have hadd : add_outcome P heap n i o = some
        (set_action_node (heap ++ [(fresh_state_node P.init_v n i o : state_node S A V Q K)]) n i
          { an with children := an.children ++ [(o.state, heap.length)],
                    expected_reward := (P.refresh an o).1,
                    expected_penalty := (P.refresh an o).2 }) := by
      simp only [add_outcome, Option.bind_eq_bind, h1, Option.some_bind, h2, hl]
    have hself := set_action_node_self
      (heap ++ [(fresh_state_node P.init_v n i o : state_node S A V Q K)]) n i
      { an with children := an.children ++ [(o.state, heap.length)],
                expected_reward := (P.refresh an o).1, expected_penalty := (P.refresh an o).2 }
      node hn1
    obtain ⟨cn, hcn⟩ : ∃ cn,
        (set_action_node (heap ++ [(fresh_state_node P.init_v n i o : state_node S A V Q K)]) n i
          { an with children := an.children ++ [(o.state, heap.length)],
                    expected_reward := (P.refresh an o).1,
                    expected_penalty := (P.refresh an o).2 })[heap.length]? = some cn :=
      ⟨_, List.getElem?_eq_getElem (by
        rw [set_action_node_length, List.length_append, List.length_singleton]
        exact Nat.lt_succ_self _)⟩
    exact ⟨_, _, _, heap.length, cn, hadd, hw2, links_le_trans hle1 hle2, hself, rfl,
      by simp, List.getElem?_set_self hi, by simp [List.lookup_append, hl], hcn⟩

end add_outcome_lemmas

section select_lemmas

variable {S A V Q K D E : Type} [DecidableEq A] [DecidableEq S]

/-- `descend_update` keeps the heap well formed and loses no link. -/
theorem descend_update_keeps (P : node_policy S A V Q K D) (t : tree_search S A V Q K D E)
    (hw : heap_wf t.heap) (n : Nat) (a : A) (s : S) (e : Bool) (node : state_node S A V Q K)
    (i : Nat) (an : action_node S A Q K) (c : Nat) (cn : state_node S A V Q K)
    (h1 : t.heap[n]? = some node) (h2 : node.get_child a = some i)
    (h3 : node.children[i]? = some an) (h4 : an.get_child s = some c)
    (h5 : t.heap[c]? = some cn) :
    ∃ t1, descend_update P t n a s e = some t1 ∧ heap_wf t1.heap ∧ links_le t.heap t1.heap ∧
      t1.root = t.root ∧ t1.handler = t.handler ∧ t1.max_depth = t.max_depth := by
  have heq := descend_update_eq P t n a s e node i an c cn h1 h2 h3 h4 h5
  simp only at heq
  have han : an ∈ node.children := List.getElem?_mem h3
  have hkeep : ∀ x : action_node S A Q K, x.children = an.children →
      links_le t.heap (set_action_node t.heap n i x) ∧
        heap_wf (set_action_node t.heap n i x) := fun x hx =>
    set_action_node_keeps t.heap hw n i node an x h1 h3 (fun _ _ hk => by rw [hx]; exact hk)
      (fun e he => (heap_wf_get t.heap hw n node h1).2 an han e (by rw [← hx]; exact he))
  have hkeepL : ∀ x : action_node S A Q K, x.children = an.children →
      links_le t.heap (set_action_node t.heap n i x) := fun x hx => (hkeep x hx).1
  have hkeepW : ∀ x : action_node S A Q K, x.children = an.children →
      heap_wf (set_action_node t.heap n i x) := fun x hx => (hkeep x hx).2
  have hbase := fun x : action_node S A Q K => set_action_node_get t.heap n i c x cn h5
  refine ⟨_, heq, ?_, ?_, rfl, rfl, rfl⟩
  · refine heap_wf_set _ ?_ c _ ?_
    · exact hkeepW _ rfl
    · rw [set_action_node_length]
      by_cases hnc : n = c
      · simp only [hnc, ↓reduceIte]
        have := heap_wf_get _ (hkeepW { an with
          q := (P.descend_callback t.common_data node a an s cn).2.1 } rfl) c _ (hbase _)
        rw [set_action_node_length] at this
        simp only [hnc, ↓reduceIte] at this
        exact node_wf_of_eq _ _ _ rfl rfl this
      · simp only [hnc, ↓reduceIte]
        exact node_wf_of_eq _ cn _ rfl rfl (heap_wf_get t.heap hw c cn h5)
  · refine links_le_trans ?_ (links_le_set _ c _ _ (hbase _) (node_le_of_eq _ _ rfl rfl))
    exact hkeepL _ rfl

omit [DecidableEq S] in
theorem get_child_of_mem (hn : state_node S A V Q K) (a : A) (hm : a ∈ hn.actions)
    (hp : hn.actions.length = hn.children.length) :
    ∃ i an, hn.get_child a = some i ∧ hn.children[i]? = some an := by
  have h1 : hn.actions.indexOf a < hn.actions.length := List.indexOf_lt_length.mpr hm
  have h2 : hn.actions.indexOf a < hn.children.length := by rw [← hp]; exact h1
  exact ⟨_, _, by simp only [state_node.get_child, h1, h2, and_self, ↓reduceIte],
    List.getElem?_eq_getElem h2⟩

/-- One iteration of the loop of `select` on a well-formed heap, from a node that is not a
leaf and for which the policy selects one of the node's actions. -/
theorem select_step_spec (M : environment S A K E) (P : node_policy S A V Q K D)
    (t : tree_search S A V Q K D E) (hw : heap_wf t.heap) (cur : Nat)
    (node : state_node S A V Q K) (hnode : t.heap[cur]? = some node)
    (hsel : (P.select_action t.common_data node true).1 ∈ node.actions) :
    ∃ t2 c cn, tree_search.select_step M P t cur = some (t2, c) ∧ heap_wf t2.heap ∧
      links_le t.heap t2.heap ∧
      follow t2.heap cur [((P.select_action t.common_data node true).1,
        (t.handler.sim_action M (P.select_action t.common_data node true).1).1.state)] = some c ∧
      t2.handler = (t.handler.sim_action M (P.select_action t.common_data node true).1).2 ∧
      t2.root = t.root ∧ t2.max_depth = t.max_depth ∧ t2.heap[c]? = some cn := by
  have hnw := heap_wf_get t.heap hw cur node hnode
  obtain ⟨i, an, g1, g2⟩ := get_child_of_mem node _ hsel hnw.1
  obtain ⟨heap1, node1, an1, c, cn, a1, a2, a3, a4, a5, a6, a7, a8, a9⟩ :=
    add_outcome_spec P t.heap hw cur i
      (t.handler.sim_action M (P.select_action t.common_data node true).1).1 node an hnode g2
  have g1' : node1.get_child (P.select_action t.common_data node true).1 = some i := by
    rw [get_child_congr node node1 _ a5 a6, g1]
  obtain ⟨t2, b1, b2, b3, b4, b5, b6⟩ := descend_update_keeps P
    { t with common_data := (P.select_action t.common_data node true).2,
             handler := (t.handler.sim_action M (P.select_action t.common_data node true).1).2,
             heap := heap1 }
    a2 cur (P.select_action t.common_data node true).1
    (t.handler.sim_action M (P.select_action t.common_data node true).1).1.state true
    node1 i an1 c cn a4 g1' a7 a8 a9
  obtain ⟨node2, c1, c2, c3, c4⟩ := b3 cur node1 a4
  obtain ⟨an2, d1, d2⟩ := c4 i an1 a7
  obtain ⟨cn2, e1, -⟩ := b3 c cn a9
  have g1'' : node2.get_child (P.select_action t.common_data node true).1 = some i := by
    rw [get_child_congr node1 node2 _ c2 c3, g1']
  have hlook : an2.get_child
      (t.handler.sim_action M (P.select_action t.common_data node true).1).1.state = some c :=
    d2 _ _ a8
  refine ⟨t2, c, cn2, ?_, b2, links_le_trans a3 b3,
    follow_step t2.heap cur _ _ node2 i an2 c c1 g1'' d1 hlook, b5, b4, b6, e1⟩
  simp only [tree_search.select_step, Option.bind_eq_bind, hnode, Option.some_bind, g1, a1, b1,
    c1, d1, hlook]

/-- The loop of `select` on a well-formed heap with a policy that selects known actions:
it exits, after having followed a path of edges from `cur`, one per iteration. -/
theorem select_loop_spec (M : environment S A K E) (P : node_policy S A V Q K D)
    (hpol : ∀ d (node : state_node S A V Q K) e, is_leaf node = false →
      node.actions.length = node.children.length → (P.select_action d node e).1 ∈ node.actions)
    (fuel : Nat) (t : tree_search S A V Q K D E) (cur : Nat) (depth : Int)
    (hw : heap_wf t.heap) (node : state_node S A V Q K) (hnode : t.heap[cur]? = some node)
    (hfuel : (t.max_depth - depth).toNat ≤ fuel) :
    ∃ t1 cur1 path node1,
      tree_search.select_loop M P fuel t cur depth = some (t1, cur1, depth + path.length) ∧
      heap_wf t1.heap ∧ links_le t.heap t1.heap ∧ follow t1.heap cur path = some cur1 ∧
      t1.handler = t.handler.sim_actions M (path.map Prod.fst) ∧
      t1.root = t.root ∧ t1.max_depth = t.max_depth ∧
      t1.heap[cur1]? = some node1 ∧
      (is_leaf node1 = true ∨ node1.is_terminal = true ∨ t.max_depth ≤ depth + path.length) ∧
      (path = [] ∨ depth + path.length ≤ t.max_depth) ∧
      ((is_leaf node = true ∨ node.is_terminal = true ∨ t.max_depth ≤ depth) →
        path = [] ∧ t1 = t ∧ cur1 = cur) := by
  induction fuel generalizing t cur depth node with
  | zero =>
    have hmd : t.max_depth ≤ depth := by omega
    have hcond : ¬ ((!is_leaf node && decide (depth < t.max_depth) && !node.is_terminal) = true) := by
      have : decide (depth < t.max_depth) = false := by simpa using hmd
      simp [this]
    refine ⟨t, cur, [], node, ?_, hw, links_le_refl _, rfl, rfl, rfl, rfl, hnode, ?_, Or.inl rfl,
      fun _ => ⟨rfl, rfl, rfl⟩⟩
    · rw [select_loop_zero, hnode]
      simp [hcond]
    · right; right
      simpa using hmd
  | succ fuel ih =>
    by_cases hcond : (!is_leaf node && decide (depth < t.max_depth) && !node.is_terminal) = true
    · simp only [Bool.and_eq_true, Bool.not_eq_true', decide_eq_true_eq] at hcond
      obtain ⟨⟨hleaf, hdepth⟩, hterm⟩ := hcond
      obtain ⟨t2, c, cn, s1, s2, s3, s4, s5, s6, s7, s8⟩ :=
        select_step_spec M P t hw cur node hnode
          (hpol _ _ _ hleaf (heap_wf_get t.heap hw cur node hnode).1)
      obtain ⟨t1, cur1, path, node1, r1, r2, r3, r4, r5, r6, r7, r8, r9, r10, -⟩ :=
        ih t2 c (depth + 1) s2 cn s8 (by rw [s7]; omega)
      refine ⟨t1, cur1, ((P.select_action t.common_data node true).1,
          (t.handler.sim_action M (P.select_action t.common_data node true).1).1.state) :: path,
        node1, ?_, r2, links_le_trans s3 r3, ?_, ?_, r6.trans s6, r7.trans s7, r8, ?_, ?_, ?_⟩
      · rw [select_loop_succ, hnode]
        have hc : (!is_leaf node && decide (depth < t.max_depth) && !node.is_terminal) = true := by
          simp [hleaf, hdepth, hterm]
        simp only [hc, ↓reduceIte, s1, r1, List.length_cons, Nat.cast_add, Nat.cast_one]
        congr 3
        omega
      · have := follow_append t1.heap cur
          [((P.select_action t.common_data node true).1,
            (t.handler.sim_action M (P.select_action t.common_data node true).1).1.state)] path
        rw [List.singleton_append] at this
        rw [this, follow_mono _ _ r3 _ _ _ s4]
        exact r4
      · rw [r5, s5]
        rfl
      · rcases r9 with h | h | h
        · exact Or.inl h
        · exact Or.inr (Or.inl h)
        · right; right
          rw [s7] at h
          simp only [List.length_cons, Nat.cast_add, Nat.cast_one]
          omega
      · right
        rcases r10 with h | h
        · rw [h]
          simp only [List.length_cons, List.length_nil, Nat.cast_add, Nat.cast_one]
          omega
        · rw [s7] at h
          simp only [List.length_cons, Nat.cast_add, Nat.cast_one]
          omega
      · intro h
        rcases h with h | h | h
        · rw [hleaf] at h; exact absurd h (by simp)
        · rw [hterm] at h; exact absurd h (by simp)
        · omega
    · refine ⟨t, cur, [], node, ?_, hw, links_le_refl _, rfl, rfl, rfl, rfl, hnode, ?_,
        Or.inl rfl, fun _ => ⟨rfl, rfl, rfl⟩⟩
      · rw [select_loop_succ, hnode]
        simp [hcond]
      · simp only [Bool.and_eq_true, Bool.not_eq_true', decide_eq_true_eq, not_and,
          Bool.not_eq_false] at hcond
        by_cases hl : is_leaf node = true
        · exact Or.inl hl
        · by_cases hd : depth < t.max_depth
          · exact Or.inr (Or.inl (hcond ⟨by simpa using hl, hd⟩))
          · right; right
            simpa using hd

end select_lemmas

theorem first_action_policy_selects (D : Type) (d : D) (node : state_node Nat Nat Int Int Int)
    (e : Bool) (hl : is_leaf node = false) (hp : node.actions.length = node.children.length) :
    ((first_action_policy D).select_action d node e).1 ∈ node.actions := by
  have hc : node.children ≠ [] := by
    intro h
    simp [is_leaf, h] at hl
  have ha : node.actions ≠ [] := by
    intro h
    rw [h] at hp
    exact hc (List.length_eq_zero.mp hp.symm)
  cases hq : node.actions with
  | nil => exact absurd hq ha
  | cons x xs => simp [first_action_policy, hq]

/-- C9. On a well-formed tree, with a policy that selects one of the node's actions on every
non-leaf node (whose actions and children are parallel), and `max_depth ≥ 0`, `tree_search::select` returns. Its loop performs `k`
iterations, where `k ≤ max_depth` is the length of a path of (action, outcome) edges that
leads from the root to the returned node in the tree it leaves; the handler has received
exactly the `k` calls `sim_action` for the actions of the path, followed by `sim_reset`; the
returned node is a leaf, or terminal, or `k = max_depth`; and if the root is a leaf or
terminal, or `max_depth = 0`, the loop changes nothing (no `sim_action` call) and the root is
returned. -/
theorem select_terminates {S A V Q K D E : Type} [DecidableEq A] [DecidableEq S]
    (M : environment S A K E) (P : node_policy S A V Q K D)
    (hpol : ∀ d (node : state_node S A V Q K) e, is_leaf node = false →
      node.actions.length = node.children.length → (P.select_action d node e).1 ∈ node.actions)
    (t : tree_search S A V Q K D E) (hw : heap_wf t.heap) (root_node : state_node S A V Q K)
    (hroot : t.heap[t.root]? = some root_node) (hmax : 0 ≤ t.max_depth) :
    ∃ t1 cur path node1,
      tree_search.select_loop M P t.max_depth.toNat t t.root 0 = some (t1, cur, path.length) ∧
      t.select M P = some ({ t1 with handler := t1.handler.sim_reset M }, cur) ∧
      (path.length : Int) ≤ t.max_depth ∧
      t1.handler = t.handler.sim_actions M (path.map Prod.fst) ∧
      follow t1.heap t.root path = some cur ∧
      t1.heap[cur]? = some node1 ∧
      (is_leaf node1 = true ∨ node1.is_terminal = true ∨ (path.length : Int) = t.max_depth) ∧
      ((is_leaf root_node = true ∨ root_node.is_terminal = true ∨ t.max_depth = 0) →
        path = [] ∧ cur = t.root ∧ t1 = t) := by
  obtain ⟨t1, cur, path, node1, r1, -, -, r4, r5, -, -, r8, r9, r10, r11⟩ :=
    select_loop_spec M P hpol t.max_depth.toNat t t.root 0 hw root_node hroot (by simp)
  simp only [zero_add] at r1 r9 r10
  have hk : (path.length : Int) ≤ t.max_depth := by
    rcases r10 with h | h
    · rw [h]; simpa using hmax
    · exact h
  refine ⟨t1, cur, path, node1, r1, ?_, hk, r5, r4, r8, ?_, ?_⟩
  · simp only [tree_search.select, Option.bind_eq_bind, r1, Option.some_bind]
  · rcases r9 with h | h | h
    · exact Or.inl h
    · exact Or.inr (Or.inl h)
    · exact Or.inr (Or.inr (le_antisymm hk h))
  · intro h
    have := r11 (by
      rcases h with h | h | h
      · exact Or.inl h
      · exact Or.inr (Or.inl h)
      · exact Or.inr (Or.inr (le_of_eq h)))
    exact ⟨this.1, this.2.2, this.2.1⟩

/-- C9, at a concrete input: the tree of the example agent after two simulations, with
`max_depth = 2`; `select` follows the path (1, 4), (1, 5) to the new leaf at address 2. -/
theorem select_terminates_witness :
    heap_wf (example_dual_visited 2).ts.heap ∧
    ((example_dual_visited 2).ts.select counter_env (first_action_policy _)).map
      (fun r => (r.2, r.1.heap.length, r.1.handler)) =
      some (2, 3, ⟨(3, 3), false, 0, 0, 0⟩) ∧
    (example_dual_visited 2).ts.max_depth = 2 ∧
    ∃ (t1 : tree_search Nat Nat Int Int Int (dual_uct_data Int) (Nat × Nat))
      (path : List (Nat × Nat)),
      (path.length : Int) ≤ (example_dual_visited 2).ts.max_depth ∧
      (example_dual_visited 2).ts.select counter_env (first_action_policy _) =
        some ({ t1 with handler := t1.handler.sim_reset counter_env }, 2) ∧
      follow t1.heap 0 path = some 2 := by
  obtain ⟨t1, cur, path, node1, r1, r2, r3, r4, r5, r6, r7, r8⟩ :=
    select_terminates counter_env (first_action_policy _)
      (first_action_policy_selects _) (example_dual_visited 2).ts (by decide) _ (by rfl)
      (by decide)
  have e : ((example_dual_visited 2).ts.select counter_env (first_action_policy _)).map
      (fun r => (r.2, r.1.heap.length, r.1.handler)) =
      some (2, 3, ⟨(3, 3), false, 0, 0, 0⟩) := by decide
  have hcur : cur = 2 := by
    rw [r2] at e
    simp only [Option.map_some', Option.some.injEq, Prod.mk.injEq] at e
    exact e.1
  subst hcur
  exact ⟨by decide, e, by decide, t1, path, r3, r2, r5⟩

/-- For a handler outside a simulation session: `sim_reset` after any sequence of
`sim_action` calls ends the session, brings the environment back to the state it had before
the calls, and the counters are untouched. -/
theorem sim_reset_sim_actions {S A R E X : Type} (M : environment S A R E) (obs : E → X)
    (hM : faithful_checkpoint M obs) (h : environment_handler R E)
    (hs : h.is_simulating = false) (as : List A) :
    ((h.sim_actions M as).sim_reset M).is_simulating = false ∧
    obs ((h.sim_actions M as).sim_reset M).env = obs h.env ∧
    ((h.sim_actions M as).sim_reset M).num_steps = h.num_steps ∧
    ((h.sim_actions M as).sim_reset M).reward = h.reward ∧
    ((h.sim_actions M as).sim_reset M).penalty = h.penalty := by
  cases as with
  | nil => simp [environment_handler.sim_actions, environment_handler.sim_reset, hs]
  | cons b bs =>
    rw [sim_actions_cons_of_idle M h hs]
    simp only [environment_handler.sim_reset, ↓reduceIte, and_self, and_true, true_and]
    exact hM.restore_obs h.env (b :: bs)

/-- C10. `tree_search::select` is neutral for the real environment: on a well-formed tree,
with a policy that selects known actions, an environment whose `restore_checkpoint` brings it
back to the state of the latest `make_checkpoint`, and a handler outside a simulation session
on entry, `select` returns, and then the handler is outside a simulation session, the
environment is in the state it had on entry, and `num_steps`, `reward` and `penalty` are
unchanged. -/
theorem select_neutral {S A V Q K D E X : Type} [DecidableEq A] [DecidableEq S]
    (M : environment S A K E) (P : node_policy S A V Q K D)
    (hpol : ∀ d (node : state_node S A V Q K) e, is_leaf node = false →
      node.actions.length = node.children.length → (P.select_action d node e).1 ∈ node.actions)
    (obs : E → X) (hM : faithful_checkpoint M obs)
    (t : tree_search S A V Q K D E) (hw : heap_wf t.heap) (root_node : state_node S A V Q K)
    (hroot : t.heap[t.root]? = some root_node) (hs : t.handler.is_simulating = false) :
    ∃ r, t.select M P = some r ∧ r.1.handler.is_simulating = false ∧
      obs r.1.handler.env = obs t.handler.env ∧
      r.1.handler.num_steps = t.handler.num_steps ∧ r.1.handler.reward = t.handler.reward ∧
      r.1.handler.penalty = t.handler.penalty := by
  obtain ⟨t1, cur, path, node1, r1, -, -, -, r5, -⟩ :=
    select_loop_spec M P hpol t.max_depth.toNat t t.root 0 hw root_node hroot (by simp)
  refine ⟨({ t1 with handler := t1.handler.sim_reset M }, cur), ?_, ?_⟩
  · simp only [tree_search.select, Option.bind_eq_bind, r1, Option.some_bind]
  · simp only [r5]
    exact sim_reset_sim_actions M obs hM t.handler hs _

/-- C10, at a concrete input: the example agent after two simulations; `select` simulates
two actions and leaves the count of the counter environment at 3. -/
theorem select_neutral_witness :
    ((example_dual_visited 2).ts.select counter_env (first_action_policy _)).map
      (fun r => r.1.handler) = some ⟨(3, 3), false, 0, 0, 0⟩ ∧
    (example_dual_visited 2).ts.handler = ⟨(3, 3), false, 0, 0, 0⟩ ∧
    ∃ r, (example_dual_visited 2).ts.select counter_env (first_action_policy _) = some r ∧
      r.1.handler.is_simulating = false ∧
      r.1.handler.env.1 = (example_dual_visited 2).ts.handler.env.1 ∧
      r.1.handler.num_steps = (example_dual_visited 2).ts.handler.num_steps ∧
      r.1.handler.reward = (example_dual_visited 2).ts.handler.reward ∧
      r.1.handler.penalty = (example_dual_visited 2).ts.handler.penalty :=
  ⟨by decide, by decide,
   select_neutral counter_env (first_action_policy _) (first_action_policy_selects _)
     Prod.fst counter_env_faithful (example_dual_visited 2).ts (by decide) _ (by rfl)
     (by decide)⟩

/-! ## Theorems: handler reset, primal reset -/

/-- C20. `environment_handler::reset` does not end a simulation session: it sets `reward`,
`penalty` and `num_steps` to zero, leaves `is_simulating` and the environment alone and issues
no call (the record of a recording environment is unchanged). If it is called while a session
is active, the next `sim_action` issues `play_action` only (no new checkpoint) and the next
`play_action` or `sim_reset` issues `restore_checkpoint` first, on the environment state the
session had reached: the checkpoint restored is the one taken before the reset. -/
theorem reset_keeps_session {S A R E : Type} [Add R] [Zero R] (M : environment S A R E)
    (h : environment_handler R E) (g : environment_handler R (E × List (env_call A)))
    (hs : g.is_simulating = true) (a : A) :
    (h.reset.reward = 0 ∧ h.reset.penalty = 0 ∧ h.reset.num_steps = 0 ∧
      h.reset.is_simulating = h.is_simulating ∧ h.reset.env = h.env) ∧
    g.reset.env.2 = g.env.2 ∧
    ((g.reset.sim_action (recording M) a).2.env.2 = g.env.2 ++ [.play_action a] ∧
      (g.reset.sim_action (recording M) a).2.env.1 = (M.play_action g.env.1 a).2) ∧
    ((g.reset.play_action (recording M) a).2.env.2 =
        g.env.2 ++ [.restore_checkpoint, .play_action a] ∧
      (g.reset.play_action (recording M) a).2.env.1 =
        (M.play_action (M.restore_checkpoint g.env.1) a).2 ∧
      (g.reset.play_action (recording M) a).2.is_simulating = false) ∧
    ((g.reset.sim_reset (recording M)).env.2 = g.env.2 ++ [.restore_checkpoint] ∧
      (g.reset.sim_reset (recording M)).env.1 = M.restore_checkpoint g.env.1 ∧
      (g.reset.sim_reset (recording M)).is_simulating = false) := by
  refine ⟨⟨rfl, rfl, rfl, rfl, rfl⟩, rfl, ?_, ?_, ?_⟩
  · simp [environment_handler.sim_action, environment_handler.reset, hs, recording]
  · simp [environment_handler.play_action, environment_handler.reset, hs, recording]
  · simp [environment_handler.sim_reset, environment_handler.reset, hs, recording]

/-- C20, at a concrete input: a session on the counter environment (checkpoint at count 3,
two simulated actions), then `reset`, then `sim_reset`: the count is back at 3. -/
theorem reset_keeps_session_witness :
    ((((⟨((3, 0), []), false, 4, 5, 6⟩ : environment_handler Int ((Nat × Nat) × _)).sim_actions
      (recording counter_env) [1, 2]).reset.sim_reset (recording counter_env)) =
      ⟨((3, 3), [.make_checkpoint, .play_action 1, .play_action 2, .restore_checkpoint]),
        false, 0, 0, 0⟩) ∧
    (((⟨((3, 0), []), false, 4, 5, 6⟩ : environment_handler Int ((Nat × Nat) × _)).sim_actions
      (recording counter_env) [1, 2]).reset.sim_reset (recording counter_env)).env.2 =
      ((⟨((3, 0), []), false, 4, 5, 6⟩ : environment_handler Int ((Nat × Nat) × _)).sim_actions
        (recording counter_env) [1, 2]).env.2 ++ [.restore_checkpoint] :=
  ⟨by decide,
   (reset_keeps_session counter_env (⟨(3, 0), false, 4, 5, 6⟩ : environment_handler Int _)
      ((⟨((3, 0), []), false, 4, 5, 6⟩ : environment_handler Int ((Nat × Nat) × _)).sim_actions
        (recording counter_env) [1, 2]) (by decide) 1).2.2.2.2.1⟩

/-- C13 fails on the code: `primal_uct::reset` writes `common_data.risk_thd` only. For every
agent, after `reset` the field `risk_thd` of the common data is the configured threshold and
`sample_risk_thd` is what it was before; in the example agent (configured threshold 0, common
data holding `risk_thd = 1`, `sample_risk_thd = 1`) the common data after `reset` holds
`risk_thd = 0` and `sample_risk_thd = 1`. -/
theorem primal_reset_keeps_sample_risk_thd :
    (∀ (ag : primal_uct Nat Nat Int Int Int (Nat × Nat)),
      (primal_uct.reset counter_env (first_action_policy _) ag).ts.common_data.risk_thd =
        ag.risk_thd ∧
      (primal_uct.reset counter_env (first_action_policy _) ag).ts.common_data.sample_risk_thd =
        ag.ts.common_data.sample_risk_thd) ∧
    (primal_uct.reset counter_env (first_action_policy _) example_primal).ts.common_data =
      ⟨0, 1, 1⟩ ∧
    (primal_uct.reset counter_env (first_action_policy _) example_primal).risk_thd = 0 :=
  ⟨fun _ => ⟨rfl, rfl⟩, by decide, by decide⟩

/-! ## Theorems: the Pareto agent -/

section reward_bounds_lemmas

variable {S A C K : Type} [LinearOrderedField K]

/-- The widening step of `select_action_pareto` separates the bounds whenever the minimum
is not zero. -/
theorem reward_bounds_separated (ops : pareto_curve_ops C K)
    (children : List (action_node S A (pareto_value C K) K)) (min_r max_r : K)
    (h : reward_bounds ops children = some (min_r, max_r)) (h0 : min_r ≠ 0) : min_r < max_r := by
  simp only [reward_bounds, Option.bind_eq_bind, Option.bind_eq_some] at h
  obtain ⟨first, -, h⟩ := h
  split at h
  · split at h
    · rename_i hneg
      simp only [Option.some.injEq, Prod.mk.injEq] at h
      rw [← h.2, ← h.1]
      rw [← h.1] at h0
      linarith
    · rename_i hneg
      simp only [Option.some.injEq, Prod.mk.injEq] at h
      rw [← h.2, ← h.1]
      rw [← h.1] at h0
      have hpos := lt_of_le_of_ne (not_lt.mp hneg) (Ne.symm h0)
      linarith
  · rename_i hge
    simp only [Option.some.injEq, Prod.mk.injEq] at h
    rw [← h.2, ← h.1]
    exact not_le.mp hge

end reward_bounds_lemmas

/-- C16 fails on the code when the minimum is zero: for the example node, whose single child
has `r_bounds() = (0, 0)`, the bounds computed over the children are `min_r = max_r = 0`, the
widening step takes the branch `max_r = 1.1f * min_r`, and the bounds after it are still
`(0, 0)`: `min_r < max_r` does not hold. -/
theorem reward_bounds_zero_stays_degenerate :
    reward_bounds example_curve_ops_q example_zero_node.children = some (0, 0) ∧
    ¬ ((0 : ℚ) < 0) := by
  constructor
  · simp [reward_bounds, example_zero_node, example_curve_ops_q]
  · exact lt_irrefl 0

/-- C18. The Pareto `descend_callback`: with `t` the value of `common_data.sample_risk_thd`
on entry, `d = action.q.curve.derivative(t)` and `pi' = new_state.v.curve.inverse_derivative(d)`,
on return `action.q.risk_thd = t`, `new_state.v.risk_thd = pi'` and
`common_data.sample_risk_thd = pi'`, and nothing else of the action node, of the new state node
and of the common data has changed (curves, `idx`, visit counts, `common_data.risk_thd`). In
the descent at the end of `pareto_uct::play`, where the action node is a child of the old root,
the old root is left as it was but for that `q.risk_thd` of its action node. -/
theorem descend_callback_retargets {S A C K E : Type} [DecidableEq A] [DecidableEq S]
    (ops : pareto_curve_ops C K) (common_data : pareto_uct_data K)
    (action : action_node S A (pareto_value C K) K)
    (new_state : state_node S A (pareto_value C K) (pareto_value C K) K)
    (init_v : pareto_value C K) (ag : pareto_uct S A C K E) (b : A) (o : outcome_t S K)
    (root_node : state_node S A (pareto_value C K) (pareto_value C K) K) (j : Nat)
    (an : action_node S A (pareto_value C K) K) (c : Nat)
    (cn : state_node S A (pareto_value C K) (pareto_value C K) K)
    (g1 : ag.heap[ag.root]? = some root_node) (g2 : root_node.get_child b = some j)
    (g3 : root_node.children[j]? = some an) (g4 : an.get_child o.state = some c)
    (g5 : ag.heap[c]? = some cn) (gne : ag.root ≠ c) :
    ((descend_callback ops common_data action new_state).2.1 =
        { action with q := { action.q with risk_thd := common_data.sample_risk_thd } } ∧
      (descend_callback ops common_data action new_state).2.2 =
        { new_state with v := { new_state.v with
            risk_thd := (ops.inverse_derivative new_state.v.curve
              (ops.derivative action.q.curve common_data.sample_risk_thd)) } } ∧
      (descend_callback ops common_data action new_state).1 =
        { common_data with
            sample_risk_thd := (ops.inverse_derivative new_state.v.curve
              (ops.derivative action.q.curve common_data.sample_risk_thd)) }) ∧
    ((descend_callback ops common_data action new_state).2.1.q.curve = action.q.curve ∧
      (descend_callback ops common_data action new_state).2.1.q.idx = action.q.idx ∧
      (descend_callback ops common_data action new_state).2.1.num_visits = action.num_visits ∧
      (descend_callback ops common_data action new_state).2.2.v.curve = new_state.v.curve ∧
      (descend_callback ops common_data action new_state).2.2.v.idx = new_state.v.idx ∧
      (descend_callback ops common_data action new_state).2.2.num_visits =
        new_state.num_visits ∧
      (descend_callback ops common_data action new_state).1.risk_thd = common_data.risk_thd) ∧
    (∃ ag', pareto_uct.play_descent ops init_v ag b o = some ag' ∧
      ag'.heap[ag.root]? = some { root_node with
        children := root_node.children.set j
          { an with q := { an.q with risk_thd := ag.common_data.sample_risk_thd } } }) := by
  refine ⟨⟨rfl, rfl, rfl⟩, ⟨rfl, rfl, rfl, rfl, rfl, rfl, rfl⟩, ?_⟩
  refine ⟨_, play_descent_existing ops init_v ag b o root_node j an c cn g1 g2 g3 g4 g5 gne, ?_⟩
  simp only
  rw [List.getElem?_set_ne (Ne.symm gne), List.getElem?_set_ne (Ne.symm gne)]
  exact set_action_node_self _ _ _ _ _ g1

/-- C18, at a concrete input: the example Pareto agent, action 1 and outcome state 4. -/
theorem descend_callback_retargets_witness :
    ∃ ag', pareto_uct.play_descent example_curve_ops ⟨(2, 2), [], 0⟩ example_pareto 1
        ⟨4, 1, 3, false⟩ = some ag' ∧
      (ag'.heap[0]?).map (fun n => n.children.map (fun child => child.q.risk_thd)) =
        some [1, 0] ∧
      (ag'.heap[0]?).map (fun n => (n.num_visits, n.v)) = some (3, ⟨(2, 2), [], 1⟩) := by
  obtain ⟨-, -, ag', e1, e2⟩ := descend_callback_retargets example_curve_ops
    example_pareto.common_data ⟨1, some 0, [(4, 1)], 2, ⟨(2, 2), [], 0⟩, 1, 3⟩
    (fresh_state_node ⟨(2, 2), [], 0⟩ 0 0 ⟨4, 1, 3, false⟩)
    ⟨(2, 2), [], 0⟩ example_pareto 1 ⟨4, 1, 3, false⟩ _ 0 _ 1 _
    (by rfl) (by rfl) (by rfl) (by rfl) (by rfl) (by decide)
  refine ⟨ag', e1, ?_, ?_⟩
  · rw [show (0 : Nat) = example_pareto.root from rfl, e2]
    rfl
  · rw [show (0 : Nat) = example_pareto.root from rfl, e2]
    rfl

section pairs_lemmas

theorem pairs_of_mem {α : Type} (l : List α) (x y : α) (h : (x, y) ∈ pairs_of l) :
    ∃ i j : Nat, i < j ∧ l[i]? = some x ∧ l[j]? = some y := by
  induction l with
  | nil => simp [pairs_of] at h
  | cons z zs ih =>
    simp only [pairs_of, List.mem_append, List.mem_map, Prod.mk.injEq] at h
    rcases h with ⟨w, hw, rfl, rfl⟩ | h
    · obtain ⟨k, hk⟩ := List.mem_iff_getElem?.mp hw
      exact ⟨0, k + 1, Nat.succ_pos k, by simp, by simpa using hk⟩
    · obtain ⟨i, j, hij, hi, hj⟩ := ih h
      exact ⟨i + 1, j + 1, Nat.succ_lt_succ hij, by simpa using hi, by simpa using hj⟩

theorem enum_getElem (α : Type) (l : List α) (i : Nat) (x : Nat × α)
    (h : l.enum[i]? = some x) : x.1 = i ∧ l[i]? = some x.2 := by
  rw [List.enum_eq_enumFrom, List.getElem?_enumFrom] at h
  cases hl : l[i]? with
  | none => simp [hl] at h
  | some a =>
    simp only [hl, Option.map_some', Option.some.injEq, Nat.zero_add] at h
    rw [← h]
    exact ⟨rfl, rfl⟩

variable {S A C K : Type} [LinearOrderedField K]

omit [LinearOrderedField K] in
/-- Every pair visited by the loops of `select_action_pareto` consists of two children with
their indices `i < j` and their bonuses. -/
theorem pareto_pairs_mem (bonus : List K) (children : List (action_node S A (pareto_value C K) K))
    (p : (Nat × action_node S A (pareto_value C K) K × K) ×
      (Nat × action_node S A (pareto_value C K) K × K))
    (h : p ∈ pareto_pairs bonus children) :
    p.1.1 < p.2.1 ∧ children[p.1.1]? = some p.1.2.1 ∧ children[p.2.1]? = some p.2.2.1 ∧
      bonus[p.1.1]? = some p.1.2.2 ∧ bonus[p.2.1]? = some p.2.2.2 := by
  obtain ⟨x, y⟩ := p
  obtain ⟨i, j, hij, hi, hj⟩ := pairs_of_mem _ x y h
  obtain ⟨e1, e2⟩ := enum_getElem _ _ i x hi
  obtain ⟨f1, f2⟩ := enum_getElem _ _ j y hj
  rw [List.getElem?_zip_eq_some] at e2 f2
  simp only
  rw [e1, f1]
  exact ⟨hij, e2.1, f2.1, e2.2, f2.2⟩

/-- A pair whose value does not exceed the current maximum changes nothing. -/
theorem pareto_fold_no_update (ext : pareto_externals C K) (risk_thd : K)
    (l : List ((Nat × action_node S A (pareto_value C K) K × K) ×
      (Nat × action_node S A (pareto_value C K) K × K)))
    (st : pareto_select_state K)
    (h : ∀ q ∈ l, (mix_pair ext risk_thd q).2.2.2 ≤ st.max_v) :
    l.foldl (pareto_pair_step ext risk_thd) st = st := by
  induction l with
  | nil => rfl
  | cons q l ih =>
    have hq : ¬ st.max_v < (mix_pair ext risk_thd q).2.2.2 :=
      not_lt.mpr (h q (List.mem_cons_self _ _))
    have hstep : pareto_pair_step ext risk_thd st q = st := by
      simp only [pareto_pair_step, hq, ↓reduceIte]
    rw [List.foldl_cons, hstep]
    exact ih (fun q' hq' => h q' (List.mem_cons_of_mem _ hq'))

theorem pair_decision_max_v (ext : pareto_externals C K) (risk_thd : K) (k : Nat)
    (p : (Nat × action_node S A (pareto_value C K) K × K) ×
      (Nat × action_node S A (pareto_value C K) K × K)) :
    (pair_decision ext risk_thd k p).max_v = (mix_pair ext risk_thd p).2.2.2 := by
  unfold pair_decision
  split <;> rfl

theorem pareto_pair_step_update (ext : pareto_externals C K) (risk_thd : K)
    (st : pareto_select_state K)
    (p : (Nat × action_node S A (pareto_value C K) K × K) ×
      (Nat × action_node S A (pareto_value C K) K × K))
    (h : st.max_v < (mix_pair ext risk_thd p).2.2.2) :
    pareto_pair_step ext risk_thd st p = pair_decision ext risk_thd st.rng_pos p := by
  simp only [pareto_pair_step, h, ↓reduceIte, pair_decision]

/-- The loop of `select_action_pareto` over a list of pairs one of which exceeds the current
maximum: the result is decided by the first pair that attains the largest value. -/
theorem pareto_fold_first_max (ext : pareto_externals C K) (risk_thd : K)
    (l : List ((Nat × action_node S A (pareto_value C K) K × K) ×
      (Nat × action_node S A (pareto_value C K) K × K)))
    (st : pareto_select_state K)
    (h : ∃ q ∈ l, st.max_v < (mix_pair ext risk_thd q).2.2.2) :
    ∃ pre p post, l = pre ++ p :: post ∧
      (∀ q ∈ pre, (mix_pair ext risk_thd q).2.2.2 < (mix_pair ext risk_thd p).2.2.2) ∧
      (∀ q ∈ post, (mix_pair ext risk_thd q).2.2.2 ≤ (mix_pair ext risk_thd p).2.2.2) ∧
      st.max_v < (mix_pair ext risk_thd p).2.2.2 ∧
      l.foldl (pareto_pair_step ext risk_thd) st =
        pair_decision ext risk_thd (pre.foldl (pareto_pair_step ext risk_thd) st).rng_pos p := by
  induction l generalizing st with
  | nil =>
    obtain ⟨q, hq, -⟩ := h
    simp at hq
  | cons x xs ih =>
    by_cases hx : st.max_v < (mix_pair ext risk_thd x).2.2.2
    · have hstep := pareto_pair_step_update ext risk_thd st x hx
      by_cases hmore : ∃ q ∈ xs, (mix_pair ext risk_thd x).2.2.2 < (mix_pair ext risk_thd q).2.2.2
      · obtain ⟨pre, p, post, e1, e2, e3, e4, e5⟩ :=
          ih (pair_decision ext risk_thd st.rng_pos x)
            (by rw [pair_decision_max_v]; exact hmore)
        rw [pair_decision_max_v] at e4
        refine ⟨x :: pre, p, post, by rw [e1]; rfl, ?_, e3, lt_trans hx e4, ?_⟩
        · intro q hq
          rcases List.mem_cons.mp hq with rfl | hq
          · exact e4
          · exact e2 q hq
        · rw [List.foldl_cons, List.foldl_cons, hstep]
          exact e5
      · have hle : ∀ q ∈ xs,
            (mix_pair ext risk_thd q).2.2.2 ≤ (mix_pair ext risk_thd x).2.2.2 := by
          intro q hq
          exact not_lt.mp (fun hlt => hmore ⟨q, hq, hlt⟩)
        refine ⟨[], x, xs, rfl, by simp, hle, hx, ?_⟩
        rw [List.foldl_cons, hstep, List.foldl_nil]
        exact pareto_fold_no_update ext risk_thd xs _
          (by rw [pair_decision_max_v]; exact hle)
    · have hstep : pareto_pair_step ext risk_thd st x = st := by
        simp only [pareto_pair_step, hx, ↓reduceIte]
      obtain ⟨q, hq, hlt⟩ := h
      have hq' : q ∈ xs := by
        rcases List.mem_cons.mp hq with rfl | hq
        · exact absurd hlt hx
        · exact hq
      obtain ⟨pre, p, post, e1, e2, e3, e4, e5⟩ := ih st ⟨q, hq', hlt⟩
      refine ⟨x :: pre, p, post, by rw [e1]; rfl, ?_, e3, e4, ?_⟩
      · intro q hq
        rcases List.mem_cons.mp hq with rfl | hq
        · exact lt_of_le_of_lt (not_lt.mp hx) e4
        · exact e2 q hq
      · rw [List.foldl_cons, List.foldl_cons, hstep]
        exact e5

theorem reward_bounds_some (ops : pareto_curve_ops C K)
    (children : List (action_node S A (pareto_value C K) K))
    (first : action_node S A (pareto_value C K) K) (h : children[0]? = some first) :
    ∃ b, reward_bounds ops children = some b := by
  simp only [reward_bounds, Option.bind_eq_bind, h, Option.some_bind]
  split
  · split
    · exact ⟨_, rfl⟩
    · exact ⟨_, rfl⟩
  · exact ⟨_, rfl⟩

end pairs_lemmas

/-- C17. `select_action_pareto` chooses the first maximal pair: when some pair `(i, j)`,
`i < j`, of children has a value `v` above minus infinity, the pairs visited by the nested
loops split as `pre ++ p :: post`, where every pair before `p` has a strictly smaller value
and no pair after `p` a larger one; with `u` the variate drawn for `p` (the next one after
those the pairs of `pre` have drawn), the function returns `actions[i]` and sets
`sample_risk_thd = p1` when `u < prob1`, returns `actions[j]` and sets `sample_risk_thd = p2`
otherwise, `(p1, prob1, p2, v)` being the result of `mix` for `p`. -/
theorem select_action_pareto_first_max {S A C K : Type} [LinearOrderedField K]
    (ops : pareto_curve_ops C K) (ext : pareto_externals C K) (common_data : pareto_uct_data K)
    (rng_pos : Nat) (node : state_node S A (pareto_value C K) (pareto_value C K) K)
    (explore : Bool) (hpar : node.actions.length = node.children.length)
    (hv : ∃ q ∈ pareto_pairs (uct_bonus ext common_data.exploration_constant node.num_visits
        explore node.children) node.children,
      ⊥ < (mix_pair ext common_data.sample_risk_thd q).2.2.2) :
    ∃ pre p post ai aj,
      pareto_pairs (uct_bonus ext common_data.exploration_constant node.num_visits
        explore node.children) node.children = pre ++ p :: post ∧
      (∀ q ∈ pre, (mix_pair ext common_data.sample_risk_thd q).2.2.2 <
        (mix_pair ext common_data.sample_risk_thd p).2.2.2) ∧
      (∀ q ∈ post, (mix_pair ext common_data.sample_risk_thd q).2.2.2 ≤
        (mix_pair ext common_data.sample_risk_thd p).2.2.2) ∧
      p.1.1 < p.2.1 ∧ node.children[p.1.1]? = some p.1.2.1 ∧
      node.children[p.2.1]? = some p.2.2.1 ∧
      node.actions[p.1.1]? = some ai ∧ node.actions[p.2.1]? = some aj ∧
      select_action_pareto ops ext common_data rng_pos node explore =
        some (if ext.unif_float (pre.foldl (pareto_pair_step ext common_data.sample_risk_thd)
              { max_v := ⊥, max_thd := 0, max_idx := 0, rng_pos := rng_pos }).rng_pos <
            (mix_pair ext common_data.sample_risk_thd p).2.1 then
          (ai, { common_data with
                  sample_risk_thd := (mix_pair ext common_data.sample_risk_thd p).1 },
            (pre.foldl (pareto_pair_step ext common_data.sample_risk_thd)
              { max_v := ⊥, max_thd := 0, max_idx := 0, rng_pos := rng_pos }).rng_pos + 1)
        else
          (aj, { common_data with
                  sample_risk_thd := (mix_pair ext common_data.sample_risk_thd p).2.2.1 },
            (pre.foldl (pareto_pair_step ext common_data.sample_risk_thd)
              { max_v := ⊥, max_thd := 0, max_idx := 0, rng_pos := rng_pos }).rng_pos + 1)) := by
  obtain ⟨pre, p, post, e1, e2, e3, -, e5⟩ :=
    pareto_fold_first_max ext common_data.sample_risk_thd _
      { max_v := ⊥, max_thd := 0, max_idx := 0, rng_pos := rng_pos } hv
  have hp : p ∈ pareto_pairs (uct_bonus ext common_data.exploration_constant node.num_visits
      explore node.children) node.children := by
    rw [e1]
    exact List.mem_append_right _ (List.mem_cons_self _ _)
  obtain ⟨m1, m2, m3, -, -⟩ := pareto_pairs_mem _ _ p hp
  have hi : p.1.1 < node.actions.length := by
    rw [hpar]; exact (List.getElem?_eq_some.mp m2).1
  have hj : p.2.1 < node.actions.length := by
    rw [hpar]; exact (List.getElem?_eq_some.mp m3).1
  have h0 : ∃ first, node.children[0]? = some first := by
    have : 0 < node.children.length :=
      Nat.lt_of_le_of_lt (Nat.zero_le _) (List.getElem?_eq_some.mp m2).1
    exact ⟨_, List.getElem?_eq_getElem this⟩
  obtain ⟨first, hfirst⟩ := h0
  obtain ⟨b, hb⟩ := reward_bounds_some ops node.children first hfirst
  refine ⟨pre, p, post, node.actions[p.1.1], node.actions[p.2.1], e1, e2, e3, m1, m2, m3,
    List.getElem?_eq_getElem hi, List.getElem?_eq_getElem hj, ?_⟩
  simp only [select_action_pareto, Option.bind_eq_bind, hb, Option.some_bind, e5, pair_decision]
  split
  · simp [List.getElem?_eq_getElem hi]
  · simp [List.getElem?_eq_getElem hj]

/-- C17, at a concrete input: three children and target risk `1/2`; the pairs (0, 1), (0, 2),
(1, 2) have the values `3/2`, `5/2`, `5/2`; the pair (0, 2) decides with the second variate
`1/4 < prob1 = 1/2`: action 1 (child 0) is returned with `sample_risk_thd = p1 = 0`. -/
theorem select_action_pareto_first_max_witness :
    select_action_pareto example_curve_ops_q example_externals ⟨1 / 2, 1 / 2, 5⟩ 0
      example_three_node false = some (1, ⟨1 / 2, 0, 5⟩, 2) ∧
    ∃ pre p post,
      pareto_pairs (uct_bonus example_externals 5 3 false example_three_node.children)
        example_three_node.children = pre ++ p :: post ∧
      (∀ q ∈ pre, (mix_pair example_externals (1 / 2) q).2.2.2 <
        (mix_pair example_externals (1 / 2) p).2.2.2) ∧
      (∀ q ∈ post, (mix_pair example_externals (1 / 2) q).2.2.2 ≤
        (mix_pair example_externals (1 / 2) p).2.2.2) ∧
      p.1.1 < p.2.1 := by
  obtain ⟨pre, p, post, ai, aj, e1, e2, e3, e4, -⟩ :=
    select_action_pareto_first_max example_curve_ops_q example_externals ⟨1 / 2, 1 / 2, 5⟩ 0
      example_three_node false (by decide) (by decide!)
  exact ⟨by decide!, pre, p, post, e1, e2, e3, e4⟩

section risk_range_lemmas

variable {S A C K : Type} [LinearOrderedField K]

/-- The risk kept by the loop of `select_action_pareto` is the initial one or one that `mix`
returned: it is within `[0, 1]` when those are. -/
theorem pareto_fold_max_thd_range (ext : pareto_externals C K) (risk_thd : K)
    (hmix : ∀ c1 c2 b1 b2 n step t, (0 ≤ (ext.mix c1 c2 b1 b2 n step t).1 ∧
      (ext.mix c1 c2 b1 b2 n step t).1 ≤ 1) ∧ (0 ≤ (ext.mix c1 c2 b1 b2 n step t).2.2.1 ∧
      (ext.mix c1 c2 b1 b2 n step t).2.2.1 ≤ 1))
    (l : List ((Nat × action_node S A (pareto_value C K) K × K) ×
      (Nat × action_node S A (pareto_value C K) K × K)))
    (st : pareto_select_state K) (hst : 0 ≤ st.max_thd ∧ st.max_thd ≤ 1) :
    0 ≤ (l.foldl (pareto_pair_step ext risk_thd) st).max_thd ∧
      (l.foldl (pareto_pair_step ext risk_thd) st).max_thd ≤ 1 := by
  induction l generalizing st with
  | nil => exact hst
  | cons p l ih =>
    rw [List.foldl_cons]
    apply ih
    by_cases h1 : st.max_v < (mix_pair ext risk_thd p).2.2.2
    · rw [pareto_pair_step_update ext risk_thd st p h1]
      unfold pair_decision
      split
      · exact (hmix _ _ _ _ _ _ _).1
      · exact (hmix _ _ _ _ _ _ _).2
    · have hstep : pareto_pair_step ext risk_thd st p = st := by
        simp only [pareto_pair_step, h1, ↓reduceIte]
      rw [hstep]
      exact hst

end risk_range_lemmas

section risk_write_lemmas

variable {S A C K : Type} [LinearOrderedField K]

end risk_write_lemmas

section play_descent_lemmas

variable {S A C K E : Type} [DecidableEq A] [DecidableEq S]

/-- What the descent inlined at the end of `pareto_uct::play` does when the action node of `a`
has no child keyed by the observed state: a node is created at the end of the heap. -/
theorem play_descent_new (ops : pareto_curve_ops C K) (init_v : pareto_value C K)
    (ag : pareto_uct S A C K E) (a : A) (o : outcome_t S K)
    (root_node : state_node S A (pareto_value C K) (pareto_value C K) K) (i : Nat)
    (an : action_node S A (pareto_value C K) K)
    (h1 : ag.heap[ag.root]? = some root_node) (h2 : root_node.get_child a = some i)
    (h3 : root_node.children[i]? = some an) (h4 : an.get_child o.state = none) :
    ∃ ag' node, pareto_uct.play_descent ops init_v ag a o = some ag' ∧
      ag'.root = ag.heap.length ∧ ag'.heap.length = ag.heap.length + 1 ∧
      ag'.handler = ag.handler ∧
      ag'.heap[ag.heap.length]? = some node ∧
      node = { (fresh_state_node init_v ag.root i o :
          state_node S A (pareto_value C K) (pareto_value C K) K) with
        parent := none
        v := { init_v with risk_thd := (ops.inverse_derivative init_v.curve
          (ops.derivative an.q.curve ag.common_data.sample_risk_thd)) } } ∧
      (∀ m, m ≠ ag.root → m < ag.heap.length → ag'.heap[m]? = ag.heap[m]?) := by
  have hroot : ag.root < ag.heap.length := (List.getElem?_eq_some.mp h1).1
  have hi : i < root_node.children.length := (List.getElem?_eq_some.mp h3).1
  have hne : ag.root ≠ ag.heap.length := Nat.ne_of_lt hroot
  have h4' : an.children.lookup o.state = none := h4
  have hr1 : (ag.heap ++ [pareto_uct.expand_action init_v ag.root i o])[ag.root]? =
      some root_node := by
    rw [List.getElem?_append_left hroot]; exact h1
  have hL : ∀ (x : action_node S A (pareto_value C K) K)
      (y : action_node S A (pareto_value C K) K),
      (set_action_node (set_action_node
        (ag.heap ++ [pareto_uct.expand_action init_v ag.root i o]) ag.root i x)
          ag.root i y)[ag.heap.length]? =
        some (fresh_state_node init_v ag.root i o) := by
    intro x y
    rw [set_action_node_ne _ _ _ _ _ hne, set_action_node_ne _ _ _ _ _ hne]
    exact List.getElem?_concat_length _ _
  have hlen : ∀ (x : action_node S A (pareto_value C K) K)
      (y : action_node S A (pareto_value C K) K),
      ag.heap.length < (set_action_node (set_action_node
        (ag.heap ++ [pareto_uct.expand_action init_v ag.root i o]) ag.root i x)
          ag.root i y).length := by
    intro x y
    simp [set_action_node_length]
  have hd : ∃ ag', pareto_uct.play_descent ops init_v ag a o = some ag' := by
    simp only [pareto_uct.play_descent, Option.bind_eq_bind, h1, Option.some_bind, h2, h3, h4',
      ↓reduceIte, set_action_node_self _ _ _ _ _ hr1, List.getElem?_set_self hi,
      action_node.get_child_unique_ptr, List.lookup_append, Option.none_or, List.lookup_cons,
      beq_self_eq_true, set_action_node_ne _ _ _ _ _ hne, List.getElem?_concat_length,
      hL, List.getElem?_set_self (hlen _ _)]
    exact ⟨_, rfl⟩
  obtain ⟨ag', hpd⟩ := hd
  have hpd' := hpd
  simp only [pareto_uct.play_descent, Option.bind_eq_bind, h1, Option.some_bind, h2, h3, h4',
    ↓reduceIte, set_action_node_self _ _ _ _ _ hr1, List.getElem?_set_self hi,
    action_node.get_child_unique_ptr, List.lookup_append, Option.none_or, List.lookup_cons,
    beq_self_eq_true, set_action_node_ne _ _ _ _ _ hne, List.getElem?_concat_length,
    hL, List.getElem?_set_self (hlen _ _), Option.some.injEq] at hpd'
  subst hpd'
  refine ⟨_, _, hpd, rfl, ?_, rfl, ?_, rfl, ?_⟩
  · simp [set_action_node_length]
  · exact List.getElem?_set_self (by rw [List.length_set]; exact hlen _ _)
  · intro m hm hml
    simp only
    rw [List.getElem?_set_ne (Ne.symm (Nat.ne_of_lt hml)),
      List.getElem?_set_ne (Ne.symm (Nat.ne_of_lt hml)),
      set_action_node_ne _ _ _ _ _ (Ne.symm hm), set_action_node_ne _ _ _ _ _ (Ne.symm hm),
      List.getElem?_append_left hml]

end play_descent_lemmas

/-- C15. The end of `pareto_uct::play`, for a committed action `a` of the root and every real
outcome `o = (s, r, p, done)`. If the action node `root.child(a)` has no child keyed `s`, a new
state node is created from the outcome (state `s`, terminal flag `done`, no children, no
visits, the initial curve) at a new address, the nodes other than the old root keep their
content, and the new node becomes the root. If a child keyed `s` exists, that node becomes the
root with its visit count, children, curve and `idx` as they were, no node is created (the
heap has as many nodes as before) and the old root keeps its action nodes and their children.
In both cases the descent completes and the new root has no parent. -/
theorem play_descends_to_outcome {S A C K E : Type} [DecidableEq A] [DecidableEq S]
    (ops : pareto_curve_ops C K) (init_v : pareto_value C K)
    (ag : pareto_uct S A C K E) (a : A) (o : outcome_t S K)
    (root_node : state_node S A (pareto_value C K) (pareto_value C K) K) (i : Nat)
    (an : action_node S A (pareto_value C K) K)
    (h1 : ag.heap[ag.root]? = some root_node) (h2 : root_node.get_child a = some i)
    (h3 : root_node.children[i]? = some an) :
    (an.get_child o.state = none →
      ∃ ag' node, pareto_uct.play_descent ops init_v ag a o = some ag' ∧
        ag'.root = ag.heap.length ∧ ag'.heap.length = ag.heap.length + 1 ∧
        ag'.heap[ag'.root]? = some node ∧
        node.state = o.state ∧ node.terminal = o.is_over ∧ node.parent = none ∧
        node.children = [] ∧ node.num_visits = 0 ∧ node.v.curve = init_v.curve ∧
        node.v.idx = init_v.idx ∧
        (∀ m, m ≠ ag.root → m < ag.heap.length → ag'.heap[m]? = ag.heap[m]?)) ∧
    (∀ c cn, an.get_child o.state = some c → ag.heap[c]? = some cn → ag.root ≠ c →
      ∃ ag' node, pareto_uct.play_descent ops init_v ag a o = some ag' ∧
        ag'.root = c ∧ ag'.heap.length = ag.heap.length ∧
        ag'.heap[ag'.root]? = some node ∧
        node.state = cn.state ∧ node.terminal = cn.terminal ∧ node.parent = none ∧
        node.children = cn.children ∧ node.actions = cn.actions ∧
        node.num_visits = cn.num_visits ∧ node.v.curve = cn.v.curve ∧
        node.v.idx = cn.v.idx ∧
        ag'.heap[ag.root]? = some { root_node with
          children := root_node.children.set i
            { an with q := { an.q with risk_thd := ag.common_data.sample_risk_thd } } } ∧
        (∀ m, m ≠ ag.root → m ≠ c → ag'.heap[m]? = ag.heap[m]?)) := by
  constructor
  · intro h4
    obtain ⟨ag', node, e1, e2, e3, -, e5, e6, e7⟩ :=
      play_descent_new ops init_v ag a o root_node i an h1 h2 h3 h4
    refine ⟨ag', node, e1, e2, e3, by rw [e2]; exact e5, ?_, ?_, ?_, ?_, ?_, ?_, ?_, e7⟩ <;>
      rw [e6] <;> rfl
  · intro c cn h4 h5 hne
    have hc : c < ag.heap.length := (List.getElem?_eq_some.mp h5).1
    refine ⟨_, _, play_descent_existing ops init_v ag a o root_node i an c cn h1 h2 h3 h4 h5 hne,
      rfl, ?_, List.getElem?_set_self (by simpa [set_action_node_length] using hc),
      rfl, rfl, rfl, rfl, rfl, rfl, rfl, rfl, ?_, ?_⟩
    · simp [set_action_node_length]
    · simp only
      rw [List.getElem?_set_ne (Ne.symm hne), List.getElem?_set_ne (Ne.symm hne)]
      exact set_action_node_self _ _ _ _ _ h1
    · intro m hm hmc
      simp only
      rw [List.getElem?_set_ne (Ne.symm hmc), List.getElem?_set_ne (Ne.symm hmc),
        set_action_node_ne _ _ _ _ _ (Ne.symm hm)]

/-- C15, at concrete inputs: `play` of the example agent commits action 1, whose outcome is
state 4. When the action node has a child keyed 4 (address 1) that node becomes the root and
the heap keeps its two nodes; when its only child is keyed 5 a third node is created for
state 4 and becomes the root. -/
theorem play_descends_to_outcome_witness :
    ((pareto_uct.play counter_env_q example_curve_ops_q example_externals example_templates
        ⟨(2, 2), [], 0⟩ (example_pareto_q 4) 0).map
      (fun r => (r.2.2, r.1.root, r.1.heap.length))) = some (1, 1, 2) ∧
    ((pareto_uct.play counter_env_q example_curve_ops_q example_externals example_templates
        ⟨(2, 2), [], 0⟩ (example_pareto_q 5) 0).map
      (fun r => (r.2.2, r.1.root, r.1.heap.length))) = some (1, 2, 3) ∧
    (∃ ag' node, pareto_uct.play_descent example_curve_ops_q ⟨(2, 2), [], 0⟩
        (example_pareto_q 4) 1 ⟨4, 1, 3, false⟩ = some ag' ∧ ag'.root = 1 ∧
      ag'.heap[ag'.root]? = some node ∧ node.parent = none ∧ node.num_visits = 2) ∧
    (∃ ag' node, pareto_uct.play_descent example_curve_ops_q ⟨(2, 2), [], 0⟩
        (example_pareto_q 5) 1 ⟨4, 1, 3, false⟩ = some ag' ∧ ag'.root = 2 ∧
      ag'.heap[ag'.root]? = some node ∧ node.parent = none ∧ node.state = 4) := by
  refine ⟨by decide!, by decide!, ?_, ?_⟩
  · obtain ⟨ag', node, e1, e2, -, e4, -, -, e7, -, -, e10, -⟩ :=
      (play_descends_to_outcome example_curve_ops_q ⟨(2, 2), [], 0⟩ (example_pareto_q 4) 1
        ⟨4, 1, 3, false⟩ _ 0 _ (by rfl) (by rfl) (by rfl)).2 1 _ (by rfl) (by rfl) (by decide)
    exact ⟨ag', node, e1, e2, e4, e7, e10⟩
  · obtain ⟨ag', node, e1, e2, -, e4, e5, -, e7, -⟩ :=
      (play_descends_to_outcome example_curve_ops_q ⟨(2, 2), [], 0⟩ (example_pareto_q 5) 1
        ⟨4, 1, 3, false⟩ _ 0 _ (by rfl) (by rfl) (by rfl)).1 (by rfl)
    exact ⟨ag', node, e1, e2, e4, e7, e5⟩

/-! ## Theorems: `play` without simulations -/

section play_success_lemmas

variable {S A C K E : Type} [DecidableEq A] [DecidableEq S]

/-- The descent at the end of `pareto_uct::play` does not touch the handler. -/
theorem play_descent_handler (ops : pareto_curve_ops C K) (init_v : pareto_value C K)
    (ag ag' : pareto_uct S A C K E) (a : A) (o : outcome_t S K)
    (h : pareto_uct.play_descent ops init_v ag a o = some ag') : ag'.handler = ag.handler := by
  simp only [pareto_uct.play_descent, Option.bind_eq_bind, Option.bind_eq_some,
    Option.some.injEq] at h
  obtain ⟨_, _, _, _, _, _, _, _, _, _, _, _, _, _, _, _, _, _, _, _, rfl⟩ := h
  rfl

/-- The descent at the end of `pareto_uct::play` completes when the committed action has an
action node whose child pointers are addresses of the heap. -/
theorem play_descent_some (ops : pareto_curve_ops C K) (init_v : pareto_value C K)
    (ag : pareto_uct S A C K E) (a : A) (o : outcome_t S K)
    (root_node : state_node S A (pareto_value C K) (pareto_value C K) K) (i : Nat)
    (an : action_node S A (pareto_value C K) K)
    (h1 : ag.heap[ag.root]? = some root_node) (h2 : root_node.get_child a = some i)
    (h3 : root_node.children[i]? = some an)
    (h4 : ∀ e ∈ an.children, e.2 < ag.heap.length) :
    ∃ ag', pareto_uct.play_descent ops init_v ag a o = some ag' := by
  cases h5 : an.get_child o.state with
  | none =>
    obtain ⟨ag', _, e, -⟩ := play_descent_new ops init_v ag a o root_node i an h1 h2 h3 h5
    exact ⟨ag', e⟩
  | some c =>
    have hc : c < ag.heap.length := h4 (o.state, c) (lookup_mem _ _ _ h5)
    obtain ⟨cn, hcn⟩ : ∃ cn, ag.heap[c]? = some cn :=
      ⟨ag.heap[c], List.getElem?_eq_getElem hc⟩
    by_cases hne : ag.root = c
    · subst hne
      have h5' : an.children.lookup o.state = some ag.root := h5
      have hi : i < root_node.children.length := (List.getElem?_eq_some.mp h3).1
      simp only [pareto_uct.play_descent, Option.bind_eq_bind, h1, Option.some_bind, h2, h3, h5',
        action_node.get_child_unique_ptr, descend_callback, reduceCtorEq, ↓reduceIte,
        set_action_node_self _ _ _ _ _ h1,
        List.getElem?_set_self (show ag.root < (set_action_node ag.heap ag.root i _).length by
          simpa [set_action_node_length] using hc)]
      exact ⟨_, rfl⟩
    · exact ⟨_, play_descent_existing ops init_v ag a o root_node i an c cn h1 h2 h3 h5 hcn hne⟩


omit [DecidableEq A] [DecidableEq S] in
/-- The index kept by the loop of `select_action_pareto` is the initial one or an index of a
visited pair. -/
theorem pareto_fold_max_idx {K : Type} [LinearOrderedField K] (ext : pareto_externals C K)
    (risk_thd : K) (n : Nat)
    (l : List ((Nat × action_node S A (pareto_value C K) K × K) ×
      (Nat × action_node S A (pareto_value C K) K × K)))
    (hl : ∀ p ∈ l, p.1.1 < n ∧ p.2.1 < n)
    (st : pareto_select_state K) (hst : st.max_idx < n) :
    (l.foldl (pareto_pair_step ext risk_thd) st).max_idx < n := by
  induction l generalizing st with
  | nil => exact hst
  | cons p l ih =>
    rw [List.foldl_cons]
    apply ih (fun q hq => hl q (List.mem_cons_of_mem _ hq))
    by_cases h1 : st.max_v < (mix_pair ext risk_thd p).2.2.2
    · rw [pareto_pair_step_update ext risk_thd st p h1]
      unfold pair_decision
      split
      · exact (hl p (List.mem_cons_self _ _)).1
      · exact (hl p (List.mem_cons_self _ _)).2
    · have hstep : pareto_pair_step ext risk_thd st p = st := by
        simp only [pareto_pair_step, h1, ↓reduceIte]
      rw [hstep]
      exact hst

omit [DecidableEq A] [DecidableEq S] in
/-- On a node with at least one child and as many actions as children,
`select_action_pareto` returns one of the actions of the node. -/
theorem select_action_pareto_some {K : Type} [LinearOrderedField K]
    (ops : pareto_curve_ops C K) (ext : pareto_externals C K) (common_data : pareto_uct_data K)
    (rng_pos : Nat) (node : state_node S A (pareto_value C K) (pareto_value C K) K)
    (explore : Bool) (hc : node.children ≠ [])
    (hp : node.actions.length = node.children.length) :
    ∃ r, select_action_pareto ops ext common_data rng_pos node explore = some r ∧
      r.1 ∈ node.actions := by
  obtain ⟨first, hfirst⟩ : ∃ first, node.children[0]? = some first := by
    cases hch : node.children with
    | nil => exact absurd hch hc
    | cons x xs => exact ⟨x, by simp⟩
  have hpos : 0 < node.children.length := (List.getElem?_eq_some.mp hfirst).1
  obtain ⟨b, hb⟩ := reward_bounds_some ops node.children first hfirst
  have hidx := pareto_fold_max_idx ext common_data.sample_risk_thd node.actions.length
    (pareto_pairs (uct_bonus ext common_data.exploration_constant node.num_visits explore
      node.children) node.children)
    (fun p hpm => by
      obtain ⟨-, e1, e2, -⟩ := pareto_pairs_mem _ _ p hpm
      rw [hp]
      exact ⟨(List.getElem?_eq_some.mp e1).1, (List.getElem?_eq_some.mp e2).1⟩)
    { max_v := ⊥, max_thd := 0, max_idx := 0, rng_pos := rng_pos } (by rw [hp]; exact hpos)
  simp only [select_action_pareto, Option.bind_eq_bind, hb, Option.some_bind,
    List.getElem?_eq_getElem hidx]
  exact ⟨_, rfl, List.getElem_mem _⟩

end play_success_lemmas

/-- C14, as stated, fails: the example Pareto agent and the example primal agent, freshly
reset (the root a leaf without children) and with `num_sim = 0`, are bound to the counter
environment, which has the two possible actions 1 and 2; `play` does not complete for either.
`select_action_pareto` reads `children[0]` of the childless root, and the primal `play` asks
the childless root for the action node of the selected action. -/
theorem play_without_simulations_fails :
    (pareto_uct.reset 3 ⟨(2, 2), [], 0⟩ (example_pareto_q 4)).num_sim = 0 ∧
    counter_env_q.possible_actions
      (pareto_uct.reset 3 ⟨(2, 2), [], 0⟩ (example_pareto_q 4)).handler.env = [1, 2] ∧
    (pareto_uct.reset 3 ⟨(2, 2), [], 0⟩ (example_pareto_q 4)).heap =
      [default_state_node 3 ⟨(2, 2), [], 0⟩] ∧
    pareto_uct.play counter_env_q example_curve_ops_q example_externals example_templates
      ⟨(2, 2), [], 0⟩ (pareto_uct.reset 3 ⟨(2, 2), [], 0⟩ (example_pareto_q 4)) 0 = none ∧
    (primal_uct.reset counter_env (first_action_policy _) example_primal).num_sim = 0 ∧
    primal_uct.play counter_env (first_action_policy _)
      (primal_uct.reset counter_env (first_action_policy _) example_primal) = none :=
  ⟨rfl, rfl, rfl, rfl, rfl, rfl⟩

/-- C14, amended. With `num_sim = 0`, `play` produces an action exactly when the root already
has children. For a Pareto agent whose root has at least one child action node, as many
actions as children, and child pointers that are addresses of the heap, `play` with
`num_sim = 0` completes and commits to the handler one of the actions of the root. For an
agent whose root is a leaf with no children (as after `reset`), `play` with `num_sim = 0` does
not complete, for the Pareto agent and for the primal agent alike: there is no fallback. -/
theorem play_without_simulations {S A C K E S2 A2 V2 Q2 K2 E2 : Type}
    [DecidableEq A] [DecidableEq S] [LinearOrderedField K]
    [DecidableEq A2] [DecidableEq S2] [Add K2] [Zero K2]
    (M : environment S A K E) (ops : pareto_curve_ops C K) (ext : pareto_externals C K)
    (T : pareto_templates S A C K E) (init_v : pareto_value C K)
    (ag : pareto_uct S A C K E) (rng_pos : Nat)
    (root_node : state_node S A (pareto_value C K) (pareto_value C K) K)
    (M2 : environment S2 A2 K2 E2) (P : node_policy S2 A2 V2 Q2 K2 (primal_uct_data K2))
    (pg : primal_uct S2 A2 V2 Q2 K2 E2) (proot : state_node S2 A2 V2 Q2 K2)
    (h0 : ag.num_sim = 0) (h1 : ag.heap[ag.root]? = some root_node)
    (g0 : pg.num_sim = 0) (g1 : pg.ts.heap[pg.ts.root]? = some proot) :
    (root_node.children ≠ [] → root_node.actions.length = root_node.children.length →
      (∀ an ∈ root_node.children, ∀ e ∈ an.children, e.2 < ag.heap.length) →
      ∃ r, pareto_uct.play M ops ext T init_v ag rng_pos = some r ∧
        r.2.2 ∈ root_node.actions ∧ r.1.handler = (ag.handler.play_action M r.2.2).2) ∧
    (root_node.children = [] → pareto_uct.play M ops ext T init_v ag rng_pos = none) ∧
    (proot.children = [] → primal_uct.play M2 P pg = none) := by
  have hs : ag.num_sim.toNat = 0 := by rw [h0]; rfl
  have gs : pg.num_sim.toNat = 0 := by rw [g0]; rfl
  refine ⟨?_, ?_, ?_⟩
  · intro hc hp hw
    obtain ⟨sel, hsel, hmem⟩ := select_action_pareto_some ops ext
      { ag.common_data with sample_risk_thd := ag.common_data.risk_thd } rng_pos root_node
      false hc hp
    obtain ⟨i, an, hi, han⟩ := get_child_of_mem root_node sel.1 hmem hp
    obtain ⟨ag', hd⟩ := play_descent_some ops init_v
      { ag with
        common_data := sel.2.1
        handler := (ag.handler.play_action M sel.1).2 } sel.1
      (ag.handler.play_action M sel.1).1 root_node i an h1 hi han
      (fun e he => hw an (List.mem_iff_getElem?.mpr ⟨i, han⟩) e he)
    have hh := play_descent_handler ops init_v _ ag' sel.1 _ hd
    refine ⟨(ag', sel.2.2, sel.1), ?_, hmem, hh⟩
    simp only [pareto_uct.play, pareto_uct.reset_sample_risk_thd, hs,
      pareto_uct.play_simulations,
      Option.bind_eq_bind, Option.some_bind, h1, hsel, hd]
  · intro hc
    simp only [pareto_uct.play, pareto_uct.reset_sample_risk_thd, hs,
      pareto_uct.play_simulations,
      Option.bind_eq_bind, Option.some_bind, h1, select_action_pareto, reward_bounds, hc,
      List.getElem?_nil, Option.none_bind]
  · intro hc
    simp only [primal_uct.play, gs, primal_uct.play_simulations,
      Option.bind_eq_bind, Option.some_bind, g1, state_node.get_child, hc, List.length_nil,
      Nat.not_lt_zero, and_false, ↓reduceIte, Option.none_bind]

/-- C14 amended, at concrete inputs: the example Pareto agent, whose root has the action
nodes of actions 1 and 2, commits action 1 with `num_sim = 0`; the freshly reset primal agent
does not complete `play`. -/
theorem play_without_simulations_witness :
    (∃ r, pareto_uct.play counter_env_q example_curve_ops_q example_externals
        example_templates ⟨(2, 2), [], 0⟩ (example_pareto_q 4) 0 = some r ∧
      r.2.2 ∈ [1, 2] ∧
      r.1.handler = ((example_pareto_q 4).handler.play_action counter_env_q r.2.2).2) ∧
    primal_uct.play counter_env (first_action_policy _)
      (primal_uct.reset counter_env (first_action_policy _) example_primal) = none :=
  have h := play_without_simulations counter_env_q example_curve_ops_q example_externals
    example_templates ⟨(2, 2), [], 0⟩ (example_pareto_q 4) 0 _ counter_env
    (first_action_policy _) (primal_uct.reset counter_env (first_action_policy _) example_primal)
    _ rfl (by rfl) rfl (by rfl)
  ⟨h.1 (List.cons_ne_nil _ _) rfl (by decide), h.2.2 rfl⟩

/-! ## Theorems: propagate -/

section propagate_lemmas

variable {S A V Q K D E : Type}

theorem same_shape_refl (heap : List (state_node S A V Q K)) : same_shape heap heap :=
  fun _ => rfl

theorem same_shape_trans {h1 h2 h3 : List (state_node S A V Q K)} (h12 : same_shape h1 h2)
    (h23 : same_shape h2 h3) : same_shape h1 h3 :=
  fun k => (h23 k).trans (h12 k)

theorem same_shape_set (heap : List (state_node S A V Q K)) (n : Nat)
    (node node' : state_node S A V Q K) (h : heap[n]? = some node)
    (hs : parent_shape node' = parent_shape node) : same_shape heap (heap.set n node') := by
  intro k
  by_cases hk : n = k
  · subst hk
    rw [List.getElem?_set_self (List.getElem?_eq_some.mp h).1, h]
    simp only [Option.map_some', hs]
  · rw [List.getElem?_set_ne hk]

theorem parent_shape_node (heap heap' : List (state_node S A V Q K))
    (h : same_shape heap heap') (n : Nat) :
    (heap'[n]?).map (fun node => node.parent) = (heap[n]?).map (fun node => node.parent) := by
  have := congrArg (Option.map Prod.fst) (h n)
  simpa only [Option.map_map] using this

theorem parent_shape_child (heap heap' : List (state_node S A V Q K))
    (h : same_shape heap heap') (m i : Nat) :
    (child_at heap' m i).map (fun an => an.parent) =
      (child_at heap m i).map (fun an => an.parent) := by
  have h0 := h m
  unfold child_at
  cases h1 : heap[m]? with
  | none =>
    cases h1' : heap'[m]? with
    | none => rfl
    | some node' => simp [h1, h1'] at h0
  | some node =>
    cases h1' : heap'[m]? with
    | none => simp [h1, h1'] at h0
    | some node' =>
      simp only [h1, h1', Option.map_some', parent_shape, Option.some.injEq,
        Prod.mk.injEq] at h0
      have h2 := congrArg (fun l => l[i]?) h0.2
      simpa only [Option.some_bind, List.getElem?_map] using h2

theorem parent_chain_congr (heap heap' : List (state_node S A V Q K))
    (h : same_shape heap heap') :
    ∀ (steps : List (Nat × Nat)) (n : Nat), parent_chain heap n steps →
      parent_chain heap' n steps
  | [], n, hc => by
    unfold parent_chain at hc ⊢
    rw [parent_shape_node heap heap' h]; exact hc
  | s :: rest, n, hc => by
    unfold parent_chain at hc ⊢
    rw [parent_shape_node heap heap' h, parent_shape_child heap heap' h]
    exact ⟨hc.1, hc.2.1, parent_chain_congr heap heap' h rest s.1 hc.2.2⟩

theorem parent_chain_nil (heap : List (state_node S A V Q K)) (n : Nat)
    (h : parent_chain heap n []) : ∃ node, heap[n]? = some node ∧ node.parent = none := by
  unfold parent_chain at h
  cases hn : heap[n]? with
  | none => simp [hn] at h
  | some node => exact ⟨node, rfl, by simpa [hn] using h⟩

theorem parent_chain_cons (heap : List (state_node S A V Q K)) (n : Nat) (s : Nat × Nat)
    (rest : List (Nat × Nat)) (h : parent_chain heap n (s :: rest)) :
    ∃ node holder an, heap[n]? = some node ∧ node.parent = some s ∧
      heap[s.1]? = some holder ∧ holder.children[s.2]? = some an ∧ an.parent = some s.1 ∧
      parent_chain heap s.1 rest := by
  unfold parent_chain at h
  obtain ⟨h1, h2, h3⟩ := h
  unfold child_at at h2
  cases hn : heap[n]? with
  | none => simp [hn] at h1
  | some node =>
    cases hm : heap[s.1]? with
    | none => simp [hm] at h2
    | some holder =>
      cases ha : holder.children[s.2]? with
      | none => simp [hm, ha] at h2
      | some an =>
        exact ⟨node, holder, an, rfl, by simpa [hn] using h1, rfl, ha,
          by simpa [hm, ha] using h2, h3⟩

/-- The parent chain of a node is determined by the heap. -/
theorem parent_chain_unique (heap : List (state_node S A V Q K)) :
    ∀ (l1 l2 : List (Nat × Nat)) (n : Nat), parent_chain heap n l1 → parent_chain heap n l2 →
      l1 = l2
  | [], [], _, _, _ => rfl
  | [], s :: rest, n, h1, h2 => by
    unfold parent_chain at h1 h2
    rw [h1] at h2
    simp at h2
  | s :: rest, [], n, h1, h2 => by
    unfold parent_chain at h1 h2
    rw [h2] at h1
    simp at h1
  | s1 :: r1, s2 :: r2, n, h1, h2 => by
    unfold parent_chain at h1 h2
    have hs : s1 = s2 := by
      have := h1.1.symm.trans h2.1
      simpa using this
    subst hs
    rw [parent_chain_unique heap r1 r2 s1.1 h1.2.2 h2.2.2]

/-- Every state node further up a parent chain has a shorter parent chain. -/
theorem parent_chain_suffix (heap : List (state_node S A V Q K)) :
    ∀ (steps : List (Nat × Nat)) (n x : Nat), parent_chain heap n steps →
      x ∈ steps.map Prod.fst →
      ∃ l, parent_chain heap x l ∧ l.length < steps.length
  | [], _, _, _, hx => by simp at hx
  | s :: rest, n, x, h, hx => by
    unfold parent_chain at h
    rw [List.map_cons, List.mem_cons] at hx
    rcases hx with hx | hx
    · subst hx
      exact ⟨rest, h.2.2, Nat.lt_succ_self _⟩
    · obtain ⟨l, hl, hlen⟩ := parent_chain_suffix heap rest s.1 x h.2.2 hx
      exact ⟨l, hl, Nat.lt_succ_of_lt hlen⟩

/-- The state nodes of a parent chain are pairwise distinct. -/
theorem parent_chain_nodup (heap : List (state_node S A V Q K)) :
    ∀ (steps : List (Nat × Nat)) (n : Nat), parent_chain heap n steps →
      (n :: steps.map Prod.fst).Nodup
  | [], _, _ => by simp
  | s :: rest, n, h => by
    have ih := parent_chain_nodup heap rest s.1 (by unfold parent_chain at h; exact h.2.2)
    rw [List.nodup_cons]
    refine ⟨?_, by simpa using ih⟩
    intro hx
    obtain ⟨l, hl, hlen⟩ := parent_chain_suffix heap (s :: rest) n n h hx
    have := parent_chain_unique heap l (s :: rest) n hl h
    rw [this] at hlen
    exact Nat.lt_irrefl _ hlen

/-- The state nodes of a parent chain are cells of the heap. -/
theorem parent_chain_lt (heap : List (state_node S A V Q K)) :
    ∀ (steps : List (Nat × Nat)) (n : Nat), parent_chain heap n steps →
      ∀ x ∈ n :: steps.map Prod.fst, x < heap.length
  | [], n, h, x, hx => by
    obtain ⟨node, hn, -⟩ := parent_chain_nil heap n h
    simp only [List.map_nil, List.mem_singleton] at hx
    subst hx
    exact (List.getElem?_eq_some.mp hn).1
  | s :: rest, n, h, x, hx => by
    obtain ⟨node, holder, an, hn, -, -, -, -, hr⟩ := parent_chain_cons heap n s rest h
    rw [List.mem_cons] at hx
    rcases hx with hx | hx
    · subst hx
      exact (List.getElem?_eq_some.mp hn).1
    · exact parent_chain_lt heap rest s.1 hr x (by simpa using hx)

/-- A parent chain has fewer steps than the heap has cells. -/
theorem parent_chain_length (heap : List (state_node S A V Q K)) (steps : List (Nat × Nat))
    (n : Nat) (h : parent_chain heap n steps) : steps.length < heap.length := by
  have hnd := parent_chain_nodup heap steps n h
  have hlt := parent_chain_lt heap steps n h
  have hsub : (n :: steps.map Prod.fst).toFinset ⊆ Finset.range heap.length := by
    intro x hx
    rw [List.mem_toFinset] at hx
    exact Finset.mem_range.mpr (hlt x hx)
  have hcard := Finset.card_le_card hsub
  rw [List.toFinset_card_of_nodup hnd, Finset.card_range] at hcard
  simpa using hcard

/-- The call `n->propagate(prev, gamma)` on a state node rewrites its visit count and `v`. -/
theorem state_node_propagate_eq (P : node_policy S A V Q K D) (gamma : K)
    (heap : List (state_node S A V Q K)) (n : Nat) (prev : Option (Nat × Nat))
    (node : state_node S A V Q K) (h : heap[n]? = some node)
    (hp : ∀ p, prev = some p → ∃ an, child_at heap p.1 p.2 = some an) :
    ∃ x, tree_search.state_node_propagate P heap n prev gamma =
      some (heap.set n
        { node with
          num_visits := (P.propagate_v node x gamma).1
          v := (P.propagate_v node x gamma).2 }) := by
  cases prev with
  | none =>
    exact ⟨none, by simp only [tree_search.state_node_propagate, Option.bind_eq_bind, h,
      Option.some_bind]⟩
  | some p =>
    obtain ⟨an, han⟩ := hp p rfl
    unfold child_at at han
    cases hm : heap[p.1]? with
    | none => simp [hm] at han
    | some holder =>
      rw [hm, Option.some_bind] at han
      exact ⟨some an, by simp only [tree_search.state_node_propagate, Option.bind_eq_bind, h,
        Option.some_bind, hm, han]⟩

/-- The call `propagate(child, gamma)` on an action node rewrites its visit count and `q`. -/
theorem action_node_propagate_eq (P : node_policy S A V Q K D) (gamma : K)
    (heap : List (state_node S A V Q K)) (m i c : Nat)
    (holder : state_node S A V Q K) (an : action_node S A Q K) (cn : state_node S A V Q K)
    (h1 : heap[m]? = some holder) (h2 : holder.children[i]? = some an)
    (h3 : heap[c]? = some cn) :
    tree_search.action_node_propagate P heap m i c gamma =
      some (heap.set m
        { holder with
          children := holder.children.set i
            { an with
              num_visits := (P.propagate_q an cn gamma).1
              q := (P.propagate_q an cn gamma).2 } }) := by
  simp only [tree_search.action_node_propagate, Option.bind_eq_bind, h1, Option.some_bind, h2,
    h3, set_action_node_eq _ _ _ _ _ h1]

theorem child_at_set_same (heap : List (state_node S A V Q K)) (n : Nat)
    (node node' : state_node S A V Q K) (h : heap[n]? = some node)
    (hc : node'.children = node.children) (m j : Nat) :
    child_at (heap.set n node') m j = child_at heap m j := by
  unfold child_at
  by_cases hk : n = m
  · subst hk
    rw [List.getElem?_set_self (List.getElem?_eq_some.mp h).1, h]
    simp only [Option.some_bind, hc]
  · rw [List.getElem?_set_ne hk]

theorem child_at_set_child (heap : List (state_node S A V Q K)) (n i : Nat)
    (node : state_node S A V Q K) (x : action_node S A Q K) (h : heap[n]? = some node)
    (m j : Nat) (hne : (m, j) ≠ (n, i)) :
    child_at (heap.set n { node with children := node.children.set i x }) m j =
      child_at heap m j := by
  unfold child_at
  by_cases hk : n = m
  · subst hk
    have hij : i ≠ j := fun e => hne (by rw [e])
    rw [List.getElem?_set_self (List.getElem?_eq_some.mp h).1, h]
    simp only [Option.some_bind, List.getElem?_set_ne hij]
  · rw [List.getElem?_set_ne hk]

/-- One iteration of the loop of `propagate` along a parent chain: the update of the state
node `cur`, then the update of its parent action node `s`. -/
theorem propagate_step_spec (P : node_policy S A V Q K D) (gamma : K)
    (heap : List (state_node S A V Q K)) (cur : Nat) (prev : Option (Nat × Nat))
    (s : Nat × Nat) (rest : List (Nat × Nat)) (hc : parent_chain heap cur (s :: rest))
    (hp : ∀ p, prev = some p → ∃ an, child_at heap p.1 p.2 = some an) :
    ∃ node x holder1 an1 node1 an2,
      heap[cur]? = some node ∧ node.parent = some s ∧
      node1 =
        { node with
          num_visits := (P.propagate_v node x gamma).1
          v := (P.propagate_v node x gamma).2 } ∧
      tree_search.state_node_propagate P heap cur prev gamma = some (heap.set cur node1) ∧
      (heap.set cur node1)[s.1]? = some holder1 ∧ holder1.children[s.2]? = some an1 ∧
      an1.parent = some s.1 ∧
      an2 =
        { an1 with
          num_visits := (P.propagate_q an1 node1 gamma).1
          q := (P.propagate_q an1 node1 gamma).2 } ∧
      tree_search.action_node_propagate P (heap.set cur node1) s.1 s.2 cur gamma =
        some ((heap.set cur node1).set s.1
          { holder1 with children := holder1.children.set s.2 an2 }) ∧
      same_shape heap (heap.set cur node1) ∧
      same_shape (heap.set cur node1) ((heap.set cur node1).set s.1
          { holder1 with children := holder1.children.set s.2 an2 }) := by
  obtain ⟨node, holder, an, hn, hpar, hm, ha, hap, -⟩ := parent_chain_cons heap cur s rest hc
  obtain ⟨x, hx⟩ := state_node_propagate_eq P gamma heap cur prev node hn hp
  have hcur : cur < heap.length := (List.getElem?_eq_some.mp hn).1
  have hs1 : same_shape heap (heap.set cur
      { node with
        num_visits := (P.propagate_v node x gamma).1
        v := (P.propagate_v node x gamma).2 }) :=
    same_shape_set heap cur node _ hn rfl
  have hc1 := parent_chain_congr _ _ hs1 _ _ hc
  obtain ⟨node1, holder1, an1, hn1, -, hm1, ha1, hap1, -⟩ := parent_chain_cons _ cur s rest hc1
  rw [List.getElem?_set_self hcur] at hn1
  simp only [Option.some.injEq] at hn1
  subst hn1
  have hact := action_node_propagate_eq P gamma _ s.1 s.2 cur holder1 an1 _ hm1 ha1
    (List.getElem?_set_self hcur)
  refine ⟨node, x, holder1, an1, _, _, hn, hpar, rfl, hx, hm1, ha1, hap1, rfl, hact, hs1, ?_⟩
  refine same_shape_set _ s.1 holder1 _ hm1 ?_
  simp only [parent_shape, List.map_set, Prod.mk.injEq, true_and]
  apply List.ext_getElem?
  intro j
  by_cases hj : s.2 = j
  · subst hj
    rw [List.getElem?_set_self (by simpa using (List.getElem?_eq_some.mp ha1).1)]
    simp [ha1]
  · rw [List.getElem?_set_ne hj]

/-- The loop of `propagate` and the final update, along a parent chain: they make the calls
of `chain_calls` one after the other, complete, keep the parent references, and leave the
state nodes and the action nodes outside the chain as they were. -/
theorem run_chain_spec (P : node_policy S A V Q K D) (gamma : K) :
    ∀ (steps : List (Nat × Nat)) (heap : List (state_node S A V Q K)) (cur : Nat)
      (prev : Option (Nat × Nat)), parent_chain heap cur steps →
      (∀ p, prev = some p → ∃ an, child_at heap p.1 p.2 = some an) →
      ∃ heap', run_calls P gamma (chain_calls cur prev steps) heap = some heap' ∧
        (∀ fuel, steps.length ≤ fuel →
          (tree_search.propagate_loop P gamma fuel heap prev cur).bind
            (fun r => tree_search.state_node_propagate P r.1 r.2.2 r.2.1 gamma) = some heap') ∧
        same_shape heap heap' ∧
        (∀ k, k ∉ cur :: steps.map Prod.fst → heap'[k]? = heap[k]?) ∧
        (∀ m j, (m, j) ∉ steps → child_at heap' m j = child_at heap m j)
  | [], heap, cur, prev, hc, hp => by
    obtain ⟨node, hn, hpar⟩ := parent_chain_nil heap cur hc
    obtain ⟨x, hx⟩ := state_node_propagate_eq P gamma heap cur prev node hn hp
    obtain ⟨node1, hp1, hc1, hx⟩ : ∃ node1, node1.parent = node.parent ∧
        node1.children = node.children ∧
        tree_search.state_node_propagate P heap cur prev gamma = some (heap.set cur node1) :=
      ⟨_, rfl, rfl, hx⟩
    refine ⟨heap.set cur node1, ?_, ?_,
      same_shape_set heap cur node node1 hn (by simp only [parent_shape, hp1, hc1]), ?_, ?_⟩
    · simp only [chain_calls, run_calls, run_call, hx, Option.some_bind]
    · intro fuel _
      cases fuel with
      | zero =>
        simp only [tree_search.propagate_loop, hn, is_root, hpar, Option.isNone_none,
          Bool.not_true, Bool.false_eq_true, ↓reduceIte, Option.some_bind, hx]
      | succ f =>
        simp only [tree_search.propagate_loop, hn, is_root, hpar, Option.isNone_none,
          Bool.not_true, Bool.false_eq_true, ↓reduceIte, Option.some_bind, hx]
    · intro k hk
      have hne : cur ≠ k := fun e => hk (by simp [e])
      rw [List.getElem?_set_ne hne]
    · intro m j _
      exact child_at_set_same heap cur node node1 hn hc1 m j
  | s :: rest, heap, cur, prev, hc, hp => by
    obtain ⟨node, x, holder1, an1, node1, an2, hn, hpar, hn1, e1, hm1, ha1, hap1, han2, e2,
      hs1, hs2⟩ := propagate_step_spec P gamma heap cur prev s rest hc hp
    have hcur : cur < heap.length := (List.getElem?_eq_some.mp hn).1
    have hs1lt : s.1 < (heap.set cur node1).length := (List.getElem?_eq_some.mp hm1).1
    have hs2lt : s.2 < holder1.children.length := (List.getElem?_eq_some.mp ha1).1
    have hrest : parent_chain ((heap.set cur node1).set s.1
        { holder1 with children := holder1.children.set s.2 an2 }) s.1 rest := by
      have := parent_chain_congr _ _ (same_shape_trans hs1 hs2) _ _ hc
      unfold parent_chain at this
      exact this.2.2
    have hchild : child_at ((heap.set cur node1).set s.1
        { holder1 with children := holder1.children.set s.2 an2 }) s.1 s.2 = some an2 := by
      unfold child_at
      rw [List.getElem?_set_self hs1lt]
      simp only [Option.some_bind, List.getElem?_set_self hs2lt]
    obtain ⟨heap', r1, r2, r3, r4, r5⟩ := run_chain_spec P gamma rest _ s.1 (some s) hrest
      (fun p hp' => by
        simp only [Option.some.injEq] at hp'
        subst hp'
        exact ⟨an2, hchild⟩)
    have hn1' : node1.children = node.children := by rw [hn1]
    have hpar1 : node1.parent = some s := by rw [hn1]; exact hpar
    have hap2 : an2.parent = some s.1 := by rw [han2]; exact hap1
    refine ⟨heap', ?_, ?_, same_shape_trans (same_shape_trans hs1 hs2) r3, ?_, ?_⟩
    · simp only [chain_calls, run_calls, run_call, e1, Option.some_bind, e2, r1]
    · intro fuel hf
      cases fuel with
      | zero => exact absurd hf (by simp)
      | succ f =>
        have hf' : rest.length ≤ f := by simpa using hf
        have := r2 f hf'
        simp only [tree_search.propagate_loop, hn, is_root, hpar, Option.isNone_some,
          Bool.not_false, ↓reduceIte, Option.bind_eq_bind, e1, Option.some_bind,
          List.getElem?_set_self hcur, hpar1, e2, List.getElem?_set_self hs1lt,
          List.getElem?_set_self hs2lt, hap2]
        exact this
    · intro k hk
      simp only [List.map_cons, List.mem_cons, not_or] at hk
      rw [r4 k (by simp only [List.mem_cons, not_or]; exact ⟨hk.2.1, hk.2.2⟩),
        List.getElem?_set_ne (Ne.symm hk.2.1), List.getElem?_set_ne (Ne.symm hk.1)]
    · intro m j hmj
      simp only [List.mem_cons, not_or] at hmj
      rw [r5 m j hmj.2, child_at_set_child _ s.1 s.2 holder1 an2 hm1 m j hmj.1,
        child_at_set_same heap cur node node1 hn hn1' m j]

end propagate_lemmas

section chain_calls_lemmas

/-- The calls along a parent chain in closed form: the update of the first state node, then
for each step the update of the action node with the state node below it as child, followed
by the update of the state node that holds the action node, with that action node. -/
theorem chain_calls_eq : ∀ (steps : List (Nat × Nat)) (cur : Nat) (prev : Option (Nat × Nat)),
    chain_calls cur prev steps = propagate_call.state cur prev ::
      (steps.zip (cur :: steps.map Prod.fst)).flatMap
        (fun x => [propagate_call.action x.1.1 x.1.2 x.2, propagate_call.state x.1.1 (some x.1)])
  | [], cur, prev => rfl
  | s :: rest, cur, prev => by
    simp only [chain_calls, chain_calls_eq rest s.1 (some s), List.map_cons, List.zip_cons_cons,
      List.flatMap_cons, List.cons_append, List.nil_append]

end chain_calls_lemmas

/-- C19. `tree_search::propagate` walks the parent chain exactly once. For a leaf that lies
`d = steps.length` (action, state) steps below a root along the parent references, `propagate`
(its loop bounded by any `fuel ≥ d`; `d` is less than the number of nodes) completes, and its
result is that of these calls made one after the other: the state update of the leaf with no
action node (null), then for each step, from the leaf upwards, the update of the action node
of the step with the state node below it, followed by the update of the state node that holds
the action node, with that action node. The `d + 1` state nodes of the chain are pairwise
distinct, as are the `d` action nodes, so each is updated exactly once; state nodes and action
nodes outside the chain are as before. -/
theorem propagate_walks_parent_chain {S A V Q K D E : Type} (P : node_policy S A V Q K D)
    (fuel : Nat) (t : tree_search S A V Q K D E) (leaf : Nat) (steps : List (Nat × Nat))
    (hc : parent_chain t.heap leaf steps) (hf : steps.length ≤ fuel) :
    ∃ heap', tree_search.propagate P fuel t leaf = some { t with heap := heap' } ∧
      run_calls P t.gamma (chain_calls leaf none steps) t.heap = some heap' ∧
      chain_calls leaf none steps = propagate_call.state leaf none ::
        (steps.zip (leaf :: steps.map Prod.fst)).flatMap
          (fun x => [propagate_call.action x.1.1 x.1.2 x.2,
            propagate_call.state x.1.1 (some x.1)]) ∧
      (leaf :: steps.map Prod.fst).Nodup ∧ steps.Nodup ∧ steps.length < t.heap.length ∧
      (∀ k, k ∉ leaf :: steps.map Prod.fst → heap'[k]? = t.heap[k]?) ∧
      (∀ m j, (m, j) ∉ steps → child_at heap' m j = child_at t.heap m j) := by
  obtain ⟨heap', r1, r2, -, r4, r5⟩ := run_chain_spec P t.gamma steps t.heap leaf none hc
    (fun p hp => absurd hp (by simp))
  have r2' := r2 fuel hf
  have hnd := parent_chain_nodup t.heap steps leaf hc
  refine ⟨heap', ?_, r1, chain_calls_eq steps leaf none, hnd,
    List.Nodup.of_map Prod.fst (List.nodup_cons.mp hnd).2,
    parent_chain_length t.heap steps leaf hc, r4, r5⟩
  simp only [tree_search.propagate, Option.bind_eq_bind]
  cases hloop : tree_search.propagate_loop P t.gamma fuel t.heap none leaf with
  | none => simp [hloop] at r2'
  | some r =>
    simp only [hloop, Option.some_bind] at r2' ⊢
    simp only [r2', Option.some_bind]

/-- C19, at a concrete input: in the tree of the example dual agent after two simulations the
node at address 1 lies one step below the root, its parent being the action node `(0, 0)`;
`propagate` from it updates node 1, the action node `(0, 0)` and the root, once each. -/
theorem propagate_walks_parent_chain_witness :
    parent_chain (example_dual_visited 0).ts.heap 1 [(0, 0)] ∧
    (∃ heap', tree_search.propagate (first_action_policy _) 1 (example_dual_visited 0).ts 1 =
        some { (example_dual_visited 0).ts with heap := heap' } ∧
      run_calls (first_action_policy (dual_uct_data Int)) 1
        [propagate_call.state 1 none, propagate_call.action 0 0 1,
          propagate_call.state 0 (some (0, 0))] (example_dual_visited 0).ts.heap = some heap') ∧
    (tree_search.propagate (first_action_policy _) 1 (example_dual_visited 0).ts 1).map
      (fun t => t.heap.map (fun node =>
        (node.num_visits, node.children.map (fun an => an.num_visits)))) =
      some [(3, [2, 0]), (2, [0, 0])] := by
  obtain ⟨heap', e1, e2, -⟩ := propagate_walks_parent_chain (first_action_policy _) 1
    (example_dual_visited 0).ts 1 [(0, 0)] (by decide) (by decide)
  exact ⟨by decide, ⟨heap', e1, e2⟩, by decide⟩

/-! ## Theorems: visit counts -/

section visit_lemmas

variable {S A V Q K D E : Type}

theorem visit_shape_children_length (node node' : state_node S A V Q K)
    (h : visit_shape node' = visit_shape node) :
    node'.children.length = node.children.length := by
  simp only [visit_shape, Prod.mk.injEq] at h
  have := congrArg List.length h.2.2
  simpa using this

theorem visit_shape_children_visits (node node' : state_node S A V Q K)
    (h : visit_shape node' = visit_shape node) :
    children_visits node' = children_visits node := by
  simp only [visit_shape, Prod.mk.injEq] at h
  have := congrArg (fun l => (l.map Prod.snd).sum) h.2.2
  simpa [children_visits, List.map_map, Function.comp] using this

theorem visit_shape_parents (node node' : state_node S A V Q K)
    (h : visit_shape node' = visit_shape node) (n : Nat)
    (hp : ∀ an ∈ node.children, an.parent = some n) :
    ∀ an ∈ node'.children, an.parent = some n := by
  simp only [visit_shape, Prod.mk.injEq] at h
  intro an han
  have hmem : (an.parent, an.num_visits) ∈
      node'.children.map (fun an => (an.parent, an.num_visits)) :=
    List.mem_map.mpr ⟨an, han, rfl⟩
  rw [h.2.2] at hmem
  obtain ⟨b, hb, hbe⟩ := List.mem_map.mp hmem
  simp only [Prod.mk.injEq] at hbe
  rw [← hbe.1]
  exact hp b hb

theorem grows_refl (heap : List (state_node S A V Q K)) : grows heap heap :=
  ⟨fun _ node h => ⟨node, h, rfl⟩,
   fun _ _ hk h => absurd (List.getElem?_eq_some.mp h).1 (Nat.not_lt.mpr hk)⟩

theorem grows_length {h1 h2 : List (state_node S A V Q K)} (h : grows h1 h2) :
    h1.length ≤ h2.length := by
  by_contra hlt
  push_neg at hlt
  obtain ⟨node2, hn2, -⟩ := h.1 h2.length (h1[h2.length]) (List.getElem?_eq_getElem hlt)
  exact Nat.lt_irrefl _ (List.getElem?_eq_some.mp hn2).1

theorem grows_child_at {h1 h2 : List (state_node S A V Q K)} (h : grows h1 h2) (m j : Nat)
    (an : action_node S A Q K) (hc : child_at h1 m j = some an) :
    ∃ an2, child_at h2 m j = some an2 := by
  unfold child_at at hc ⊢
  cases hm : h1[m]? with
  | none => simp [hm] at hc
  | some holder =>
    rw [hm, Option.some_bind] at hc
    obtain ⟨holder2, hh2, hs⟩ := h.1 m holder hm
    have hj : j < holder2.children.length := by
      rw [visit_shape_children_length holder holder2 hs]
      exact (List.getElem?_eq_some.mp hc).1
    exact ⟨holder2.children[j], by rw [hh2, Option.some_bind]; exact List.getElem?_eq_getElem hj⟩

theorem grows_trans {h1 h2 h3 : List (state_node S A V Q K)} (h12 : grows h1 h2)
    (h23 : grows h2 h3) : grows h1 h3 := by
  refine ⟨?_, ?_⟩
  · intro k node hk
    obtain ⟨n2, hn2, hs2⟩ := h12.1 k node hk
    obtain ⟨n3, hn3, hs3⟩ := h23.1 k n2 hn2
    exact ⟨n3, hn3, hs3.trans hs2⟩
  · intro k node3 hk hn3
    by_cases hk2 : k < h2.length
    · obtain ⟨n3, hn3', hs3⟩ := h23.1 k (h2[k]) (List.getElem?_eq_getElem hk2)
      rw [hn3] at hn3'
      simp only [Option.some.injEq] at hn3'
      subst hn3'
      obtain ⟨c1, c2, s, an, c3, c4, c5⟩ := h12.2 k (h2[k]) hk (List.getElem?_eq_getElem hk2)
      simp only [visit_shape, Prod.mk.injEq] at hs3
      obtain ⟨an3, han3⟩ := grows_child_at h23 s.1 s.2 an c5
      refine ⟨?_, by rw [hs3.2.1, c2], s, an3, by rw [hs3.1, c3], c4, han3⟩
      have := hs3.2.2
      rw [c1] at this
      simpa using this
    · exact h23.2 k node3 (Nat.le_of_not_lt hk2) hn3

theorem grows_set (heap : List (state_node S A V Q K)) (n : Nat)
    (node node' : state_node S A V Q K) (h : heap[n]? = some node)
    (hs : visit_shape node' = visit_shape node) : grows heap (heap.set n node') := by
  refine ⟨?_, ?_⟩
  · intro k x hk
    by_cases hkn : n = k
    · subst hkn
      rw [h] at hk
      simp only [Option.some.injEq] at hk
      subst hk
      exact ⟨node', List.getElem?_set_self (List.getElem?_eq_some.mp h).1, hs⟩
    · exact ⟨x, by rw [List.getElem?_set_ne hkn]; exact hk, rfl⟩
  · intro k x hk hx
    have := (List.getElem?_eq_some.mp hx).1
    rw [List.length_set] at this
    exact absurd this (Nat.not_lt.mpr hk)

theorem grows_set_action_node (heap : List (state_node S A V Q K)) (n i : Nat)
    (node : state_node S A V Q K) (an an' : action_node S A Q K)
    (h1 : heap[n]? = some node) (h2 : node.children[i]? = some an)
    (hp : an'.parent = an.parent) (hv : an'.num_visits = an.num_visits) :
    grows heap (set_action_node heap n i an') := by
  rw [set_action_node_eq heap n i an' node h1]
  refine grows_set heap n node _ h1 ?_
  simp only [visit_shape, List.map_set, Prod.mk.injEq, true_and]
  apply List.ext_getElem?
  intro j
  by_cases hj : i = j
  · subst hj
    rw [List.getElem?_set_self (by simpa using (List.getElem?_eq_some.mp h2).1)]
    simp [h2, hp, hv]
  · rw [List.getElem?_set_ne hj]

theorem grows_append (heap : List (state_node S A V Q K)) (fresh : state_node S A V Q K)
    (s : Nat × Nat) (an : action_node S A Q K) (hc : fresh.children = [])
    (hv : fresh.num_visits = 0) (hp : fresh.parent = some s)
    (ha : child_at heap s.1 s.2 = some an) : grows heap (heap ++ [fresh]) := by
  have hs : s.1 < heap.length := by
    unfold child_at at ha
    cases hm : heap[s.1]? with
    | none => simp [hm] at ha
    | some holder => exact (List.getElem?_eq_some.mp hm).1
  refine ⟨?_, ?_⟩
  · intro k node hk
    exact ⟨node, by rw [List.getElem?_append_left (List.getElem?_eq_some.mp hk).1]; exact hk,
      rfl⟩
  · intro k x hk hx
    have hlt := (List.getElem?_eq_some.mp hx).1
    simp only [List.length_append, List.length_singleton] at hlt
    have hke : k = heap.length := by omega
    subst hke
    rw [List.getElem?_concat_length] at hx
    simp only [Option.some.injEq] at hx
    subst hx
    refine ⟨hc, hv, s, an, hp, hs, ?_⟩
    unfold child_at at ha ⊢
    rw [List.getElem?_append_left hs]
    exact ha

/-- The invariant of the simulation passes carries over to an extended heap. -/
theorem tree_inv_grows (heap heap' : List (state_node S A V Q K)) (cnt : Nat → Nat)
    (hi : tree_inv heap cnt) (hg : grows heap heap') : tree_inv heap' cnt := by
  refine ⟨fun k hk => hi.1 k (Nat.le_trans (grows_length hg) hk), ?_⟩
  intro n node' hn'
  by_cases hn : n < heap.length
  · obtain ⟨node2, hn2, hs⟩ := hg.1 n (heap[n]) (List.getElem?_eq_getElem hn)
    rw [hn'] at hn2
    simp only [Option.some.injEq] at hn2
    subst hn2
    obtain ⟨i1, i2, i3⟩ := hi.2 n (heap[n]) (List.getElem?_eq_getElem hn)
    refine ⟨visit_shape_parents _ _ hs n i1, ?_, ?_⟩
    · intro s hps
      have hps' : (heap[n]).parent = some s := by
        simp only [visit_shape, Prod.mk.injEq] at hs
        rw [← hs.1]; exact hps
      obtain ⟨hlt, an, han⟩ := i2 s hps'
      exact ⟨hlt, grows_child_at hg s.1 s.2 an han⟩
    · rw [visit_shape_children_visits _ _ hs]
      simp only [visit_shape, Prod.mk.injEq] at hs
      rw [hs.2.1]
      exact i3
  · have hk : heap.length ≤ n := Nat.le_of_not_lt hn
    obtain ⟨c1, c2, s, an, c3, c4, c5⟩ := hg.2 n node' hk hn'
    refine ⟨by rw [c1]; simp, ?_, ?_⟩
    · intro s' hs'
      rw [c3] at hs'
      simp only [Option.some.injEq] at hs'
      subst hs'
      exact ⟨c4, an, c5⟩
    · rw [c2, hi.1 n hk]
      simp [children_visits, c1]

end visit_lemmas

section select_grows_lemmas

variable {S A V Q K D E : Type} [DecidableEq A] [DecidableEq S]

omit [DecidableEq A] in
/-- The heap after `add_outcome` extends the heap before it. -/
theorem add_outcome_grows (P : node_policy S A V Q K D) (heap heap1 : List (state_node S A V Q K))
    (n i : Nat) (o : outcome_t S K) (h : add_outcome P heap n i o = some heap1) :
    grows heap heap1 := by
  simp only [add_outcome, Option.bind_eq_bind, Option.bind_eq_some] at h
  obtain ⟨node, hn, an, ha, h⟩ := h
  split at h
  · rename_i c hl
    simp only [Option.bind_eq_some, Option.some.injEq] at h
    obtain ⟨child, hc, h⟩ := h
    subst h
    have hg1 : grows heap (heap.set c { child with terminal := o.is_over }) :=
      grows_set heap c child _ hc rfl
    obtain ⟨nodeX, hX, hXc⟩ : ∃ nodeX,
        (heap.set c { child with terminal := o.is_over })[n]? = some nodeX ∧
        nodeX.children = node.children := by
      by_cases hcn : c = n
      · subst hcn
        rw [hn] at hc
        cases hc
        exact ⟨_, List.getElem?_set_self (List.getElem?_eq_some.mp hn).1, rfl⟩
      · exact ⟨node, by rw [List.getElem?_set_ne hcn]; exact hn, rfl⟩
    exact grows_trans hg1 (grows_set_action_node _ n i nodeX an _ hX (by rw [hXc]; exact ha)
      rfl rfl)
  · simp only [Option.some.injEq] at h
    subst h
    have hnl : n < heap.length := (List.getElem?_eq_some.mp hn).1
    have hg1 : grows heap (heap ++ [fresh_state_node P.init_v n i o]) :=
      grows_append heap _ (n, i) an rfl rfl rfl (by
        unfold child_at
        rw [hn, Option.some_bind]
        exact ha)
    exact grows_trans hg1 (grows_set_action_node _ n i node an _
      (by rw [List.getElem?_append_left hnl]; exact hn) ha rfl rfl)

/-- The heap after `descend_update` extends the heap before it. -/
theorem descend_update_grows (P : node_policy S A V Q K D) (t t2 : tree_search S A V Q K D E)
    (n : Nat) (a : A) (s : S) (e : Bool) (h : descend_update P t n a s e = some t2) :
    grows t.heap t2.heap := by
  simp only [descend_update, Option.bind_eq_bind, Option.bind_eq_some, Option.some.injEq] at h
  obtain ⟨node, hn, i, -, an, ha, c, -, new_state, -, new_state1, hc1, h⟩ := h
  subst h
  have g1 := grows_set_action_node t.heap n i node an
    { an with q := (P.descend_callback t.common_data node a an s new_state).2.1 } hn ha rfl rfl
  have g2 := grows_set _ c new_state1
    { new_state1 with v := (P.descend_callback t.common_data node a an s new_state).2.2 } hc1 rfl
  exact grows_trans g1 g2

/-- The heap after one iteration of the loop of `select` extends the heap before it. -/
theorem select_step_grows (M : environment S A K E) (P : node_policy S A V Q K D)
    (t : tree_search S A V Q K D E) (cur : Nat) (r : tree_search S A V Q K D E × Nat)
    (h : tree_search.select_step M P t cur = some r) : grows t.heap r.1.heap := by
  simp only [tree_search.select_step, Option.bind_eq_bind, Option.bind_eq_some,
    Option.some.injEq] at h
  obtain ⟨node, -, i, -, heap1, h1, t2, h2, node2, -, an, -, c, -, h⟩ := h
  subst h
  exact grows_trans (add_outcome_grows P _ _ _ _ _ h1) (descend_update_grows P _ _ _ _ _ _ h2)

/-- The heap after the loop of `select` extends the heap before it, and the node the loop
returns is a cell of it. -/
theorem select_loop_grows (M : environment S A K E) (P : node_policy S A V Q K D) :
    ∀ (fuel : Nat) (t : tree_search S A V Q K D E) (cur : Nat) (depth : Int)
      (r : tree_search S A V Q K D E × Nat × Int),
      tree_search.select_loop M P fuel t cur depth = some r →
      grows t.heap r.1.heap ∧ r.2.1 < r.1.heap.length
  | 0, t, cur, depth, r, h => by
    simp only [tree_search.select_loop] at h
    cases hn : t.heap[cur]? with
    | none => simp [hn] at h
    | some node =>
      simp only [hn] at h
      split at h
      · exact absurd h (by simp)
      · simp only [Option.some.injEq] at h
        subst h
        exact ⟨grows_refl _, (List.getElem?_eq_some.mp hn).1⟩
  | fuel + 1, t, cur, depth, r, h => by
    simp only [tree_search.select_loop] at h
    cases hn : t.heap[cur]? with
    | none => simp [hn] at h
    | some node =>
      simp only [hn] at h
      split at h
      · cases hs : tree_search.select_step M P t cur with
        | none => simp [hs] at h
        | some r1 =>
          simp only [hs] at h
          obtain ⟨g, hl⟩ := select_loop_grows M P fuel r1.1 r1.2 (depth + 1) r h
          exact ⟨grows_trans (select_step_grows M P t cur r1 hs) g, hl⟩
      · simp only [Option.some.injEq] at h
        subst h
        exact ⟨grows_refl _, (List.getElem?_eq_some.mp hn).1⟩

/-- The heap after `select` extends the heap before it, and the leaf is a cell of it. -/
theorem select_grows (M : environment S A K E) (P : node_policy S A V Q K D)
    (t : tree_search S A V Q K D E) (r : tree_search S A V Q K D E × Nat)
    (h : tree_search.select M P t = some r) :
    grows t.heap r.1.heap ∧ r.2 < r.1.heap.length := by
  simp only [tree_search.select, Option.bind_eq_bind, Option.bind_eq_some,
    Option.some.injEq] at h
  obtain ⟨r1, h1, h⟩ := h
  subst h
  exact select_loop_grows M P _ t t.root 0 r1 h1

end select_grows_lemmas

section pass_lemmas

variable {S A V Q K D E : Type}

theorem same_shape_get {heap heap' : List (state_node S A V Q K)} (h : same_shape heap heap')
    (n : Nat) (node' : state_node S A V Q K) (hn : heap'[n]? = some node') :
    ∃ node, heap[n]? = some node ∧ parent_shape node' = parent_shape node := by
  have h0 := h n
  cases h1 : heap[n]? with
  | none => simp [h1, hn] at h0
  | some node => exact ⟨node, rfl, by simpa [h1, hn] using h0⟩

theorem same_shape_length {heap heap' : List (state_node S A V Q K)}
    (h : same_shape heap heap') : heap'.length = heap.length := by
  apply Nat.le_antisymm
  · by_contra hlt
    push_neg at hlt
    obtain ⟨node, hn, -⟩ := same_shape_get h heap.length (heap'[heap.length])
      (List.getElem?_eq_getElem hlt)
    exact Nat.lt_irrefl _ (List.getElem?_eq_some.mp hn).1
  · by_contra hlt
    push_neg at hlt
    have h0 := h heap'.length
    rw [List.getElem?_eq_getElem hlt, List.getElem?_eq_none (Nat.le_refl _)] at h0
    simp at h0

theorem children_visits_zero (node : state_node S A V Q K)
    (h : ∀ an ∈ node.children, an.num_visits = 0) : children_visits node = 0 := by
  unfold children_visits
  apply List.sum_eq_zero
  intro x hx
  obtain ⟨an, han, rfl⟩ := List.mem_map.mp hx
  exact h an han

theorem sum_map_set {α : Type} (f : α → Nat) :
    ∀ (l : List α) (i : Nat) (a x : α), l[i]? = some a → f x = f a + 1 →
      ((l.set i x).map f).sum = (l.map f).sum + 1
  | [], i, a, x, h, _ => by simp at h
  | b :: l, 0, a, x, h, hx => by
    simp only [List.getElem?_cons_zero, Option.some.injEq] at h
    subst h
    simp only [List.set_cons_zero, List.map_cons, List.sum_cons, hx]
    omega
  | b :: l, i + 1, a, x, h, hx => by
    simp only [List.getElem?_cons_succ] at h
    simp only [List.set_cons_succ, List.map_cons, List.sum_cons, sum_map_set f l i a x h hx]
    omega

/-- A tree that satisfies the invariant has a parent chain from each of its nodes. -/
theorem tree_inv_chain (heap : List (state_node S A V Q K)) (cnt : Nat → Nat)
    (hi : tree_inv heap cnt) :
    ∀ (b n : Nat), n < b → n < heap.length → ∃ steps, parent_chain heap n steps
  | 0, n, hb, _ => absurd hb (Nat.not_lt_zero n)
  | b + 1, n, hb, hn => by
    obtain ⟨-, i2, -⟩ := hi.2 n (heap[n]) (List.getElem?_eq_getElem hn)
    cases hp : (heap[n]).parent with
    | none =>
      refine ⟨[], ?_⟩
      unfold parent_chain
      rw [List.getElem?_eq_getElem hn, Option.map_some', hp]
    | some s =>
      obtain ⟨hlt, an, han⟩ := i2 s hp
      have hs : s.1 < heap.length := Nat.lt_trans hlt hn
      obtain ⟨rest, hrest⟩ := tree_inv_chain heap cnt hi b s.1 (by omega) hs
      refine ⟨s :: rest, ?_⟩
      unfold parent_chain
      refine ⟨by rw [List.getElem?_eq_getElem hn, Option.map_some', hp], ?_, hrest⟩
      rw [han, Option.map_some']
      have hmem : an ∈ (heap[s.1]).children := by
        unfold child_at at han
        rw [List.getElem?_eq_getElem hs, Option.some_bind] at han
        exact List.getElem?_mem han
      rw [(hi.2 s.1 (heap[s.1]) (List.getElem?_eq_getElem hs)).1 an hmem]

/-- The update of a state node that owes one visit restores the count. -/
theorem state_update_visits (heap : List (state_node S A V Q K)) (cur : Nat)
    (node node1 : state_node S A V Q K) (cnt : Nat → Nat) (hn : heap[cur]? = some node)
    (h1 : node1.num_visits = node.num_visits + 1) (h2 : node1.children = node.children)
    (ho : ∀ (n : Nat) (x : state_node S A V Q K), heap[n]? = some x →
      x.num_visits + (if n = cur then 1 else 0) = children_visits x + cnt n) :
    ∀ (n : Nat) (x : state_node S A V Q K), (heap.set cur node1)[n]? = some x →
      x.num_visits = children_visits x + cnt n := by
  intro n x hx
  by_cases hc : cur = n
  · subst hc
    rw [List.getElem?_set_self (List.getElem?_eq_some.mp hn).1] at hx
    simp only [Option.some.injEq] at hx
    subst hx
    have := ho cur node hn
    simp only [↓reduceIte] at this
    rw [h1, this]
    simp only [children_visits, h2]
  · rw [List.getElem?_set_ne hc] at hx
    have := ho n x hx
    rw [if_neg (Ne.symm hc)] at this
    simpa using this

/-- After the update of an action node the state node that holds it owes one visit. -/
theorem action_update_visits (heap : List (state_node S A V Q K)) (m i : Nat)
    (holder : state_node S A V Q K) (an an2 : action_node S A Q K) (cnt : Nat → Nat)
    (hm : heap[m]? = some holder) (ha : holder.children[i]? = some an)
    (h1 : an2.num_visits = an.num_visits + 1)
    (he : ∀ (n : Nat) (x : state_node S A V Q K), heap[n]? = some x →
      x.num_visits = children_visits x + cnt n) :
    ∀ (n : Nat) (x : state_node S A V Q K),
      (heap.set m { holder with children := holder.children.set i an2 })[n]? = some x →
      x.num_visits + (if n = m then 1 else 0) = children_visits x + cnt n := by
  intro n x hx
  by_cases hc : m = n
  · subst hc
    rw [List.getElem?_set_self (List.getElem?_eq_some.mp hm).1] at hx
    simp only [Option.some.injEq] at hx
    subst hx
    simp only [↓reduceIte, children_visits]
    rw [sum_map_set (fun an => an.num_visits) holder.children i an an2 ha h1]
    have := he m holder hm
    unfold children_visits at this
    omega
  · rw [List.getElem?_set_ne hc] at hx
    rw [if_neg (Ne.symm hc)]
    exact he n x hx

/-- The visit counts after the calls of `propagate` along a parent chain, for callbacks that
each add one to the visit count of the node they are called on. -/
theorem run_chain_visits (P : node_policy S A V Q K D) (gamma : K)
    (hv : ∀ node an g, (P.propagate_v node an g).1 = node.num_visits + 1)
    (hq : ∀ an cn g, (P.propagate_q an cn g).1 = an.num_visits + 1) :
    ∀ (steps : List (Nat × Nat)) (heap : List (state_node S A V Q K)) (cur : Nat)
      (prev : Option (Nat × Nat)), parent_chain heap cur steps →
      (∀ p, prev = some p → ∃ an, child_at heap p.1 p.2 = some an) →
      ∀ heap', run_calls P gamma (chain_calls cur prev steps) heap = some heap' →
      ∀ cnt : Nat → Nat,
        (∀ (n : Nat) (x : state_node S A V Q K), heap[n]? = some x →
          x.num_visits + (if n = cur then 1 else 0) = children_visits x + cnt n) →
        ∀ (n : Nat) (x : state_node S A V Q K), heap'[n]? = some x →
          x.num_visits = children_visits x + cnt n
  | [], heap, cur, prev, hc, hp, heap', hr, cnt, ho => by
    obtain ⟨node, hn, -⟩ := parent_chain_nil heap cur hc
    obtain ⟨x, hx⟩ := state_node_propagate_eq P gamma heap cur prev node hn hp
    simp only [chain_calls, run_calls, run_call, hx, Option.some_bind,
      Option.some.injEq] at hr
    subst hr
    exact state_update_visits heap cur node _ cnt hn (hv node x gamma) rfl ho
  | s :: rest, heap, cur, prev, hc, hp, heap', hr, cnt, ho => by
    obtain ⟨node, x, holder1, an1, node1, an2, hn, hpar, hn1, e1, hm1, ha1, hap1, han2, e2,
      hs1, hs2⟩ := propagate_step_spec P gamma heap cur prev s rest hc hp
    simp only [chain_calls, run_calls, run_call, e1, Option.some_bind, e2] at hr
    have hs1lt : s.1 < (heap.set cur node1).length := (List.getElem?_eq_some.mp hm1).1
    have hs2lt : s.2 < holder1.children.length := (List.getElem?_eq_some.mp ha1).1
    have hrest : parent_chain ((heap.set cur node1).set s.1
        { holder1 with children := holder1.children.set s.2 an2 }) s.1 rest := by
      have := parent_chain_congr _ _ (same_shape_trans hs1 hs2) _ _ hc
      unfold parent_chain at this
      exact this.2.2
    have hchild : child_at ((heap.set cur node1).set s.1
        { holder1 with children := holder1.children.set s.2 an2 }) s.1 s.2 = some an2 := by
      unfold child_at
      rw [List.getElem?_set_self hs1lt]
      simp only [Option.some_bind, List.getElem?_set_self hs2lt]
    have h1 := state_update_visits heap cur node node1 cnt hn
      (by rw [hn1]; exact hv node x gamma) (by rw [hn1]) ho
    have h2 := action_update_visits (heap.set cur node1) s.1 s.2 holder1 an1 an2 cnt hm1 ha1
      (by rw [han2]; exact hq an1 node1 gamma) h1
    exact run_chain_visits P gamma hv hq rest _ s.1 (some s) hrest
      (fun p hp' => by
        simp only [Option.some.injEq] at hp'
        subst hp'
        exact ⟨an2, hchild⟩) heap' hr cnt h2

end pass_lemmas

section pass_inv_lemmas

variable {S A V Q K D E : Type}

theorem parent_shape_parents (node node' : state_node S A V Q K)
    (h : parent_shape node' = parent_shape node) (n : Nat)
    (hp : ∀ an ∈ node.children, an.parent = some n) :
    ∀ an ∈ node'.children, an.parent = some n := by
  simp only [parent_shape, Prod.mk.injEq] at h
  intro an han
  have hmem : an.parent ∈ node'.children.map (fun an => an.parent) :=
    List.mem_map.mpr ⟨an, han, rfl⟩
  rw [h.2] at hmem
  obtain ⟨b, hb, hbe⟩ := List.mem_map.mp hmem
  rw [← hbe]
  exact hp b hb

/-- From a leaf of a tree that satisfies the invariant, `propagate` bounded by the number of
nodes completes, and the invariant holds again with one more pass counted for the leaf. -/
theorem propagate_inv (P : node_policy S A V Q K D)
    (hv : ∀ node an g, (P.propagate_v node an g).1 = node.num_visits + 1)
    (hq : ∀ an cn g, (P.propagate_q an cn g).1 = an.num_visits + 1)
    (t : tree_search S A V Q K D E) (cnt : Nat → Nat) (leaf : Nat)
    (hi : tree_inv t.heap cnt) (hl : leaf < t.heap.length) :
    ∃ t', tree_search.propagate P t.heap.length t leaf = some t' ∧
      tree_inv t'.heap (fun k => cnt k + if k = leaf then 1 else 0) := by
  obtain ⟨steps, hc⟩ := tree_inv_chain t.heap cnt hi (leaf + 1) leaf (Nat.lt_succ_self _) hl
  obtain ⟨heap', r1, r2, r3, -, -⟩ := run_chain_spec P t.gamma steps t.heap leaf none hc
    (fun p hp => absurd hp (by simp))
  have r2' := r2 t.heap.length (Nat.le_of_lt (parent_chain_length t.heap steps leaf hc))
  refine ⟨{ t with heap := heap' }, ?_, ?_, ?_⟩
  · simp only [tree_search.propagate, Option.bind_eq_bind]
    cases hloop : tree_search.propagate_loop P t.gamma t.heap.length t.heap none leaf with
    | none => simp [hloop] at r2'
    | some r =>
      simp only [hloop, Option.some_bind] at r2' ⊢
      simp only [r2', Option.some_bind]
  · intro k hk
    simp only at hk
    rw [same_shape_length r3] at hk
    have hne : k ≠ leaf := fun e => by omega
    simp only [hi.1 k hk, if_neg hne]
  · intro n node' hn'
    simp only at hn'
    obtain ⟨node, hn, hs⟩ := same_shape_get r3 n node' hn'
    obtain ⟨i1, i2, i3⟩ := hi.2 n node hn
    refine ⟨parent_shape_parents _ _ hs n i1, ?_, ?_⟩
    · intro s hps
      have hps' : node.parent = some s := by
        simp only [parent_shape, Prod.mk.injEq] at hs
        rw [← hs.1]; exact hps
      obtain ⟨hlt, an, han⟩ := i2 s hps'
      refine ⟨hlt, ?_⟩
      have := parent_shape_child t.heap heap' r3 s.1 s.2
      rw [han] at this
      cases hc' : child_at heap' s.1 s.2 with
      | none => simp [hc'] at this
      | some an' => exact ⟨an', rfl⟩
    · exact run_chain_visits P t.gamma hv hq steps t.heap leaf none hc
        (fun p hp => absurd hp (by simp)) heap' r1
        (fun k => cnt k + if k = leaf then 1 else 0)
        (fun m x hx => by
          have := (hi.2 m x hx).2.2
          simp only
          omega) n node' hn'

/-- The invariant of the simulation passes is kept by `expand`. -/
theorem expand_inv (M : environment S A K E) (P : node_policy S A V Q K D)
    (he : expand_allocates P) (t t1 : tree_search S A V Q K D E) (cnt : Nat → Nat)
    (leaf : Nat) (hi : tree_inv t.heap cnt) (h : tree_search.expand M P t leaf = some t1) :
    tree_inv t1.heap cnt ∧ t1.heap.length = t.heap.length := by
  simp only [tree_search.expand, Option.bind_eq_bind, Option.bind_eq_some,
    Option.some.injEq] at h
  obtain ⟨node, hn, h⟩ := h
  subst h
  refine ⟨?_, by simp⟩
  obtain ⟨e1, e2, e3⟩ := he (M.possible_actions t.handler.env) leaf node
  have hleaf : leaf < t.heap.length := (List.getElem?_eq_some.mp hn).1
  rcases e3 with e3 | ⟨hnil, e3⟩
  · exact tree_inv_grows _ _ cnt hi (grows_set t.heap leaf node _ hn
      (by simp only [visit_shape, e1, e2, e3]))
  · refine ⟨fun k hk => hi.1 k (by simpa using hk), ?_⟩
    intro n x hx
    simp only at hx
    have hchild : ∀ (s : Nat × Nat) (an : action_node S A Q K),
        child_at t.heap s.1 s.2 = some an →
        ∃ an', child_at (t.heap.set leaf
          (P.expand (M.possible_actions t.handler.env) leaf node)) s.1 s.2 = some an' := by
      intro s an han
      by_cases hsl : leaf = s.1
      · unfold child_at at han
        rw [← hsl, hn, Option.some_bind, hnil] at han
        simp at han
      · exact ⟨an, by
          unfold child_at at han ⊢
          rw [List.getElem?_set_ne hsl]
          exact han⟩
    by_cases hc : leaf = n
    · subst hc
      rw [List.getElem?_set_self hleaf] at hx
      simp only [Option.some.injEq] at hx
      subst hx
      obtain ⟨-, i2, i3⟩ := hi.2 leaf node hn
      refine ⟨fun an han => (e3 an han).1, ?_, ?_⟩
      · intro s hs
        rw [e1] at hs
        obtain ⟨hlt, an, han⟩ := i2 s hs
        exact ⟨hlt, hchild s an han⟩
      · rw [e2, i3, children_visits_zero _ (fun an han => (e3 an han).2)]
        simp [children_visits, hnil]
    · rw [List.getElem?_set_ne hc] at hx
      obtain ⟨i1, i2, i3⟩ := hi.2 n x hx
      refine ⟨i1, ?_, i3⟩
      intro s hs
      obtain ⟨hlt, an, han⟩ := i2 s hs
      exact ⟨hlt, hchild s an han⟩

variable [DecidableEq A] [DecidableEq S]

/-- A simulation pass completes as soon as its `select` does. -/
theorem simulation_pass_completes (M : environment S A K E) (P : node_policy S A V Q K D)
    (hv : ∀ node an g, (P.propagate_v node an g).1 = node.num_visits + 1)
    (hq : ∀ an cn g, (P.propagate_q an cn g).1 = an.num_visits + 1)
    (he : expand_allocates P) (t : tree_search S A V Q K D E) (cnt : Nat → Nat)
    (hi : tree_inv t.heap cnt) (sel : tree_search S A V Q K D E × Nat)
    (hsel : tree_search.select M P t = some sel) :
    ∃ t', simulation_pass M P t = some (t', sel.2) ∧
      tree_inv t'.heap (fun k => cnt k + if k = sel.2 then 1 else 0) := by
  obtain ⟨hg, hl⟩ := select_grows M P t sel hsel
  have hi1 := tree_inv_grows _ _ cnt hi hg
  obtain ⟨t1, ht1⟩ : ∃ t1, tree_search.expand M P sel.1 sel.2 = some t1 := by
    simp only [tree_search.expand, Option.bind_eq_bind, List.getElem?_eq_getElem hl,
      Option.some_bind]
    exact ⟨_, rfl⟩
  obtain ⟨hi2, hlen⟩ := expand_inv M P he sel.1 t1 cnt sel.2 hi1 ht1
  obtain ⟨t', hp, hi3⟩ := propagate_inv P hv hq t1 cnt sel.2 hi2 (by rw [hlen]; exact hl)
  exact ⟨t', by simp only [simulation_pass, Option.bind_eq_bind, hsel, Option.some_bind, ht1,
    hp], hi3⟩

/-- The invariant after `n` simulation passes, each leaf counted. -/
theorem simulation_passes_inv (M : environment S A K E) (P : node_policy S A V Q K D)
    (hv : ∀ node an g, (P.propagate_v node an g).1 = node.num_visits + 1)
    (hq : ∀ an cn g, (P.propagate_q an cn g).1 = an.num_visits + 1)
    (he : expand_allocates P) :
    ∀ (n : Nat) (t : tree_search S A V Q K D E) (cnt : Nat → Nat)
      (r : tree_search S A V Q K D E × List Nat), tree_inv t.heap cnt →
      simulation_passes M P n t = some r →
      tree_inv r.1.heap (fun k => cnt k + r.2.count k)
  | 0, t, cnt, r, hi, h => by
    simp only [simulation_passes, Option.some.injEq] at h
    subst h
    simpa using hi
  | n + 1, t, cnt, r, hi, h => by
    simp only [simulation_passes] at h
    cases hp : simulation_pass M P t with
    | none => simp [hp] at h
    | some r1 =>
      simp only [hp] at h
      cases hps : simulation_passes M P n r1.1 with
      | none => simp [hps] at h
      | some x =>
        simp only [hps, Option.some.injEq] at h
        subst h
        obtain ⟨sel, hsel⟩ : ∃ sel, tree_search.select M P t = some sel := by
          cases hs : tree_search.select M P t with
          | none => simp [simulation_pass, hs] at hp
          | some sel => exact ⟨sel, rfl⟩
        obtain ⟨t', hp', hi1⟩ := simulation_pass_completes M P hv hq he t cnt hi sel hsel
        rw [hp] at hp'
        simp only [Option.some.injEq] at hp'
        subst hp'
        have := simulation_passes_inv M P hv hq he n t' _ x hi1 hps
        have hfun : (fun k => cnt k + (sel.2 :: x.2).count k) =
            (fun k => (cnt k + if k = sel.2 then 1 else 0) + x.2.count k) := by
          funext k
          rw [List.count_cons]
          by_cases hk : k = sel.2
          · subst hk; simp; omega
          · have hk' : ¬ (sel.2 = k) := fun e => hk e.symm
            simp [hk, hk']
        simp only
        rw [hfun]
        exact this

omit [DecidableEq A] [DecidableEq S] in
/-- A freshly reset tree satisfies the invariant, no pass counted. -/
theorem reset_inv (M : environment S A K E) (P : node_policy S A V Q K D)
    (t : tree_search S A V Q K D E) : tree_inv (tree_search.reset M P t).heap (fun _ => 0) := by
  refine ⟨fun _ _ => rfl, ?_⟩
  intro n node hn
  simp only [tree_search.reset] at hn
  cases n with
  | zero =>
    simp only [List.getElem?_cons_zero, Option.some.injEq] at hn
    subst hn
    exact ⟨by simp, by simp, by simp [children_visits]⟩
  | succ m => simp at hn

end pass_inv_lemmas

section visits_claim_lemmas

variable {S A V Q K D E : Type} [DecidableEq A] [DecidableEq S]

/-- One leaf is recorded for each simulation pass. -/
theorem simulation_passes_length (M : environment S A K E) (P : node_policy S A V Q K D) :
    ∀ (n : Nat) (t : tree_search S A V Q K D E) (r : tree_search S A V Q K D E × List Nat),
      simulation_passes M P n t = some r → r.2.length = n
  | 0, t, r, h => by
    simp only [simulation_passes, Option.some.injEq] at h
    subst h
    rfl
  | n + 1, t, r, h => by
    simp only [simulation_passes] at h
    cases hp : simulation_pass M P t with
    | none => simp [hp] at h
    | some r1 =>
      simp only [hp] at h
      cases hps : simulation_passes M P n r1.1 with
      | none => simp [hps] at h
      | some x =>
        simp only [hps, Option.some.injEq] at h
        subst h
        simp only [List.length_cons, simulation_passes_length M P n r1.1 x hps]

end visits_claim_lemmas

/-- The example policy's `expand` allocates action nodes as the specification says. -/
theorem first_action_policy_allocates (D : Type) : expand_allocates (first_action_policy D) := by
  intro actions n node
  simp only [first_action_policy]
  split
  · rename_i hc
    refine ⟨rfl, rfl, Or.inr ⟨List.isEmpty_iff.mp hc, ?_⟩⟩
    intro an han
    obtain ⟨a, -, rfl⟩ := List.mem_map.mp han
    exact ⟨rfl, rfl⟩
  · exact ⟨rfl, rfl, Or.inl rfl⟩

/-- C11, as stated, fails: after the first full simulation pass from the freshly reset tree
of the example agent (the callbacks of the example policy each add one to `num_visits`),
`select` has returned the root, the only node, whose `num_visits` is 1 while its two child
action nodes have no visits: the sum over the children is 0. -/
theorem visits_count_first_pass :
    (∀ n an g, ((first_action_policy (dual_uct_data Int)).propagate_v n an g).1 =
      n.num_visits + 1) ∧
    (∀ an cn g, ((first_action_policy (dual_uct_data Int)).propagate_q an cn g).1 =
      an.num_visits + 1) ∧
    (simulation_passes counter_env (first_action_policy _) 1
      ((example_dual 0).ts.reset counter_env (first_action_policy _))).map
      (fun r => (r.2, r.1.heap.map (fun node =>
        (node.num_visits, node.children.map (fun an => an.num_visits), children_visits node)))) =
      some ([0], [(1, [0, 0], 0)]) :=
  ⟨fun _ _ _ => rfl, fun _ _ _ => rfl, by decide⟩

/-- C11, amended. After every full simulation pass (select, expand of the returned leaf,
propagate from that leaf to the root), with propagation callbacks that each add one to
`num_visits` of the node they are called on and an `expand` that allocates unvisited action
nodes, every state node of the tree satisfies `num_visits` = sum of `num_visits` over its child
action nodes + the number of passes so far in which `select` returned that node as the leaf,
starting from a freshly reset tree whose counts are all zero. A further pass completes as
soon as its `select` does. -/
theorem visits_count_leaf_passes {S A V Q K D E : Type} [DecidableEq A] [DecidableEq S]
    (M : environment S A K E) (P : node_policy S A V Q K D)
    (hv : ∀ node an g, (P.propagate_v node an g).1 = node.num_visits + 1)
    (hq : ∀ an cn g, (P.propagate_q an cn g).1 = an.num_visits + 1)
    (he : expand_allocates P) (t : tree_search S A V Q K D E) (n : Nat)
    (r : tree_search S A V Q K D E × List Nat)
    (h : simulation_passes M P n (t.reset M P) = some r) :
    r.2.length = n ∧
    (∀ (k : Nat) (node : state_node S A V Q K), r.1.heap[k]? = some node →
      node.num_visits = children_visits node + r.2.count k) ∧
    (∀ sel, tree_search.select M P r.1 = some sel →
      ∃ t', simulation_pass M P r.1 = some (t', sel.2)) := by
  have hi := simulation_passes_inv M P hv hq he n (t.reset M P) (fun _ => 0) r
    (reset_inv M P t) h
  refine ⟨simulation_passes_length M P n _ r h, ?_, ?_⟩
  · intro k node hk
    have := (hi.2 k node hk).2.2
    simpa using this
  · intro sel hsel
    obtain ⟨t', ht', -⟩ := simulation_pass_completes M P hv hq he r.1 _ hi sel hsel
    exact ⟨t', ht'⟩

/-- C11 amended, at a concrete input: three passes of the example agent from the freshly
reset tree select the root, then the node at address 1, then the node at address 2; the root
has 3 visits, its children 2 and 0, and was the leaf once. The Pareto callbacks add one to
`num_visits`. -/
theorem visits_count_leaf_passes_witness :
    example_passes.2 = [0, 1, 2] ∧
    example_passes.1.heap.map (fun node => (node.num_visits, children_visits node)) =
      [(3, 2), (2, 1), (1, 0)] ∧
    (∀ (k : Nat) (node : state_node Nat Nat Int Int Int), example_passes.1.heap[k]? = some node →
      node.num_visits = children_visits node + example_passes.2.count k) ∧
    (∀ sn : state_node Nat Nat (pareto_value (Int × Int) Int) (pareto_value (Int × Int) Int) Int,
      (pareto_prop_v_value example_curve_ops sn 0 0).num_visits = sn.num_visits + 1) ∧
    (∀ an : action_node Nat Nat (pareto_value (Int × Int) Int) Int,
      (pareto_prop_q_value example_curve_ops an 0 0).num_visits = an.num_visits + 1) :=
  ⟨by decide, by decide,
   (visits_count_leaf_passes counter_env (first_action_policy _) (fun _ _ _ => rfl)
      (fun _ _ _ => rfl) (first_action_policy_allocates _) (example_dual 0).ts 3 example_passes
      (by rfl)).2.1, fun _ => rfl, fun _ => rfl⟩

/-! ## Theorems: `select_action_pareto` on a single child -/

/-- C21. For a node with exactly one child (and, as in every tree, as many actions as
children), the nested loops of `select_action_pareto` visit no pair, so `mix` is never
called and no random variate is drawn (the number of variates drawn is unchanged): for every
value of `sample_risk_thd` on entry, every curve of the child, every `mix` and both values of
`explore`, the function returns `actions[0]` and sets `common_data.sample_risk_thd` to 0. -/
theorem select_action_pareto_single_child {S A C K : Type} [LinearOrderedField K]
    (ops : pareto_curve_ops C K) (ext : pareto_externals C K) (common_data : pareto_uct_data K)
    (rng_pos : Nat) (node : state_node S A (pareto_value C K) (pareto_value C K) K)
    (explore : Bool) (child : action_node S A (pareto_value C K) K)
    (hc : node.children = [child]) (hp : node.actions.length = node.children.length) :
    pareto_pairs (uct_bonus ext common_data.exploration_constant node.num_visits explore
      node.children) node.children = [] ∧
    ∃ a, node.actions[0]? = some a ∧
      select_action_pareto ops ext common_data rng_pos node explore =
        some (a, { common_data with sample_risk_thd := 0 }, rng_pos) := by
  have hpairs : pareto_pairs (uct_bonus ext common_data.exploration_constant node.num_visits
      explore node.children) node.children = [] := by
    rw [hc]
    rfl
  have hlen : 0 < node.actions.length := by rw [hp, hc]; exact Nat.zero_lt_one
  obtain ⟨b, hb⟩ := reward_bounds_some ops node.children child (by rw [hc]; rfl)
  refine ⟨hpairs, node.actions[0], List.getElem?_eq_getElem hlen, ?_⟩
  simp only [select_action_pareto, Option.bind_eq_bind, hb, Option.some_bind, hpairs,
    List.foldl_nil, List.getElem?_eq_getElem hlen]

/-- C21, at concrete inputs: on the example node with the single action 7, entered with
`sample_risk_thd = 1/2` and with three variates drawn so far, `select_action_pareto` returns
7, leaves `sample_risk_thd = 0` and three variates drawn, with and without exploration. -/
theorem select_action_pareto_single_child_witness :
    select_action_pareto example_curve_ops_q example_externals ⟨1 / 2, 1 / 2, 5⟩ 3
      example_single_node true = some (7, ⟨1 / 2, 0, 5⟩, 3) ∧
    select_action_pareto example_curve_ops_q example_externals ⟨1 / 2, 1 / 2, 5⟩ 3
      example_single_node false = some (7, ⟨1 / 2, 0, 5⟩, 3) := by
  obtain ⟨-, a, ha, e⟩ := select_action_pareto_single_child example_curve_ops_q
    example_externals ⟨1 / 2, 1 / 2, 5⟩ 3 example_single_node true _ rfl rfl
  obtain ⟨-, a2, ha2, e2⟩ := select_action_pareto_single_child example_curve_ops_q
    example_externals ⟨1 / 2, 1 / 2, 5⟩ 3 example_single_node false _ rfl rfl
  have h7 : a = 7 := by
    have : example_single_node.actions[0]? = some 7 := rfl
    rw [this] at ha
    exact (Option.some.inj ha).symm
  have h72 : a2 = 7 := by
    have : example_single_node.actions[0]? = some 7 := rfl
    rw [this] at ha2
    exact (Option.some.inj ha2).symm
  subst h7
  subst h72
  exact ⟨e, e2⟩

end ts
end gym
